import Mathlib

/-!
# WordpressBackstop: scenario generation scripts

A shallow embedding of the pure parts of `src/scripts/generate-from-sitemap.js`,
`src/scripts/generate-from-list.js`, `src/scripts/lib/utils.js`,
`src/scripts/backstop-progress.js` and `src/scripts/reset-backstop.js`, with the
properties of the recency sampler, the URL list readers, the scenario assembler, the
configuration writer, the sampling and the standard fetch of a sitemap, the progress
monitor and its command line, the reset, the TLS settings and the wrappers of the
recordings.

JavaScript strings are sequences of UTF-16 code units (`Str`). What the scripts
take from the platform (the URL parser, the MD5 digest, the date parser, case
mapping outside ASCII, `path.join`) is not code of the repository: it is a
parameter, `Builtins`; so are the regular expression engine (`RegExpEngine`,
`RegExpPlain`), the host name of a URL (`HostPlatform`) and the outcome of the
network requests (`SitemapNetwork`). The file system of the reset is the list of
the paths that exist (`FileSystem`). The quotient and the products of the progress
bar are rounded as IEEE 754 doubles are (`toDouble`); times are exact rationals.
-/

namespace Backstop

/-! ## Strings -/

/-- A JavaScript string: its sequence of UTF-16 code units. -/
abbrev Str := List Nat

/-- UTF-16 code units of a list of characters (a surrogate pair above U+FFFF). -/
def utf16Units : List Char → Str
  | [] => []
  | c :: cs =>
    (if c.toNat < 65536 then [c.toNat]
     else [55296 + (c.toNat - 65536) / 1024, 56320 + (c.toNat - 65536) % 1024])
      ++ utf16Units cs

/-- The JavaScript string written as the literal `s`. -/
def utf16 (s : String) : Str := utf16Units s.toList

/-! ## Platform functions -/

/-- The platform functions the scripts call.
* `pathname u` is `new URL(u).pathname`, `none` when the constructor throws;
* `md5hex u` is `crypto.createHash('md5').update(u).digest('hex')`;
* `dateParse s` is the time value of `new Date(s)` in milliseconds, `none` for an
  invalid date (NaN);
* `upperNonAscii c` is `toUpperCase()` of the one-unit string `c`, for `c` outside ASCII;
* `pathJoin a b` is `path.join(a, b)`. -/
structure Builtins where
  pathname : Str → Option Str
  md5hex : Str → Str
  dateParse : Str → Option Int
  upperNonAscii : Nat → Str
  pathJoin : Str → Str → Str

/-! ## Recency sampler (`generate-from-sitemap.js`) -/

/-- An entry of a sitemap: `{ url, lastmod }`, `lastmod` being a string or `null`. -/
structure UrlEntry where
  url : Str
  lastmod : Option Str
deriving DecidableEq, Repr

/-- Truthiness of `u.lastmod`: neither `null` nor the empty string. -/
def UrlEntry.isDated (u : UrlEntry) : Bool :=
  match u.lastmod with
  | some (_ :: _) => true
  | _ => false

/-- Time value of `new Date(u.lastmod)`: `new Date(null)` is the epoch, an unparsable
string gives NaN (`none`). -/
def dateOf (B : Builtins) (u : UrlEntry) : Option Int :=
  match u.lastmod with
  | none => some 0
  | some s => B.dateParse s

/-- The comparator `(a, b) => new Date(b.lastmod) - new Date(a.lastmod)`; `none` is NaN. -/
def compareLastmod (B : Builtins) (a b : UrlEntry) : Option Int :=
  match dateOf B b, dateOf B a with
  | some tb, some ta => some (tb - ta)
  | _, _ => none

/-- One insertion of the stable sort: `a` moves behind `b` only when the comparator
result is positive; a NaN result counts as `+0`. -/
def sortInsert {α : Type} (cmp : α → α → Option Int) (a : α) : List α → List α
  | [] => [a]
  | b :: l => if 0 < (cmp a b).getD 0 then b :: sortInsert cmp a l else a :: b :: l

/-- `Array.prototype.sort(cmp)`, which is stable: for a consistent comparator every
stable sort returns this list. -/
def jsSort {α : Type} (cmp : α → α → Option Int) : List α → List α
  | [] => []
  | a :: l => sortInsert cmp a (jsSort cmp l)

/-- `xs.slice(0, limit)` for an integer `limit`: a negative `limit` counts from the end. -/
def slice0 {α : Type} (xs : List α) (limit : Int) : List α :=
  if limit < 0 then xs.take (xs.length + limit).toNat else xs.take limit.toNat

/-- `urlsWithDates.filter(u => u.lastmod)`. -/
def withDate (es : List UrlEntry) : List UrlEntry := es.filter fun u => u.isDated

/-- `urlsWithDates.filter(u => !u.lastmod)`. -/
def withoutDate (es : List UrlEntry) : List UrlEntry := es.filter fun u => !u.isDated

/-- `combined`: the dated entries sorted by `lastmod`, then the undated ones reversed. -/
def combined (B : Builtins) (es : List UrlEntry) : List UrlEntry :=
  jsSort (compareLastmod B) (withDate es) ++ (withoutDate es).reverse

/-- `combined.slice(0, limit)`: the entries whose URLs are returned. -/
def selectedEntries (B : Builtins) (es : List UrlEntry) (limit : Int) : List UrlEntry :=
  slice0 (combined B es) limit

/-- `selectMostRecentUrls(urlsWithDates, limit)`. -/
def selectMostRecentUrls (B : Builtins) (es : List UrlEntry) (limit : Int) : List Str :=
  (selectedEntries B es limit).map fun u => u.url

/-- Entry `a` is at least as recent as entry `b`: the order of the dated part of the
result, for entries whose dates are valid. -/
def NewerFirst (B : Builtins) (a b : UrlEntry) : Prop :=
  ∀ ta tb, dateOf B a = some ta → dateOf B b = some tb → tb ≤ ta

/-- The entries of the sampler example: two dated entries and an undated one. -/
def sampleEntries : List UrlEntry :=
  [⟨utf16 "u1", some (utf16 "2023-01-01")⟩, ⟨utf16 "u2", some (utf16 "2023-06-01")⟩,
   ⟨utf16 "u3", none⟩]

/-! ## String methods -/

/-- `s.split(sep)` for a one-unit separator: the segments between its occurrences. -/
def splitOn (sep : Nat) : Str → List Str
  | [] => [[]]
  | c :: cs =>
    if c = sep then [] :: splitOn sep cs
    else
      match splitOn sep cs with
      | [] => [[c]]
      | w :: ws => (c :: w) :: ws

/-- Code units that `trim()` removes: the WhiteSpace and LineTerminator characters. -/
def isWhiteSpace (c : Nat) : Bool :=
  c == 9 || c == 10 || c == 11 || c == 12 || c == 13 || c == 32 || c == 160 || c == 5760 ||
  (8192 ≤ c && c ≤ 8202) || c == 8232 || c == 8233 || c == 8239 || c == 8287 ||
  c == 12288 || c == 65279

/-- `s.trim()`. -/
def trim (s : Str) : Str :=
  ((s.dropWhile isWhiteSpace).reverse.dropWhile isWhiteSpace).reverse

/-- `s.startsWith(c)` for a one-unit string `c`. -/
def startsWith (s : Str) (c : Nat) : Bool :=
  match s with
  | x :: _ => x == c
  | [] => false

/-- `s.indexOf(c)` for a one-unit string `c`: the first position, or `-1`. -/
def indexOf (s : Str) (c : Nat) : Int :=
  if c ∈ s then (s.indexOf c : Int) else -1

/-- `parts.join(sep)`. -/
def join (sep : Str) : List Str → Str
  | [] => []
  | [w] => w
  | w :: ws => w ++ sep ++ join sep ws

/-- `c.toUpperCase()` for the one-unit string `c`: ASCII letters by the table of the
language, other ASCII units unchanged, the rest by the platform. -/
def toUpperCase (B : Builtins) (c : Nat) : Str :=
  if 97 ≤ c ∧ c ≤ 122 then [c - 32] else if c < 128 then [c] else B.upperNonAscii c

/-! ## URL list reader (`generate-from-list.js`) -/

/-- The inline comment removal of `readTxtFile`: when `#` occurs after position 0 the
text before it, trimmed; otherwise the line. -/
def stripInlineComment (line : Str) : Str :=
  let commentIndex := indexOf line 35
  if commentIndex > 0 then trim (line.take commentIndex.toNat) else line

/-- `readTxtFile`, as a function of the content of the file. -/
def readTxtFile (content : Str) : List Str :=
  ((((splitOn 10 content).map trim).filter fun line => !line.isEmpty && !startsWith line 35).map
    stripInlineComment).filter fun line => !line.isEmpty

/-! ## Scenario assembler (`lib/utils.js`) -/

/-- `pathname.replace(/^\/|\/$/g, '')`: one leading slash and, in what follows it,
one trailing slash are removed. -/
def stripSlashes (pathname : Str) : Str :=
  let rest := if startsWith pathname 47 then pathname.drop 1 else pathname
  if rest.getLast? = some 47 then rest.dropLast else rest

/-- `word.charAt(0).toUpperCase() + word.slice(1)`. -/
def capitalize (B : Builtins) (word : Str) : Str :=
  match word with
  | [] => []
  | c :: cs => toUpperCase B c ++ cs

/-- The rewriting of one path segment: split on `-`, capitalise, join with a space. -/
def formatPart (B : Builtins) (part : Str) : Str :=
  join (utf16 " ") ((splitOn 45 part).map (capitalize B))

/-- `generateLabel(url)`: the URL itself when it does not parse. -/
def generateLabel (B : Builtins) (url : Str) : Str :=
  match B.pathname url with
  | none => url
  | some p =>
    let pathname := stripSlashes p
    if pathname.isEmpty then utf16 "Homepage"
    else join (utf16 " - ") ((splitOn 47 pathname).map (formatPart B))

/-- The characters removed from a label: `< > : " / \ | ? *`. -/
def isForbidden (c : Nat) : Bool :=
  c == 60 || c == 62 || c == 58 || c == 34 || c == 47 || c == 92 || c == 124 || c == 63 ||
  c == 42

/-- The readable part of the label: `safeLabel` of `generateScenarios`. -/
def safeLabel (B : Builtins) (url : Str) : Str :=
  let safe := trim ((generateLabel B url).filter fun c => !isForbidden c)
  if safe.length > 60 then trim (safe.take 60) else safe

/-- `hash`: the first 8 characters of the hexadecimal MD5 digest of the URL. -/
def urlHash (B : Builtins) (url : Str) : Str := (B.md5hex url).take 8

/-- A decimal number as JSON writes it: `mantissa` times ten to the `exp10`. -/
structure Num where
  mantissa : Int
  exp10 : Int
deriving DecidableEq, Repr

/-- The environment variables read by `lib/utils.js` (`none` when unset). -/
structure Env where
  PROJECT_ID : Option Str
  BACKSTOP_DATA_DIR : Option Str
  BACKSTOP_SCRIPTS_DIR : Option Str
deriving DecidableEq, Repr

/-- `v || d` for a string or undefined `v`: `d` when `v` is unset or empty. -/
def orDefault (v : Option Str) (d : Str) : Str :=
  match v with
  | some (c :: cs) => c :: cs
  | _ => d

/-- `SCRIPTS_DIR`. -/
def scriptsDir (env : Env) : Str :=
  orDefault env.BACKSTOP_SCRIPTS_DIR (utf16 "backstop_data/engine_scripts")

/-- A scenario record of the generated configuration. -/
structure ScenarioRecord where
  label : Str
  cookiePath : Str
  url : Str
  referenceUrl : Str
  readySelector : Str
  delay : Nat
  selectors : List Str
  misMatchThreshold : Num
  requireSameDimensions : Bool
deriving DecidableEq, Repr

/-- The record `generateScenarios` builds for one URL. -/
def scenarioOf (B : Builtins) (env : Env) (url : Str) : ScenarioRecord where
  label := safeLabel B url ++ utf16 " [" ++ urlHash B url ++ utf16 "]"
  cookiePath := scriptsDir env ++ utf16 "/cookies.json"
  url := url
  referenceUrl := []
  readySelector := utf16 "body"
  delay := 5000
  selectors := []
  misMatchThreshold := ⟨1, -1⟩
  requireSameDimensions := true

/-- `generateScenarios(urls)`. -/
def generateScenarios (B : Builtins) (env : Env) (urls : List Str) : List ScenarioRecord :=
  urls.map (scenarioOf B env)

/-! ## Configuration writer (`lib/utils.js`) -/

/-- A JSON value. An object is the list of its entries in order; as in `JSON.parse`,
of two entries with one key the later one counts. The place that integer-like keys
take in the key order of an object is not modelled. -/
inductive Json where
  | null
  | bool (b : Bool)
  | num (n : Num)
  | str (s : Str)
  | arr (items : List Json)
  | obj (entries : List (Str × Json))

/-- An object: its entries, in order. -/
abbrev Obj := List (Str × Json)

/-- `o[k]`: the value of the last entry with key `k`, `none` when there is none. -/
def objGet : Obj → Str → Option Json
  | [], _ => none
  | (k2, v) :: rest, k =>
    match objGet rest k with
    | some w => some w
    | none => if k2 = k then some v else none

/-- `o[k] = v`: an existing key keeps its place and takes the value, a new key goes last. -/
def objSet (k : Str) (v : Json) (o : Obj) : Obj :=
  if (o.map fun e => e.1).contains k then o.map fun e => if e.1 = k then (e.1, v) else e
  else o ++ [(k, v)]

/-- The object without key `k`. -/
def objErase (k : Str) (o : Obj) : Obj := o.filter fun e => e.1 != k

/-- `{ ...a, ...b }` onto a copy of `a`: the entries of `b` are set in order. -/
def objSpread (a b : Obj) : Obj := b.foldl (fun acc e => objSet e.1 e.2 acc) a

/-- The entries `{ "0": x0, "1": x1, ... }` of an array or of the characters of a string. -/
def indexEntries (items : List Json) : Obj :=
  items.enum.map fun e => (utf16 (Nat.repr e.1), e.2)

/-- `const { scenarios, ...rest } = existing`: `rest`, or `none` when the destructuring
throws (`existing` is `null`). Numbers and booleans have no own properties; an array
or a string has its indices. -/
def restWithoutScenarios : Json → Option Obj
  | .null => none
  | .bool _ => some []
  | .num _ => some []
  | .str s => some (objErase (utf16 "scenarios") (indexEntries (s.map fun c => .str [c])))
  | .arr items => some (objErase (utf16 "scenarios") (indexEntries items))
  | .obj entries => some (objErase (utf16 "scenarios") entries)

/-- What `getBaseConfig` finds at `backstop.json`: no file, a file that cannot be read
or parsed (the exception is caught), or the parsed value. -/
inductive ExistingFile where
  | absent
  | unreadable
  | parsed (existing : Json)

/-- `baseConfig` after the `try` block. -/
def baseConfigOf : ExistingFile → Obj
  | .absent => []
  | .unreadable => []
  | .parsed existing => (restWithoutScenarios existing).getD []

/-- A whole number as a JSON value. -/
def Json.int (n : Int) : Json := .num ⟨n, 0⟩

/-- A string literal as a JSON value. -/
def Json.lit (s : String) : Json := .str (utf16 s)

/-- `defaultConfig`. -/
def defaultConfig : Obj :=
  [(utf16 "viewports", .arr [
      .obj [(utf16 "label", .lit "phone"), (utf16 "width", .int 320), (utf16 "height", .int 480)],
      .obj [(utf16 "label", .lit "tablet"), (utf16 "width", .int 1024),
        (utf16 "height", .int 768)]]),
   (utf16 "report", .arr [.lit "browser"]),
   (utf16 "engine", .lit "puppeteer"),
   (utf16 "engineOptions", .obj [(utf16 "args", .arr [.lit "--no-sandbox"])]),
   (utf16 "asyncCaptureLimit", .int 5),
   (utf16 "asyncCompareLimit", .int 50),
   (utf16 "debug", .bool false),
   (utf16 "debugWindow", .bool false)]

/-- `PROJECT_ID`. -/
def projectId (env : Env) : Str := orDefault env.PROJECT_ID (utf16 "backstop_default")

/-- `DATA_DIR`. -/
def dataDir (B : Builtins) (env : Env) : Str :=
  match env.BACKSTOP_DATA_DIR with
  | some (c :: cs) => B.pathJoin (utf16 "backstop_data") (c :: cs)
  | _ => utf16 "backstop_data"

/-- The `paths` object written by `getBaseConfig`. -/
def envPaths (B : Builtins) (env : Env) : Json :=
  .obj [(utf16 "bitmaps_reference", .str (dataDir B env ++ utf16 "/bitmaps_reference")),
        (utf16 "bitmaps_test", .str (dataDir B env ++ utf16 "/bitmaps_test")),
        (utf16 "engine_scripts", .str (scriptsDir env)),
        (utf16 "html_report", .str (dataDir B env ++ utf16 "/html_report")),
        (utf16 "ci_report", .str (dataDir B env ++ utf16 "/ci_report"))]

/-- `getBaseConfig()`, as a function of the environment and of the existing file. -/
def getBaseConfig (B : Builtins) (env : Env) (file : ExistingFile) : Obj :=
  let baseConfig := baseConfigOf file
  let config := objSpread (objSpread [] defaultConfig) baseConfig
  let config := objSet (utf16 "id") (.str (projectId env)) config
  objSet (utf16 "paths") (envPaths B env) config

/-- A scenario record as the JSON object written to `backstop.json`. -/
def scenarioJson (r : ScenarioRecord) : Json :=
  .obj [(utf16 "label", .str r.label),
        (utf16 "cookiePath", .str r.cookiePath),
        (utf16 "url", .str r.url),
        (utf16 "referenceUrl", .str r.referenceUrl),
        (utf16 "readySelector", .str r.readySelector),
        (utf16 "delay", .int r.delay),
        (utf16 "selectors", .arr (r.selectors.map fun s => .str s)),
        (utf16 "misMatchThreshold", .num r.misMatchThreshold),
        (utf16 "requireSameDimensions", .bool r.requireSameDimensions)]

/-- `finalConfig` of `main` in `generate-from-list.js`: `{ ...baseConfig, scenarios }`
with `baseConfig = getBaseConfig()`; it is what `main` writes to `backstop.json`. -/
def finalConfig (B : Builtins) (env : Env) (file : ExistingFile)
    (scenarios : List ScenarioRecord) : Obj :=
  objSet (utf16 "scenarios") (.arr (scenarios.map scenarioJson))
    (objSpread [] (getBaseConfig B env file))

/-- The existing file found by the next run after `config` was written: `JSON.parse`
gives back the value that `JSON.stringify` wrote. -/
def readBack (config : Obj) : ExistingFile := .parsed (.obj config)

/-! ## Progress monitor (`backstop-progress.js`) -/

/-- The regular expression engine and the case mapping of the platform. A pattern is
the source text of a regular expression.
* `valid p` tells whether `new RegExp(p, 'i')` is constructed without a SyntaxError;
* `test p s` is `new RegExp(p, 'i').test(s)`;
* `group1 p s` is the first capture group of `s.match(new RegExp(p, 'i'))`, `none`
  when there is no match;
* `removeAll p s` is `s.replace(new RegExp(p, 'g'), '')`;
* `toLowerCase s` is `s.toLowerCase()`. -/
structure RegExpEngine where
  valid : Str → Bool
  test : Str → Str → Bool
  group1 : Str → Str → Option Str
  removeAll : Str → Str → Str
  toLowerCase : Str → Str

/-- The pattern of `stripAnsi`. -/
def ansiPattern : Str :=
  utf16 "[\\u001b\\u009b][[()#;?]*(?:[0-9]\x7b1,4\x7d(?:;[0-9]\x7b0,4\x7d)*)?[0-9A-ORZcf-nqry=><]"

/-- `stripAnsi(str)`. -/
def stripAnsi (R : RegExpEngine) (str : Str) : Str := R.removeAll ansiPattern str

/-- `patterns.scenarioStart`. -/
def scenarioStartPattern : Str := utf16 "SCENARIO\\s*[:\\|]\\s*(.+)"

/-- `patterns.viewport`. -/
def viewportPattern : Str := utf16 "\\[(\\d+x\\d+|\\w+)\\]"

/-- `patterns.captureStep`. -/
def captureStepPattern : Str := utf16 "Close Browser|BackstopTools have been installed"

/-- `patterns.compareComplete`. -/
def compareCompletePattern : Str := utf16 "compare|bitmap|captured|rendered"

/-- `patterns.passed`. -/
def passedPattern : Str := utf16 "passed|✓|PASS"

/-- `patterns.failed`. -/
def failedPattern : Str := utf16 "failed|✗|FAIL|mismatch"

/-- `s.includes(sub)`. -/
def includes : Str → Str → Bool
  | [], sub => sub.isEmpty
  | c :: cs, sub => sub.isPrefixOf (c :: cs) || includes cs sub

/-- `xs.findIndex(p)`: the first position where `p` holds, or `-1`. -/
def findIndex {α : Type} (xs : List α) (p : α → Bool) : Int :=
  match xs.findIdx? p with
  | some i => (i : Int)
  | none => -1

/-- A configuration as the progress monitor reads it: `scenarios` and `viewports` are
arrays when present, and every scenario has a string `label`. -/
structure RunnerConfig where
  scenarios : Option (List ScenarioRecord)
  viewports : Option (List Json)

/-- The result of `calculateTotalTests`. -/
structure TestInfo where
  scenarios : Nat
  viewports : Nat
  total : Nat
  scenarioLabels : List Str
deriving DecidableEq, Repr

/-- `calculateTotalTests(config, filter)`; `none` when `new RegExp(filter, 'i')` throws.
A `null` or empty `filter` is no filter. -/
def calculateTotalTests (R : RegExpEngine) (config : RunnerConfig) (filter : Option Str) :
    Option TestInfo :=
  let scenarios := config.scenarios.getD []
  let filtered : Option (List ScenarioRecord) :=
    match filter with
    | some (c :: cs) =>
      if R.valid (c :: cs) then some (scenarios.filter fun s => R.test (c :: cs) s.label)
      else none
    | _ => some scenarios
  let viewports := config.viewports.getD []
  filtered.map fun scenarios =>
    { scenarios := scenarios.length
      viewports := viewports.length
      total := scenarios.length * viewports.length * 2
      scenarioLabels := scenarios.map fun s => s.label }

/-- The integer nearest to `q`; of two nearest integers, the even one. -/
def roundHalfEven (q : ℚ) : Int :=
  if q - ⌊q⌋ < 1 / 2 then ⌊q⌋
  else if 1 / 2 < q - ⌊q⌋ then ⌊q⌋ + 1
  else if ⌊q⌋ % 2 = 0 then ⌊q⌋ else ⌊q⌋ + 1

/-- The exponent of the unit in the last place of the doubles around `x`: 52 binary
places below the leading bit of `x`, and `-1074` in the subnormal range. -/
def ulpExponent (x : ℚ) : Int := max (Int.log 2 |x|) (-1022) - 52

/-- The Number value for `x`, by which every arithmetic operator of the language
rounds its exact result: the double nearest to `x`, and of two nearest doubles the
one with an even significand. A result beyond the largest double (an infinity) is
not modelled. -/
def toDouble (x : ℚ) : ℚ := (roundHalfEven (x / 2 ^ ulpExponent x) : ℚ) * 2 ^ ulpExponent x

/-- `Math.round(x)` for a double `x`: the nearest integer, the upper one of two
nearest; this is exact. -/
def mathRound (x : ℚ) : Int := ⌊x + 1 / 2⌋

/-- `s.repeat(count)`: a RangeError (`none`) for a negative count. -/
def repeatStr (s : Str) (count : Int) : Option Str :=
  if count < 0 then none else some (List.replicate count.toNat s).flatten

/-- The result of `createProgressBar`. -/
structure ProgressBar where
  bar : Str
  percent : Int
deriving DecidableEq, Repr

/-- `percentage` of `createProgressBar`: `total > 0 ? current / total : 0`, the
quotient being rounded to a double. -/
def percentage (current total : Nat) : ℚ :=
  if total > 0 then toDouble ((current : ℚ) / (total : ℚ)) else 0

/-- `createProgressBar(current, total, width)` for counts `current`, `total`, `width`
below `2^53`, which are numbers of the language; `none` when a `repeat` throws. The
two products are rounded to doubles before `Math.round`; the difference
`width - filled` of two integers below `2^53` is exact. -/
def createProgressBar (current total : Nat) (width : Nat) : Option ProgressBar :=
  let filled : Int := mathRound (toDouble ((width : ℚ) * percentage current total))
  let empty : Int := (width : Int) - filled
  match repeatStr (utf16 "█") filled, repeatStr (utf16 "░") empty with
  | some a, some b =>
    some { bar := a ++ b, percent := mathRound (toDouble (percentage current total * 100)) }
  | _, _ => none

/-- The monitor of `main`: the fields of `state`, with `outputBuffer` and
`lastScenarioIndex`. Times are in milliseconds, `elapsedTime` in seconds. -/
structure Monitor where
  completed : Nat
  total : Nat
  passed : Nat
  failed : Nat
  currentScenario : Str
  currentViewport : Str
  elapsedTime : ℚ
  startTime : Int
  outputBuffer : Str
  lastScenarioIndex : Int

/-- The monitor when the subprocess is spawned, `startTime` being `Date.now()`. -/
def initialMonitor (total : Nat) (startTime : Int) : Monitor where
  completed := 0
  total := total
  passed := 0
  failed := 0
  currentScenario := []
  currentViewport := []
  elapsedTime := 0
  startTime := startTime
  outputBuffer := []
  lastScenarioIndex := -1

/-- `(Date.now() - state.startTime) / 1000`, `now` being the clock reading. -/
def elapsedAt (now : Int) (m : Monitor) : ℚ := ((now - m.startTime : Int) : ℚ) / 1000

/-- What `showProgress` writes: the bar, the percentage, the counts, the elapsed time
and the remaining time given to `formatTime` for the ETA, `none` for the text `--:--`. -/
structure ProgressLine where
  bar : Str
  percent : Int
  completed : Nat
  total : Nat
  elapsedTime : ℚ
  eta : Option ℚ
deriving DecidableEq

/-- `showProgress(state)`; `none` when `createProgressBar` throws. -/
def showProgress (state : Monitor) : Option ProgressLine :=
  (createProgressBar state.completed state.total 30).map fun pb =>
    { bar := pb.bar
      percent := pb.percent
      completed := state.completed
      total := state.total
      elapsedTime := state.elapsedTime
      eta :=
        if 0 < state.completed ∧ pb.percent < (100 : Int) then
          let avgTimePerTest := state.elapsedTime / (state.completed : ℚ)
          some (((state.total : ℚ) - (state.completed : ℚ)) * avgTimePerTest)
        else none }

/-- The scenario detection of the stdout handler on the cleaned `line`;
`scenarioLabels` is `testInfo.scenarioLabels`. -/
def detectScenario (R : RegExpEngine) (scenarioLabels : List Str) (line : Str) (m : Monitor) :
    Monitor :=
  match R.group1 scenarioStartPattern line with
  | some g =>
    let currentScenario := trim g
    let scenarioIndex :=
      findIndex scenarioLabels fun label => includes currentScenario (label.take 30)
    { m with
      currentScenario := currentScenario
      lastScenarioIndex :=
        if scenarioIndex ≠ -1 ∧ scenarioIndex ≠ m.lastScenarioIndex then scenarioIndex
        else m.lastScenarioIndex }
  | none => m

/-- The viewport detection of the stdout handler. -/
def detectViewport (R : RegExpEngine) (line : Str) (m : Monitor) : Monitor :=
  match R.group1 viewportPattern line with
  | some g => { m with currentViewport := g }
  | none => m

/-- `stepCompleted` of the stdout handler: a capture step, or a comparison line that
names a bitmap, a capture or a comparison. -/
def stepCompleted (R : RegExpEngine) (line : Str) : Bool :=
  R.test captureStepPattern line ||
  (R.test compareCompletePattern line &&
    (includes (R.toLowerCase line) (utf16 "bitmap") ||
      includes (R.toLowerCase line) (utf16 "captured") ||
      includes (R.toLowerCase line) (utf16 "compare")))

/-- The count of a completed step: `completed` goes up by one, clamped to `total`;
`now` is the clock reading. -/
def countStep (R : RegExpEngine) (now : Int) (line : Str) (m : Monitor) : Monitor :=
  if stepCompleted R line then
    let newCompleted := min (m.completed + 1) m.total
    if newCompleted > m.completed then
      { m with completed := newCompleted, elapsedTime := elapsedAt now m }
    else m
  else m

/-- The count of a passed result. -/
def countPassed (R : RegExpEngine) (line : Str) (m : Monitor) : Monitor :=
  if R.test passedPattern line && !R.test failedPattern line then
    if includes (R.toLowerCase line) (utf16 "scenario") || includes line (utf16 "✓") then
      { m with passed := m.passed + 1 }
    else m
  else m

/-- The count of a failed result. -/
def countFailed (R : RegExpEngine) (line : Str) (m : Monitor) : Monitor :=
  if R.test failedPattern line then
    if includes (R.toLowerCase line) (utf16 "scenario") || includes line (utf16 "✗") ||
        includes (R.toLowerCase line) (utf16 "mismatch") then
      { m with failed := m.failed + 1 }
    else m
  else m

/-- The body of the loop of the stdout handler for one segment `rawLine`: a segment
that is empty once cleaned is skipped, otherwise the five steps run in order. -/
def processLine (R : RegExpEngine) (scenarioLabels : List Str) (now : Int) (m : Monitor)
    (rawLine : Str) : Monitor :=
  let line := trim (stripAnsi R rawLine)
  if line.isEmpty then m
  else
    countFailed R line (countPassed R line (countStep R now line
      (detectViewport R line (detectScenario R scenarioLabels line m))))

/-- The handler of `backstop.stdout.on('data', ...)` for the text `data`: the segments
before the last newline are processed, the rest is held in `outputBuffer`. -/
def stdoutHandler (R : RegExpEngine) (scenarioLabels : List Str) (now : Int) (m : Monitor)
    (data : Str) : Monitor :=
  let lines := splitOn 10 (m.outputBuffer ++ data)
  (lines.dropLast).foldl (processLine R scenarioLabels now)
    { m with outputBuffer := lines.getLastD [] }

/-- The handler of `backstop.on('close', ...)` on the monitor, for the exit code `code`
(`none` is `null`). -/
def closeHandler (now : Int) (m : Monitor) (code : Option Int) : Monitor :=
  let m1 : Monitor := if code = some 0 then { m with completed := m.total } else m
  { m1 with elapsedTime := elapsedAt now m1 }

/-- The timer callback on the monitor. -/
def timerTick (now : Int) (m : Monitor) : Monitor :=
  { m with elapsedTime := elapsedAt now m }

/-- What happens to the monitor while the subprocess runs, with the clock reading. -/
inductive MonitorEvent where
  | stdout (now : Int) (data : Str)
  | stderr (data : Str)
  | tick (now : Int)
  | close (now : Int) (code : Option Int)

/-- The monitor after one event; the stderr handler only writes to the console. -/
def monitorStep (R : RegExpEngine) (scenarioLabels : List Str) (m : Monitor) :
    MonitorEvent → Monitor
  | .stdout now data => stdoutHandler R scenarioLabels now m data
  | .stderr _ => m
  | .tick now => timerTick now m
  | .close now code => closeHandler now m code

/-- The monitor after a sequence of events. -/
def monitorRun (R : RegExpEngine) (scenarioLabels : List Str) (m : Monitor)
    (events : List MonitorEvent) : Monitor :=
  events.foldl (monitorStep R scenarioLabels) m

/-- The fields of the monitor other than the elapsed time, the start time and the
held buffer. -/
def Monitor.counts (m : Monitor) : Nat × Nat × Nat × Nat × Str × Str × Int :=
  (m.completed, m.total, m.passed, m.failed, m.currentScenario, m.currentViewport,
    m.lastScenarioIndex)

/-! ## JSON URL list reader (`generate-from-list.js`) -/

/-- Truthiness of a JSON value. A number literal too small for a double, which parses
to 0, is not modelled. -/
def Json.truthy : Json → Bool
  | .null => false
  | .bool b => b
  | .num n => n.mantissa != 0
  | .str s => !s.isEmpty
  | .arr _ => true
  | .obj _ => true

/-- The callback of `data.map` in `readJsonFile`; `none` when it throws. An array or
`null` has type `object` and no truthy `url`. -/
def readJsonItem : Json → Option Json
  | .str s => some (.str s)
  | .obj entries =>
    match objGet entries (utf16 "url") with
    | some v => if v.truthy then some v else none
    | none => none
  | _ => none

/-- `data.map(...)` with that callback: the first item that throws ends the call. -/
def readJsonItems : List Json → Option (List Json)
  | [] => some []
  | item :: rest =>
    match readJsonItem item with
    | none => none
    | some v => (readJsonItems rest).map fun vs => v :: vs

/-- `readJsonFile`, as a function of the parsed content; `none` when it throws. -/
def readJsonFile (data : Json) : Option (List Json) :=
  match data with
  | .arr items => readJsonItems items
  | _ => none

/-! ## Sampling of a sitemap (`generate-from-sitemap.js`) -/

/-- What the requests of the sampling mode give, by URL.
* `detectSitemapIndex url` is the value the promise of `detectSitemapIndex` resolves
  to, `{ isIndex, sitemaps }`, `none` when it rejects;
* `fetchSitemapWithDates url` is the entries the promise resolves to, `none` when it
  rejects;
* `sitemapperSites url` is `sites` of the result of a Sitemapper fetch of `url`
  (`some none` when `sites` is undefined). The library resolves also for a URL that it
  cannot fetch, with no site and the failure in `errors`, which the script only
  prints; `none` is an error thrown around the fetch. -/
structure SitemapNetwork where
  detectSitemapIndex : Str → Option (Bool × List UrlEntry)
  fetchSitemapWithDates : Str → Option (List UrlEntry)
  sitemapperSites : Str → Option (Option (List Str))

/-- `s.replace(/\/+$/, '')`: the string without its trailing slashes. -/
def stripTrailingSlashes (s : Str) : Str := (s.reverse.dropWhile fun c => c == 47).reverse

/-- `homepageVariants`. -/
def homepageVariants (siteUrl : Str) : List Str :=
  let normalizedSiteUrl := stripTrailingSlashes siteUrl
  [normalizedSiteUrl, normalizedSiteUrl ++ utf16 "/", normalizedSiteUrl ++ utf16 "/index.html",
    normalizedSiteUrl ++ utf16 "/index.php"]

/-- `hasHomepage`. -/
def hasHomepage (siteUrl : Str) (allUrls : List Str) : Bool :=
  allUrls.any fun url =>
    let normalizedUrl := stripTrailingSlashes url
    (homepageVariants siteUrl).contains normalizedUrl ||
      (homepageVariants siteUrl).contains (normalizedUrl ++ utf16 "/")

/-- The URLs that the loop over the sub-sitemaps pushes to `allUrls`: for each
sub-sitemap the most recent URLs, nothing when it has no URL or its request fails
(the error is caught in the loop). -/
def sampleSubsitemaps (B : Builtins) (N : SitemapNetwork) (sampleSize : Int) :
    List UrlEntry → List Str
  | [] => []
  | subsitemap :: rest =>
    (match N.fetchSitemapWithDates subsitemap.url with
      | none => []
      | some [] => []
      | some (u :: us) => selectMostRecentUrls B (u :: us) sampleSize)
      ++ sampleSubsitemaps B N sampleSize rest

/-- The `try` block of `getAllUrlsWithSampling`: the returned list, `none` when an
error reaches the `catch`. -/
def samplingTry (B : Builtins) (N : SitemapNetwork) (siteUrl : Str) (sampleSize : Int)
    (sitemapUrl : Str) : Option (List Str) :=
  match N.detectSitemapIndex sitemapUrl with
  | none => none
  | some (isIndex, sitemaps) =>
    let sampled : Option (List Str) :=
      if isIndex && sitemaps.length > 0 then some (sampleSubsitemaps B N sampleSize sitemaps)
      else
        match N.fetchSitemapWithDates sitemapUrl with
        | none => none
        | some [] => some []
        | some (u :: us) => some (selectMostRecentUrls B (u :: us) sampleSize)
    sampled.map fun allUrls => if hasHomepage siteUrl allUrls then allUrls else siteUrl :: allUrls

/-- The `catch` block of `getAllUrlsWithSampling`: the first `SAMPLE_SIZE` sites of the
Sitemapper fetch; `none` when it rejects. -/
def samplingFallback (N : SitemapNetwork) (sampleSize : Int) (sitemapUrl : Str) :
    Option (List Str) :=
  match N.sitemapperSites sitemapUrl with
  | none => none
  | some (some (s :: ss)) => some (slice0 (s :: ss) sampleSize)
  | some _ => some []

/-- `getAllUrlsWithSampling(sitemapUrl)` with `SITE_URL` and an integer `SAMPLE_SIZE`;
`none` when the promise rejects. -/
def getAllUrlsWithSampling (B : Builtins) (N : SitemapNetwork) (siteUrl : Str)
    (sampleSize : Int) (sitemapUrl : Str) : Option (List Str) :=
  match samplingTry B N siteUrl sampleSize sitemapUrl with
  | some urls => some urls
  | none => samplingFallback N sampleSize sitemapUrl

/-! ## Command line of the progress wrapper (`backstop-progress.js`) -/

/-- The result of `parseArgs`; `filter` is `none` for `null` or `undefined`. -/
structure ParsedArgs where
  command : Str
  filter : Option Str
  debug : Bool
  extraArgs : List Str
deriving DecidableEq, Repr

/-- The body of the loop of `parseArgs` for one argument: `arg.split('=')[1]` is the
text between the first `=` and the next one. -/
def parseArg (result : ParsedArgs) (arg : Str) : ParsedArgs :=
  if arg = utf16 "test" ∨ arg = utf16 "reference" ∨ arg = utf16 "approve" then
    { result with command := arg }
  else if (utf16 "--filter=").isPrefixOf arg then
    { result with filter := (splitOn 61 arg)[1]?, extraArgs := result.extraArgs ++ [arg] }
  else if arg = utf16 "--debug" then { result with debug := true }
  else { result with extraArgs := result.extraArgs ++ [arg] }

/-- `parseArgs()`, `args` being `process.argv.slice(2)`. -/
def parseArgs (args : List Str) : ParsedArgs :=
  args.foldl parseArg
    { command := utf16 "test", filter := none, debug := false, extraArgs := [] }

/-- `backstopArgs` of `main`: what the runner receives after `backstop`. -/
def backstopArgs (args : List Str) : List Str :=
  (parseArgs args).command :: (parseArgs args).extraArgs

/-! ## Constants and URL cap of `generate-from-sitemap.js` -/

/-- `a + b` for two environment values, each a string or `undefined`: the strings are
concatenated, `undefined` reading `undefined`; two `undefined` give NaN (`none`). -/
def envPlus (a b : Option Str) : Option Str :=
  match a, b with
  | some x, some y => some (x ++ y)
  | some x, none => some (x ++ utf16 "undefined")
  | none, some y => some (utf16 "undefined" ++ y)
  | none, none => none

/-- `SITE_URL` of `generate-from-sitemap.js`, from the environment value. -/
def siteUrlConst (siteUrlEnv : Option Str) : Str := orDefault siteUrlEnv (utf16 "https://wordpress.org")

/-- `SITEMAP_URL` of `generate-from-sitemap.js`:
`process.env.SITE_URL + process.env.SITEMAP_URL || SITE_URL + '/sitemap.xml'`, the sum
being taken before `||`. -/
def sitemapUrlConst (siteUrlEnv sitemapUrlEnv : Option Str) : Str :=
  orDefault (envPlus siteUrlEnv sitemapUrlEnv) (siteUrlConst siteUrlEnv ++ utf16 "/sitemap.xml")

/-- `finalUrls` of `main`; `maxUrls` is `MAX_URLS`, an integer or `null` (`none`). -/
def finalUrls (maxUrls : Option Int) (sitemapUrls : List Str) : List Str :=
  match maxUrls with
  | some m =>
    if m ≠ 0 ∧ (sitemapUrls.length : Int) > m then slice0 sitemapUrls m else sitemapUrls
  | none => sitemapUrls

/-- `sitemapScenarios` of `main`, from the URLs that the sitemap gave. -/
def sitemapScenarios (B : Builtins) (env : Env) (maxUrls : Option Int)
    (sitemapUrls : List Str) : List ScenarioRecord :=
  if sitemapUrls.length > 0 then generateScenarios B env (finalUrls maxUrls sitemapUrls) else []

/-! ## Standard fetch of a sitemap (`generate-from-sitemap.js`) -/

/-- `s.replace(pat, repl)` for a string pattern and a replacement without `$`: the
first occurrence of `pat` is replaced. -/
def replaceFirst : Str → Str → Str → Str
  | [], pat, repl => if pat.isEmpty then repl else []
  | c :: cs, pat, repl =>
    if pat.isPrefixOf (c :: cs) then repl ++ (c :: cs).drop pat.length
    else c :: replaceFirst cs pat repl

/-- `sites` when it is a non-empty array, else the empty list that is returned. -/
def sitesOrEmpty (sites : Option (List Str)) : List Str :=
  match sites with
  | some (s :: ss) => s :: ss
  | _ => []

/-- The `catch` block of `getAllUrlsFromSitemap`: for a URL that contains
`sitemap_index.xml`, one fetch of the URL with `sitemap.xml` in its place (unless
that URL answers with HTML); an error of that fetch is caught. -/
def sitemapRetry (N : SitemapNetwork) (isHtmlResponse : Str → Bool) (sitemapUrl : Str) :
    List Str :=
  if includes sitemapUrl (utf16 "sitemap_index.xml") then
    let fallbackUrl := replaceFirst sitemapUrl (utf16 "sitemap_index.xml") (utf16 "sitemap.xml")
    if isHtmlResponse fallbackUrl then []
    else
      match N.sitemapperSites fallbackUrl with
      | some sites => sitesOrEmpty sites
      | none => []
  else []

/-- The `try` block of `getAllUrlsFromSitemap`: what it returns, `none` when an error
reaches the `catch`. `isHtmlResponse` never rejects. -/
def sitemapTry (B : Builtins) (N : SitemapNetwork) (isHtmlResponse : Str → Bool)
    (sampleMode : Bool) (siteUrl : Str) (sampleSize : Int) (sitemapUrl : Str) :
    Option (List Str) :=
  if isHtmlResponse sitemapUrl then some []
  else if sampleMode then getAllUrlsWithSampling B N siteUrl sampleSize sitemapUrl
  else (N.sitemapperSites sitemapUrl).map sitesOrEmpty

/-- `getAllUrlsFromSitemap(sitemapUrl)`, with `SITEMAP_SAMPLE_MODE`, `SITE_URL` and
`SAMPLE_SIZE`. -/
def getAllUrlsFromSitemap (B : Builtins) (N : SitemapNetwork) (isHtmlResponse : Str → Bool)
    (sampleMode : Bool) (siteUrl : Str) (sampleSize : Int) (sitemapUrl : Str) : List Str :=
  match sitemapTry B N isHtmlResponse sampleMode siteUrl sampleSize sitemapUrl with
  | some urls => urls
  | none => sitemapRetry N isHtmlResponse sitemapUrl

/-! ## Reset (`reset-backstop.js`) -/

/-- A path of the file system: the names from the root down. -/
abbrev FsPath := List Str

/-- The state of the file system: the paths that exist. -/
abbrev FileSystem := List FsPath

/-- `pathsToRemove`. -/
def pathsToRemove (B : Builtins) (env : Env) : List Str :=
  [dataDir B env ++ utf16 "/bitmaps_reference",
   dataDir B env ++ utf16 "/bitmaps_test",
   dataDir B env ++ utf16 "/html_report",
   dataDir B env ++ utf16 "/ci_report",
   utf16 "backstop_data/bitmaps_reference",
   utf16 "backstop_data/bitmaps_test",
   utf16 "backstop_data/html_report",
   utf16 "backstop_data/ci_report",
   scriptsDir env ++ utf16 "/puppet",
   utf16 "backstop.json",
   utf16 "puppet"]

/-- `fs.rmSync(fullPath, { recursive: true, force: true })`: the path goes with all
the paths below it. -/
def rmSync (fs : FileSystem) (fullPath : FsPath) : FileSystem :=
  fs.filter fun p => !fullPath.isPrefixOf p

/-- `remove(targetPath)`; `resolve targetPath` is the path that
`path.join(ROOT, targetPath)` names. -/
def remove (resolve : Str → FsPath) (fs : FileSystem) (targetPath : Str) : FileSystem :=
  if fs.contains (resolve targetPath) then rmSync fs (resolve targetPath) else fs

/-- `pathsToRemove.forEach(remove)`. -/
def resetBackstop (B : Builtins) (env : Env) (resolve : Str → FsPath) (fs : FileSystem) :
    FileSystem :=
  (pathsToRemove B env).foldl (remove resolve) fs

/-! ## TLS settings (`lib/utils.js`, `generate-from-sitemap.js`) -/

/-- The platform functions of `isLocalDomain`: `hostname u` is `new URL(u).hostname`,
`none` when the constructor throws; `toLowerCase s` is `s.toLowerCase()`. -/
structure HostPlatform where
  hostname : Str → Option Str
  toLowerCase : Str → Str

/-- `isLocalDomain(url)`. -/
def isLocalDomain (H : HostPlatform) (url : Str) : Bool :=
  match H.hostname url with
  | none => false
  | some h =>
    let hostname := H.toLowerCase h
    hostname == utf16 "localhost" ||
    (utf16 ".test").isSuffixOf hostname ||
    (utf16 ".local").isSuffixOf hostname ||
    (utf16 "127.").isPrefixOf hostname ||
    (utf16 "192.168.").isPrefixOf hostname ||
    (utf16 "10.").isPrefixOf hostname ||
    hostname == utf16 "0.0.0.0"

/-- `REJECT_UNAUTHORIZED`, in `lib/utils.js` and in `generate-from-sitemap.js`: the
override of the environment, `none` (`null`) when the variable is unset. -/
def rejectUnauthorizedOverride (rejectEnv : Option Str) : Option Bool :=
  match rejectEnv with
  | none => none
  | some v => some (v == utf16 "true" || v == utf16 "1")

/-- `shouldRejectUnauthorized` of `detectAndConfigureSSL`. -/
def shouldRejectUnauthorized (H : HostPlatform) (rejectEnv : Option Str) (targetUrl : Str) :
    Bool :=
  match rejectUnauthorizedOverride rejectEnv with
  | some b => b
  | none => !isLocalDomain H targetUrl

/-- `detectAndConfigureSSL(targetUrl)`: the value of `NODE_TLS_REJECT_UNAUTHORIZED`
after the call, from its value `nodeTls` before. -/
def detectAndConfigureSSL (H : HostPlatform) (rejectEnv nodeTls : Option Str)
    (targetUrl : Str) : Option Str :=
  if !shouldRejectUnauthorized H rejectEnv targetUrl && (orDefault nodeTls []).isEmpty then
    some (utf16 "0")
  else nodeTls

/-- The fields of a parsed URL that the requests use. -/
structure UrlParts where
  protocol : Str
  hostname : Str
  port : Str
  pathname : Str
  search : Str
deriving DecidableEq, Repr

/-- The options of an HTTP request; `port` is the string of the URL or a number. -/
structure RequestOptions where
  hostname : Str
  port : Str ⊕ Nat
  path : Str
  method : Str
  headers : Json
  timeout : Int
  rejectUnauthorized : Bool

/-- `urlObj.port || (urlObj.protocol === 'https:' ? 443 : 80)`. -/
def requestPort (u : UrlParts) : Str ⊕ Nat :=
  if !u.port.isEmpty then .inl u.port
  else if u.protocol = utf16 "https:" then .inr 443 else .inr 80

/-- `options` of `isHtmlResponse`; `headers` is `REQUEST_HEADERS`. -/
def isHtmlResponseOptions (u : UrlParts) (headers : Json) : RequestOptions where
  hostname := u.hostname
  port := requestPort u
  path := u.pathname ++ u.search
  method := utf16 "HEAD"
  headers := headers
  timeout := 5000
  rejectUnauthorized := false

/-- `options` of `fetchSitemapWithDates`; `timeout` is `TIMEOUT`. -/
def fetchSitemapWithDatesOptions (u : UrlParts) (headers : Json) (timeout : Int) :
    RequestOptions where
  hostname := u.hostname
  port := requestPort u
  path := u.pathname ++ u.search
  method := utf16 "GET"
  headers := headers
  timeout := timeout
  rejectUnauthorized := false

/-- `options` of `detectSitemapIndex`. -/
def detectSitemapIndexOptions (u : UrlParts) (headers : Json) (timeout : Int) :
    RequestOptions where
  hostname := u.hostname
  port := requestPort u
  path := u.pathname ++ u.search
  method := utf16 "GET"
  headers := headers
  timeout := timeout
  rejectUnauthorized := false

/-! ## Recording wrappers (`generate-from-sitemap.js`) -/

/-- The regular expression engine for expressions without the `i` flag. A pattern is
the source text of a regular expression, a replacement has no `$`.
* `replace p r s` is `s.replace(new RegExp(p), r)`;
* `replaceGlobal p r s` is `s.replace(new RegExp(p, 'g'), r)`;
* `group1 p s` is the first capture group of `s.match(new RegExp(p))`, `none` when
  there is no match. -/
structure RegExpPlain where
  replace : Str → Str → Str → Str
  replaceGlobal : Str → Str → Str → Str
  group1 : Str → Str → Option Str

/-- The pattern of the creation of the browser, in `createRecordingWrapper`. -/
def launchBlockPattern : Str :=
  utf16 ("const\\s+browser\\s*=\\s*await\\s+puppeteer\\.launch\\(\\);[\\s\\S]*?" ++
    "const\\s+page\\s*=\\s*await\\s+browser\\.newPage\\(\\);[\\s\\S]*?" ++
    "const\\s+timeout\\s*=\\s*\\d+;[\\s\\S]*?page\\.setDefaultTimeout\\(timeout\\);[\\s\\S]*?")

/-- The pattern of the closing of the browser. -/
def closePattern : Str := utf16 "await\\s+browser\\.close\\(\\);[\\s\\S]*?"

/-- The pattern of the opening of the self-invoking block. -/
def iifePattern : Str := utf16 "\\(async\\s*\\(\\)\\s*=>\\s*\x7b"

/-- The pattern of the end of the self-invoking block with its `catch`. -/
def catchBlockPattern : Str :=
  utf16 ("\\\x7d\\)\\(\\)\\.catch\\(err\\s*=>\\s*\x7b[\\s\\S]*?console\\.error\\(err\\);" ++
    "[\\s\\S]*?process\\.exit\\(1\\);[\\s\\S]*?\x7d\\);?[\\s\\S]*$")

/-- The first line of an exported callable. -/
def exportLine : Str := utf16 "module.exports = async (page, scenario, vp) => \x7b"

/-- `adaptedContent` of `createRecordingWrapper` after its four replacements. -/
def adaptContent (P : RegExpPlain) (recordingContent : Str) : Str :=
  P.replace catchBlockPattern (utf16 "\x7d;")
    (P.replace iifePattern exportLine
      (P.replaceGlobal closePattern []
        (P.replace launchBlockPattern [] recordingContent)))

/-- The wrapper that `createRecordingWrapper` writes when the adapted content has no
`module.exports`; `recordingFileName` is `path.basename(recordingFilePath)`. -/
def fallbackWrapper (recordingFileName : Str) : Str :=
  utf16 "const path = require(\x27path\x27);\nconst recordingPath = path.resolve(__dirname, \x27"
  ++ recordingFileName
  ++ utf16 ("\x27);\nconst recording = require(recordingPath);\n\n" ++
      "module.exports = async (page, scenario, vp) => \x7b\n" ++
      "  // El recording original ya está adaptado para BackstopJS\n" ++
      "  // Si necesita adaptación adicional, se puede hacer aquí\n" ++
      "  console.log(\x27Ejecutando recording: ")
  ++ recordingFileName
  ++ utf16 ("\x27);\n  \n" ++
      "  // Extraer la lógica del recording sin crear un nuevo browser\n" ++
      "  // (el recording debe ser adaptado manualmente o usar eval con contexto)\n" ++
      "  \n" ++
      "  // Por ahora, solo navegar a la URL si existe\n" ++
      "  const urlMatch = recording.toString().match(/\\.goto\\([\x27\"]([^\x27\"]+)[\x27\"]\\)/);\n" ++
      "  if (urlMatch) \x7b\n" ++
      "    await page.goto(urlMatch[1], \x7b waitUntil: \x27networkidle0\x27 \x7d);\n" ++
      "  \x7d\n" ++
      "\x7d;")

/-- What `createRecordingWrapper` leaves in the folder of the engine scripts: the text
written at `wrapperPath`, and whether the recording is copied beside it. -/
structure WrapperFile where
  content : Str
  copiesOriginal : Bool
deriving DecidableEq, Repr

/-- `createRecordingWrapper(recordingFilePath, wrapperFileName)`, from the content of
the recording and its file name. -/
def createRecordingWrapper (P : RegExpPlain) (recordingContent recordingFileName : Str) :
    WrapperFile :=
  let adaptedContent := adaptContent P recordingContent
  if !includes adaptedContent (utf16 "module.exports") then
    { content := fallbackWrapper recordingFileName, copiesOriginal := true }
  else
    { content := adaptedContent, copiesOriginal := false }

/-! ## Wrappers of the recordings in the puppet folder (`generate-from-sitemap.js`) -/

/-- The pattern of the timeout of a recording. -/
def timeoutPattern : Str := utf16 "const\\s+timeout\\s*=\\s*(\\d+);"

/-- `timeoutValue`: the group of the timeout pattern, or `5000`. -/
def timeoutValueOf (P : RegExpPlain) (recordingCode : Str) : Str :=
  match P.group1 timeoutPattern recordingCode with
  | some v => v
  | none => utf16 "5000"

/-- The line that replaces a line with the `require` of puppeteer. -/
def requireLine : Str := utf16 "const puppeteer = require(\x27puppeteer\x27);"

/-- The line of the timeout, pushed after the line of the exported callable. -/
def timeoutLine (timeoutValue : Str) : Str :=
  utf16 "    const timeout = " ++ timeoutValue ++ utf16 ";"

/-- The line that closes the exported callable. -/
def closingLine : Str := utf16 "\x7d;"

/-- What the body of the loop does with one line: it pushes lines on `resultLines`
and leaves a value of `skipUntilTimeout`, or it leaves the loop. -/
inductive LineStep where
  | push (out : List Str) (skipUntilTimeout : Bool)
  | stop
deriving DecidableEq, Repr

/-- The body of the loop over the lines of a recording, for the line at index `i` of
`n` lines. -/
def lineStep (timeoutValue : Str) (n i : Nat) (skipUntilTimeout : Bool) (line : Str) :
    LineStep :=
  if includes line (utf16 "require(\x27puppeteer\x27)") ||
      includes line (utf16 "require(\"puppeteer\")") then
    .push [requireLine] skipUntilTimeout
  else if includes line (utf16 "(async () => \x7b") then
    .push [exportLine, timeoutLine timeoutValue] true
  else if includes line (utf16 "puppeteer.launch()") ||
      includes line (utf16 "browser.newPage()") ||
      (includes line (utf16 "const browser") && includes line (utf16 "await")) then
    .push [] skipUntilTimeout
  else if skipUntilTimeout &&
      (includes line (utf16 "const timeout") || includes line (utf16 "setDefaultTimeout")) then
    .push [] false
  else if includes line (utf16 "setDefaultTimeout") then .push [] skipUntilTimeout
  else if includes line (utf16 "browser.close()") then .push [] skipUntilTimeout
  else if includes line (utf16 "\x7d)().catch") ||
      (includes line (utf16 "catch") && decide ((i : Int) > (n : Int) - 5)) then
    .stop
  else .push [line] skipUntilTimeout

/-- The loop over the lines from index `i` on: the lines pushed on `resultLines`. -/
def adaptLoop (timeoutValue : Str) (n : Nat) : Nat → Bool → List Str → List Str
  | _, _, [] => []
  | i, skipUntilTimeout, line :: rest =>
    match lineStep timeoutValue n i skipUntilTimeout line with
    | .stop => []
    | .push out skip => out ++ adaptLoop timeoutValue n (i + 1) skip rest

/-- `resultLines` when the wrapper is written: the lines of the loop, closed by `};`
unless the last one, trimmed, ends with it. Without any line the reading of the last
one throws and no wrapper is written (`none`). -/
def wrapperLines (P : RegExpPlain) (recordingCode : Str) : Option (List Str) :=
  let lines := splitOn 10 recordingCode
  let resultLines := adaptLoop (timeoutValueOf P recordingCode) lines.length 0 false lines
  match resultLines.getLast? with
  | none => none
  | some last =>
    if closingLine.isSuffixOf (trim last) then some resultLines
    else some (resultLines ++ [closingLine])

/-- `adaptedCode`, the text written in the wrapper of a recording. -/
def adaptedCode (P : RegExpPlain) (recordingCode : Str) : Option Str :=
  (wrapperLines P recordingCode).map (join [10])

/-! ## Reference definitions, in the words of the specification -/

/-- The lines of a URL list that count: each line trimmed, kept when it is not blank
and does not start with `#`. -/
def keptLines (content : Str) : List Str :=
  ((splitOn 10 content).map trim).filter fun line => !line.isEmpty && !startsWith line 35

/-- A kept line without its trailing `#...` comment, trimmed. -/
def withoutComment (line : Str) : Str := trim (line.takeWhile fun c => c != 35)

/-- The label as the specification words it, for a URL that parses, with `sep` between
the rewritten segments: `Homepage` when the path is empty or `/`, otherwise the
rewritten segments of the path without one leading and one trailing slash. -/
def labelAsSpecified (B : Builtins) (sep : Str) (url : Str) : Option Str :=
  match B.pathname url with
  | none => none
  | some p =>
    if p = [] ∨ p = utf16 "/" then some (utf16 "Homepage")
    else some (join sep ((splitOn 47 (stripSlashes p)).map fun segment =>
      join (utf16 " ") ((splitOn 45 segment).map (capitalize B))))

/-- The URL list of the end-to-end example. -/
def sampleUrlList : Str := utf16 "https://example.com/\n#comment\nhttps://example.com/about\n"

/-- An environment with no variable set. -/
def emptyEnv : Env := ⟨none, none, none⟩

/-- A previously written configuration: its own engine, identifier, paths and
scenarios. -/
def sampleExisting : Obj :=
  [(utf16 "id", .lit "old_project"),
   (utf16 "engine", .lit "playwright"),
   (utf16 "paths", .obj [(utf16 "bitmaps_reference", .lit "old/reference")]),
   (utf16 "scenarios", .arr [.obj [(utf16 "label", .lit "Old")]])]

/-- A monitor that has counted every test: 2 of 2 after 10 seconds. -/
def sampleDoneMonitor : Monitor :=
  { initialMonitor 2 0 with completed := 2, elapsedTime := 10 }

/-- The first non-blank character of a line, `none` for a blank line. -/
def firstNonBlank (line : Str) : Option Nat := (line.dropWhile isWhiteSpace).head?

/-- A line contributes an entry when it is not blank and its first non-blank
character is not `#`. -/
def contributes (line : Str) : Bool :=
  match firstNonBlank line with
  | none => false
  | some c => c != 35

/-- The trimmed text before the first `#` of a line. -/
def textBeforeComment (line : Str) : Str := trim (line.takeWhile fun c => c != 35)

/-- The items that the specification has `readJsonFile` accept: a string, or an object
with a `url` property. -/
def acceptedAsSpecified : Json → Bool
  | .str _ => true
  | .obj entries => (objGet entries (utf16 "url")).isSome
  | _ => false

/-- What an accepted item gives: a string itself, an object its truthy `url`. -/
def ItemGives (item out : Json) : Prop :=
  (∃ s, item = .str s ∧ out = .str s) ∨
  (∃ entries, item = .obj entries ∧ objGet entries (utf16 "url") = some out ∧ out.truthy = true)

/-- A URL is the homepage of `siteUrl`: it is `siteUrl` itself or, without its trailing
slashes, `siteUrl` without trailing slashes or its `/index.html` or `/index.php`. -/
def IsHomepage (siteUrl url : Str) : Prop :=
  url = siteUrl ∨ stripTrailingSlashes url = stripTrailingSlashes siteUrl ∨
  stripTrailingSlashes url = stripTrailingSlashes siteUrl ++ utf16 "/index.html" ∨
  stripTrailingSlashes url = stripTrailingSlashes siteUrl ++ utf16 "/index.php"

/-- A network whose first request fails, the Sitemapper fallback finding one page. -/
def failingNetwork : SitemapNetwork where
  detectSitemapIndex := fun _ => none
  fetchSitemapWithDates := fun _ => none
  sitemapperSites := fun _ => some (some [utf16 "https://example.com/about"])

/-- A network that serves one plain sitemap listing a page and then the homepage. -/
def plainSitemapNetwork : SitemapNetwork where
  detectSitemapIndex := fun _ => some (false, [])
  fetchSitemapWithDates := fun _ => some
    [⟨utf16 "https://example.com/about", some (utf16 "2023-06-01")⟩,
     ⟨utf16 "https://example.com/", some (utf16 "2023-01-01")⟩]
  sitemapperSites := fun _ => some (some [])

/-- A mode token of the progress wrapper. -/
def isModeToken (arg : Str) : Bool :=
  arg == utf16 "test" || arg == utf16 "reference" || arg == utf16 "approve"

/-- The last mode token of an argument list, `none` when it has none. -/
def lastModeToken (args : List Str) : Option Str := (args.filter isModeToken).getLast?

/-- The runner command as the specification has it: the mode token, and no command
(the invocation is rejected) for an argument list without one. -/
def commandAsSpecified (args : List Str) : Option Str := lastModeToken args

/-- The standard fetch as the specification has it: a URL that contains
`sitemap_index.xml` is fetched again, with `sitemap.xml` in its place, when the first
fetch fails or returns no URL. -/
def standardFetchAsSpecified (N : SitemapNetwork) (sitemapUrl : Str) : List Str :=
  match (N.sitemapperSites sitemapUrl).map sitesOrEmpty with
  | some (u :: us) => u :: us
  | _ =>
    if includes sitemapUrl (utf16 "sitemap_index.xml") then
      sitesOrEmpty ((N.sitemapperSites
        (replaceFirst sitemapUrl (utf16 "sitemap_index.xml") (utf16 "sitemap.xml"))).getD none)
    else []

/-- A network whose sitemap index is not found (it answers 404): the fetch of any URL
but `sitemap.xml` resolves with no site, the failure being in `errors`, while
`sitemap.xml` lists one page. -/
def emptyIndexNetwork : SitemapNetwork where
  detectSitemapIndex := fun _ => none
  fetchSitemapWithDates := fun _ => none
  sitemapperSites := fun url =>
    if url = utf16 "https://example.com/sitemap.xml" then
      some (some [utf16 "https://example.com/about"])
    else some (some [])

/-- The engine on texts in which the pattern at hand has no match: `replace` returns
the text as it is and `match` returns `null`. -/
def unmatchedPlain : RegExpPlain where
  replace := fun _ _ s => s
  replaceGlobal := fun _ _ s => s
  group1 := fun _ _ => none

/-- The lines that the loop over a recording writes of its own. -/
def insertedLines (timeoutValue : Str) : List Str :=
  [requireLine, exportLine, timeoutLine timeoutValue, closingLine]

/-- A line with one of the marks that the loop tests before the mark of the `catch`. -/
def hasMark (line : Str) : Bool :=
  includes line (utf16 "require(\x27puppeteer\x27)") ||
  includes line (utf16 "require(\"puppeteer\")") ||
  includes line (utf16 "(async () => \x7b") ||
  includes line (utf16 "puppeteer.launch()") ||
  includes line (utf16 "browser.newPage()") ||
  (includes line (utf16 "const browser") && includes line (utf16 "await")) ||
  includes line (utf16 "const timeout") ||
  includes line (utf16 "setDefaultTimeout") ||
  includes line (utf16 "browser.close()")

/-- A line with `})().catch` that has none of the earlier marks. -/
def stopsAt (line : Str) : Bool := includes line (utf16 "\x7d)().catch") && !hasMark line

/-- A recording in the form that the recorder exports. -/
def sampleRecording : Str :=
  utf16 ("const puppeteer = require(\x27puppeteer\x27); // v23.0.0 or later\n" ++
    "\n" ++
    "(async () => \x7b\n" ++
    "    const browser = await puppeteer.launch();\n" ++
    "    const page = await browser.newPage();\n" ++
    "    const timeout = 5000;\n" ++
    "    page.setDefaultTimeout(timeout);\n" ++
    "\n" ++
    "    await page.reload();\n" ++
    "\n" ++
    "    await browser.close();\n" ++
    "\n" ++
    "\x7d)().catch(err => \x7b\n" ++
    "    console.error(err);\n" ++
    "    process.exit(1);\n" ++
    "\x7d);\n")

/-- The engine at the sample recording: the group of the timeout pattern is `5000`. -/
def sampleRecordingPlain : RegExpPlain where
  replace := fun _ _ s => s
  replaceGlobal := fun _ _ s => s
  group1 := fun p _ => if p = timeoutPattern then some (utf16 "5000") else none

/-- A recording without the preamble and without a `catch`. -/
def bareRecording : Str := utf16 "(async () => \x7b\n    await page.reload();\n\x7d)();"

/-! ## Sample platform values -/

/-- A table of platform values at the inputs of the examples below: the pathnames
the URL parser gives, MD5 digests, and time values of two ISO dates. Outside the
table the URL is taken as unparsable, the date as invalid and the digest as zeros. -/
def sampleBuiltins : Builtins where
  pathname := fun u =>
    if u = utf16 "https://example.com/" then some (utf16 "/")
    else if u = utf16 "https://example.com/about" then some (utf16 "/about")
    else if u = utf16 "https://example.com//" then some (utf16 "//")
    else if u = utf16 "https://example.com/my-first-post" then some (utf16 "/my-first-post")
    else if u = utf16 "https://example.com/?p=23958" then some (utf16 "/")
    else if u = utf16 "https://example.com/?p=24646" then some (utf16 "/")
    else none
  md5hex := fun u =>
    if u = utf16 "https://example.com/" then utf16 "182ccedb33a9e03fbf1079b209da1a31"
    else if u = utf16 "https://example.com/about" then utf16 "c30b28d2f5d4d944d81bb0f9de6d2845"
    else if u = utf16 "https://example.com//" then utf16 "1c417c2fb9bddc155500d2d27020e2e2"
    else if u = utf16 "https://example.com/my-first-post" then
      utf16 "47d6447a3f9b01d6e8f0988fd04d4413"
    else if u = utf16 "https://example.com/?p=23958" then
      utf16 "a06351a2ab9738cec053a761c34d9008"
    else if u = utf16 "https://example.com/?p=24646" then
      utf16 "a06351a2d76f17b0922479cc61081930"
    else utf16 "00000000000000000000000000000000"
  dateParse := fun s =>
    if s = utf16 "2023-01-01" then some 1672531200000
    else if s = utf16 "2023-06-01" then some 1685577600000
    else none
  upperNonAscii := fun c => [c]
  pathJoin := fun a b => a ++ utf16 "/" ++ b

/-! ## Properties of the recency sampler -/

theorem perm_sortInsert {α : Type} (cmp : α → α → Option Int) (a : α) (l : List α) :
    (sortInsert cmp a l).Perm (a :: l) := by
  induction l with
  | nil => exact List.Perm.refl _
  | cons b l ih =>
    unfold sortInsert
    split
    · exact (List.Perm.cons b ih).trans (List.Perm.swap a b l)
    · exact List.Perm.refl _

theorem perm_jsSort {α : Type} (cmp : α → α → Option Int) (l : List α) :
    (jsSort cmp l).Perm l := by
  induction l with
  | nil => exact List.Perm.refl _
  | cons a l ih =>
    exact (perm_sortInsert cmp a (jsSort cmp l)).trans (List.Perm.cons a ih)

theorem mem_jsSort {α : Type} (cmp : α → α → Option Int) (l : List α) (x : α) :
    x ∈ jsSort cmp l ↔ x ∈ l :=
  (perm_jsSort cmp l).mem_iff

/-- Stability of one insertion: a predicate that never holds of both `a` and an
element `a` moves behind selects the same sublist before and after. -/
theorem filter_sortInsert {α : Type} (cmp : α → α → Option Int) (p : α → Bool) (a : α)
    (h : ∀ b, 0 < (cmp a b).getD 0 → p a = true → p b = false) (l : List α) :
    (sortInsert cmp a l).filter p = (a :: l).filter p := by
  induction l with
  | nil => rfl
  | cons b l ih =>
    unfold sortInsert
    split
    · rename_i hpos
      rw [List.filter_cons, ih]
      by_cases hpa : p a = true
      · have hpb := h b hpos hpa
        simp [List.filter_cons, hpa, hpb]
      · simp [List.filter_cons, hpa]
    · rfl

theorem filter_jsSort {α : Type} (cmp : α → α → Option Int) (p : α → Bool)
    (h : ∀ a b, 0 < (cmp a b).getD 0 → p a = true → p b = false) (l : List α) :
    (jsSort cmp l).filter p = l.filter p := by
  induction l with
  | nil => rfl
  | cons a l ih =>
    show (sortInsert cmp a (jsSort cmp l)).filter p = _
    rw [filter_sortInsert cmp p a (h a), List.filter_cons, List.filter_cons, ih]

theorem pairwise_sortInsert (B : Builtins) (a : UrlEntry) (l : List UrlEntry)
    (hl : ∀ e ∈ l, (dateOf B e).isSome) (hs : l.Pairwise (NewerFirst B)) :
    (sortInsert (compareLastmod B) a l).Pairwise (NewerFirst B) := by
  induction l with
  | nil => simp [sortInsert]
  | cons b l ih =>
    have hb : (dateOf B b).isSome := hl b (List.mem_cons_self _ _)
    obtain ⟨tb, htb⟩ := Option.isSome_iff_exists.mp hb
    rw [List.pairwise_cons] at hs
    unfold sortInsert
    split
    · rename_i hpos
      rw [List.pairwise_cons]
      refine ⟨?_, ih (fun e he => hl e (List.mem_cons_of_mem _ he)) hs.2⟩
      intro x hx
      have hxa := (perm_sortInsert (compareLastmod B) a l).mem_iff.mp hx
      rw [List.mem_cons] at hxa
      rcases hxa with rfl | hxl
      · intro t1 t2 h1 h2
        rw [htb] at h1
        cases h1
        simp [compareLastmod, htb, h2] at hpos
        omega
      · exact hs.1 x hxl
    · rename_i hnot
      rw [List.pairwise_cons]
      refine ⟨?_, List.pairwise_cons.mpr hs⟩
      have hab : NewerFirst B a b := by
        intro t1 t2 h1 h2
        simp [compareLastmod, h1, h2] at hnot
        omega
      intro x hx
      rw [List.mem_cons] at hx
      rcases hx with rfl | hxl
      · exact hab
      · intro t1 t2 h1 h2
        have h3 := hab t1 tb h1 htb
        have h4 := hs.1 x hxl tb t2 htb h2
        omega

theorem pairwise_jsSort (B : Builtins) (l : List UrlEntry)
    (hl : ∀ e ∈ l, (dateOf B e).isSome) :
    (jsSort (compareLastmod B) l).Pairwise (NewerFirst B) := by
  induction l with
  | nil => exact List.Pairwise.nil
  | cons a l ih =>
    have hl2 : ∀ e ∈ l, (dateOf B e).isSome := fun e he => hl e (List.mem_cons_of_mem _ he)
    exact pairwise_sortInsert B a _
      (fun e he => hl2 e ((mem_jsSort _ _ _).mp he)) (ih hl2)

theorem slice0_of_nonneg {α : Type} (xs : List α) (limit : Int) (h : 0 ≤ limit) :
    slice0 xs limit = xs.take limit.toNat := by
  unfold slice0
  rw [if_neg (by omega)]

theorem length_combined (B : Builtins) (es : List UrlEntry) :
    (combined B es).length = es.length := by
  unfold combined withDate withoutDate
  rw [List.length_append, (perm_jsSort _ _).length_eq, List.length_reverse]
  induction es with
  | nil => rfl
  | cons e es ih =>
    by_cases h : e.isDated = true <;> simp [List.filter_cons, h] at ih ⊢ <;> omega

theorem mem_combined (B : Builtins) (es : List UrlEntry) (e : UrlEntry) :
    e ∈ combined B es ↔ e ∈ es := by
  unfold combined withDate withoutDate
  rw [List.mem_append, mem_jsSort, List.mem_reverse, List.mem_filter, List.mem_filter]
  by_cases h : e.isDated = true <;> simp [h]

theorem pairwise_combined (B : Builtins) (es : List UrlEntry)
    (hvalid : ∀ e ∈ es, e.isDated = true → (dateOf B e).isSome = true) :
    (combined B es).Pairwise (fun a b =>
      (b.isDated = true → a.isDated = true) ∧
      (a.isDated = true → b.isDated = true → NewerFirst B a b)) := by
  unfold combined
  rw [List.pairwise_append]
  have hD : ∀ e ∈ jsSort (compareLastmod B) (withDate es), e.isDated = true := by
    intro e he
    have := (mem_jsSort _ _ _).mp he
    simp only [withDate, List.mem_filter] at this
    exact this.2
  have hU : ∀ e ∈ (withoutDate es).reverse, e.isDated = false := by
    intro e he
    simp only [withoutDate, List.mem_reverse, List.mem_filter] at he
    simpa using he.2
  refine ⟨?_, ?_, ?_⟩
  · have hs : (jsSort (compareLastmod B) (withDate es)).Pairwise (NewerFirst B) := by
      apply pairwise_jsSort
      intro e he
      simp only [withDate, List.mem_filter] at he
      exact hvalid e he.1 he.2
    exact hs.imp_of_mem (fun ha _ hab => ⟨fun _ => hD _ ha, fun _ _ => hab⟩)
  · rw [List.pairwise_iff_forall_sublist]
    intro a b hab
    have hb : b ∈ (withoutDate es).reverse := hab.subset (by simp)
    have hb2 := hU b hb
    exact ⟨fun h => by simp [hb2] at h, fun _ h => by simp [hb2] at h⟩
  · intro a ha b hb
    have hb2 := hU b hb
    exact ⟨fun _ => hD a ha, fun _ h => by simp [hb2] at h⟩

theorem filter_combined (B : Builtins) (es : List UrlEntry) (t : Int) :
    (combined B es).filter (fun e => e.isDated && dateOf B e == some t)
      = es.filter (fun e => e.isDated && dateOf B e == some t) := by
  unfold combined
  rw [List.filter_append]
  have h1 : (jsSort (compareLastmod B) (withDate es)).filter
      (fun e => e.isDated && dateOf B e == some t)
      = es.filter (fun e => e.isDated && dateOf B e == some t) := by
    rw [filter_jsSort]
    · unfold withDate
      rw [List.filter_filter]
      congr 1
      funext e
      by_cases h : e.isDated = true <;> simp [h]
    · intro a b hpos hpa
      simp only [Bool.and_eq_true, beq_iff_eq] at hpa
      cases hb : dateOf B b with
      | none => simp
      | some tb =>
        have : tb ≠ t := by
          intro h
          simp [compareLastmod, hb, hpa.2, h] at hpos
        simp [this]
  have h2 : (withoutDate es).reverse.filter (fun e => e.isDated && dateOf B e == some t) = [] := by
    rw [List.filter_eq_nil_iff]
    intro e he
    simp only [withoutDate, List.mem_reverse, List.mem_filter] at he
    have : e.isDated = false := by simpa using he.2
    simp [this]
  rw [h1, h2, List.append_nil]

/-- C1: for entries whose `lastmod` values are valid dates and a limit `>= 0`, the
URLs returned by `selectMostRecentUrls` are those of `selectedEntries`, in which no
dated entry comes after an undated one, dated entries are in non-increasing
`lastmod` order, and the entries of any one `lastmod` time are an initial part of
the input's entries of that time, in input order (stability). -/
theorem selectMostRecentUrls_dated_newest_first_stable (B : Builtins) (es : List UrlEntry)
    (limit : Int)
    (hvalid : ∀ e ∈ es, e.isDated = true → (dateOf B e).isSome = true)
    (hlimit : 0 ≤ limit) :
    selectMostRecentUrls B es limit = (selectedEntries B es limit).map (fun u => u.url) ∧
    (selectedEntries B es limit).Pairwise (fun a b =>
      (b.isDated = true → a.isDated = true) ∧
      (a.isDated = true → b.isDated = true → NewerFirst B a b)) ∧
    ∀ t : Int, (selectedEntries B es limit).filter (fun e => e.isDated && dateOf B e == some t)
      <+: es.filter (fun e => e.isDated && dateOf B e == some t) := by
  refine ⟨rfl, ?_, ?_⟩
  · unfold selectedEntries
    rw [slice0_of_nonneg _ _ hlimit]
    exact (pairwise_combined B es hvalid).sublist (List.take_sublist _ _)
  · intro t
    unfold selectedEntries
    rw [slice0_of_nonneg _ _ hlimit, ← filter_combined B es t]
    exact (List.take_prefix _ _).filter _

/-- Witness of C1 at the three sample entries with limit 2. -/
theorem selectMostRecentUrls_dated_newest_first_stable_witness :
    selectMostRecentUrls sampleBuiltins sampleEntries 2 = [utf16 "u2", utf16 "u1"] ∧
    (selectedEntries sampleBuiltins sampleEntries 2).Pairwise (fun a b =>
      (b.isDated = true → a.isDated = true) ∧
      (a.isDated = true → b.isDated = true → NewerFirst sampleBuiltins a b)) :=
  ⟨by decide,
   (selectMostRecentUrls_dated_newest_first_stable sampleBuiltins sampleEntries 2
      (by decide) (by decide)).2.1⟩

theorem selectedEntries_full (B : Builtins) (es : List UrlEntry) (limit : Int)
    (h : (es.length : Int) ≤ limit) : selectedEntries B es limit = combined B es := by
  unfold selectedEntries
  rw [slice0_of_nonneg _ _ (by omega)]
  apply List.take_of_length_le
  rw [length_combined]
  omega

/-- C2: for a limit `>= 0` the result is the first `min(limit, n)` elements of the
result for limit `n`; when at least `limit` entries are dated every selected entry
is dated; and the entries `u1` (2023-01-01), `u2` (2023-06-01), `u3` (undated) with
limit 2 give `[u2, u1]` for every date parser that orders the two dates. -/
theorem selectMostRecentUrls_truncates (B : Builtins) (es : List UrlEntry) (limit : Int)
    (hlimit : 0 ≤ limit) :
    selectMostRecentUrls B es limit
      = (selectMostRecentUrls B es es.length).take (min limit.toNat es.length) ∧
    (limit ≤ (withDate es).length → ∀ e ∈ selectedEntries B es limit, e.isDated = true) ∧
    (∀ t1 t2 : Int, B.dateParse (utf16 "2023-01-01") = some t1 →
      B.dateParse (utf16 "2023-06-01") = some t2 → t1 < t2 →
      selectMostRecentUrls B sampleEntries 2 = [utf16 "u2", utf16 "u1"]) := by
  refine ⟨?_, ?_, ?_⟩
  · unfold selectMostRecentUrls
    rw [selectedEntries_full B es es.length (le_refl _)]
    unfold selectedEntries
    rw [slice0_of_nonneg _ _ hlimit, ← List.map_take]
    congr 1
    rcases Nat.le_total limit.toNat es.length with h | h
    · rw [Nat.min_eq_left h]
    · rw [Nat.min_eq_right h, List.take_of_length_le (by rw [length_combined]; exact h),
        List.take_of_length_le (by rw [length_combined])]
  · intro hle e he
    unfold selectedEntries combined at he
    rw [slice0_of_nonneg _ _ hlimit, List.take_append_of_le_length] at he
    · have h1 := (mem_jsSort _ _ _).mp (List.mem_of_mem_take he)
      simp only [withDate, List.mem_filter] at h1
      exact h1.2
    · rw [(perm_jsSort _ _).length_eq]
      omega
  · intro t1 t2 h1 h2 hlt
    have hpos : (0 : Int) < t2 - t1 := by omega
    have e1 : dateOf B ⟨utf16 "u1", some (utf16 "2023-01-01")⟩ = some t1 := h1
    have e2 : dateOf B ⟨utf16 "u2", some (utf16 "2023-06-01")⟩ = some t2 := h2
    have d1 : UrlEntry.isDated ⟨utf16 "u1", some (utf16 "2023-01-01")⟩ = true := rfl
    have d2 : UrlEntry.isDated ⟨utf16 "u2", some (utf16 "2023-06-01")⟩ = true := rfl
    have d3 : UrlEntry.isDated ⟨utf16 "u3", none⟩ = false := rfl
    simp [selectMostRecentUrls, selectedEntries, slice0, combined, sampleEntries, withDate,
      withoutDate, d1, d2, d3, jsSort, sortInsert, compareLastmod, e1, e2, hpos]

/-- Witness of C2 at the three sample entries with limit 2. -/
theorem selectMostRecentUrls_truncates_witness :
    selectMostRecentUrls sampleBuiltins sampleEntries 2 = [utf16 "u2", utf16 "u1"] ∧
    selectMostRecentUrls sampleBuiltins sampleEntries 2
      = (selectMostRecentUrls sampleBuiltins sampleEntries 3).take 2 :=
  ⟨(selectMostRecentUrls_truncates sampleBuiltins sampleEntries 2 (by decide)).2.2
      1672531200000 1685577600000 (by decide) (by decide) (by decide),
   (selectMostRecentUrls_truncates sampleBuiltins sampleEntries 2 (by decide)).1⟩

/-- C3 (the code at a negative limit): with two undated entries `a`, `b` and
limit `-1`, `slice(0, -1)` drops only the last element of the combined order, so the
result is `[b]` and not empty. -/
theorem selectMostRecentUrls_negative_limit (B : Builtins) :
    selectMostRecentUrls B [⟨utf16 "a", none⟩, ⟨utf16 "b", none⟩] (-1) = [utf16 "b"] := by
  rfl

/-- C4: for a limit at least the number of entries the result is a permutation of
all input URLs, made of the URLs of the sorted dated entries (a permutation of the
dated entries) followed by the URLs of the undated entries in reverse input order. -/
theorem selectMostRecentUrls_all_when_limit_large (B : Builtins) (es : List UrlEntry)
    (limit : Int) (hlimit : (es.length : Int) ≤ limit) :
    (selectMostRecentUrls B es limit).Perm (es.map fun u => u.url) ∧
    selectMostRecentUrls B es limit
      = (jsSort (compareLastmod B) (withDate es)).map (fun u => u.url)
        ++ ((withoutDate es).map fun u => u.url).reverse ∧
    (jsSort (compareLastmod B) (withDate es)).Perm (withDate es) := by
  have hsel := selectedEntries_full B es limit hlimit
  refine ⟨?_, ?_, perm_jsSort _ _⟩
  · unfold selectMostRecentUrls
    rw [hsel]
    apply List.Perm.map
    unfold combined withDate withoutDate
    refine ((perm_jsSort _ _).append (List.reverse_perm _)).trans ?_
    exact List.filter_append_perm _ es
  · unfold selectMostRecentUrls
    rw [hsel]
    unfold combined
    rw [List.map_append, List.map_reverse]

/-- Witness of C4 at the three sample entries with limit 5. -/
theorem selectMostRecentUrls_all_when_limit_large_witness :
    selectMostRecentUrls sampleBuiltins sampleEntries 5
      = [utf16 "u2", utf16 "u1", utf16 "u3"] ∧
    (selectMostRecentUrls sampleBuiltins sampleEntries 5).Perm
      (sampleEntries.map fun u => u.url) :=
  ⟨by decide,
   (selectMostRecentUrls_all_when_limit_large sampleBuiltins sampleEntries 5 (by decide)).1⟩

/-! ## Properties of the URL list reader and the scenario assembler -/

theorem dropWhile_append_singleton {α : Type} (p : α → Bool) (c : α) (h : p c = false)
    (r : List α) : (r ++ [c]).dropWhile p = r.dropWhile p ++ [c] := by
  induction r with
  | nil => simp [List.dropWhile, h]
  | cons x r ih =>
    by_cases hx : p x = true
    · simp [List.dropWhile_cons, hx, ih]
    · simp [List.dropWhile_cons, hx]

/-- A string that starts with a non-blank unit keeps it under `trim`. -/
theorem trim_cons (c : Nat) (t : Str) (h : isWhiteSpace c = false) :
    ∃ t2, trim (c :: t) = c :: t2 := by
  refine ⟨(t.reverse.dropWhile isWhiteSpace).reverse, ?_⟩
  unfold trim
  rw [List.dropWhile_cons, h]
  simp only [Bool.false_eq_true, if_false, List.reverse_cons]
  rw [dropWhile_append_singleton _ _ h, List.reverse_append]
  rfl

theorem dropWhile_head {α : Type} (p : α → Bool) (l : List α) (c : α) (t : List α)
    (h : l.dropWhile p = c :: t) : p c = false := by
  induction l with
  | nil => simp at h
  | cons x l ih =>
    rw [List.dropWhile_cons] at h
    split at h
    · exact ih h
    · rename_i hx
      cases h
      simpa using hx

/-- The first unit of a trimmed string is not blank. -/
theorem trim_head (x : Str) (c : Nat) (t : Str) (h : trim x = c :: t) :
    isWhiteSpace c = false := by
  unfold trim at h
  cases hy : x.dropWhile isWhiteSpace with
  | nil => rw [hy] at h; simp at h
  | cons d y =>
    have hd := dropWhile_head _ _ _ _ hy
    obtain ⟨t2, ht2⟩ := trim_cons d y hd
    unfold trim at ht2
    rw [List.dropWhile_cons, hd] at ht2
    simp only [Bool.false_eq_true, if_false] at ht2
    rw [hy, ht2] at h
    cases h
    exact hd

theorem trim_trim (x : Str) : trim (trim x) = trim x := by
  cases hx : trim x with
  | nil => rfl
  | cons c t =>
    have hc := trim_head x c t hx
    have h1 : (c :: t).dropWhile isWhiteSpace = c :: t := by
      rw [List.dropWhile_cons, hc]; simp
    have h2 : (trim x).reverse.dropWhile isWhiteSpace = (trim x).reverse := by
      unfold trim
      rw [List.reverse_reverse]
      cases hr : ((x.dropWhile isWhiteSpace).reverse).dropWhile isWhiteSpace with
      | nil => rfl
      | cons d y =>
        have hd := dropWhile_head _ _ _ _ hr
        rw [List.dropWhile_cons, hd]; simp
    unfold trim
    rw [h1]
    have h3 : trim x = c :: t := hx
    rw [← h3, h2, List.reverse_reverse]

theorem take_indexOf_eq_takeWhile (a : Nat) (l : Str) :
    l.take (l.indexOf a) = l.takeWhile fun c => c != a := by
  induction l with
  | nil => rfl
  | cons x l ih =>
    by_cases hx : x = a
    · subst hx
      simp [List.indexOf_cons, List.takeWhile_cons]
    · have hx2 : (x == a) = false := by simpa using hx
      simp [List.indexOf_cons, List.takeWhile_cons, hx, hx2, ih]

/-- On a kept line the comment removal of the code is the removal of the trailing
comment, and it leaves a non-empty string. -/
theorem stripInlineComment_kept (x : Str)
    (hne : (trim x).isEmpty = false) (hst : startsWith (trim x) 35 = false) :
    stripInlineComment (trim x) = withoutComment (trim x) ∧
    (stripInlineComment (trim x)).isEmpty = false := by
  cases hl : trim x with
  | nil => rw [hl] at hne; simp at hne
  | cons c t =>
    have hc := trim_head x c t hl
    have hc35 : c ≠ 35 := by
      rw [hl] at hst
      simpa [startsWith] using hst
    have hc35b : (c != 35) = true := by simpa using hc35
    by_cases hmem : 35 ∈ (c :: t)
    · have hidx : (c :: t).indexOf 35 = t.indexOf 35 + 1 := by
        simp [List.indexOf_cons, hc35]
      have hs : stripInlineComment (c :: t) = withoutComment (c :: t) := by
        unfold stripInlineComment withoutComment indexOf
        simp only [hmem, if_true]
        rw [if_pos (by rw [hidx]; omega), Int.toNat_ofNat, take_indexOf_eq_takeWhile]
      refine ⟨hs, ?_⟩
      rw [hs]
      unfold withoutComment
      rw [List.takeWhile_cons, hc35b]
      simp only [if_true]
      obtain ⟨t2, ht2⟩ := trim_cons c (t.takeWhile fun c => c != 35) hc
      rw [ht2]
      rfl
    · have hs : stripInlineComment (c :: t) = c :: t := by
        unfold stripInlineComment indexOf
        simp only [hmem, if_false]
        rfl
      refine ⟨?_, by rw [hs]; rfl⟩
      rw [hs]
      unfold withoutComment
      have hall : (c :: t).takeWhile (fun c => c != 35) = c :: t := by
        rw [List.takeWhile_eq_self_iff]
        intro y hy
        have : y ≠ 35 := fun h => hmem (h ▸ hy)
        simpa using this
      rw [hall, ← hl, trim_trim]

theorem readTxtFile_eq (content : Str) :
    readTxtFile content = (keptLines content).map withoutComment ∧
    readTxtFile content = (keptLines content).map stripInlineComment := by
  have hkept : ∀ l ∈ keptLines content,
      stripInlineComment l = withoutComment l ∧ (stripInlineComment l).isEmpty = false := by
    intro l hl
    simp only [keptLines, List.mem_filter, List.mem_map] at hl
    obtain ⟨⟨x, _, rfl⟩, h2⟩ := hl
    simp only [Bool.and_eq_true, Bool.not_eq_true'] at h2
    exact stripInlineComment_kept x h2.1 h2.2
  have h2 : readTxtFile content = (keptLines content).map stripInlineComment := by
    show ((keptLines content).map stripInlineComment).filter (fun line => !line.isEmpty) = _
    rw [List.filter_eq_self]
    intro y hy
    rw [List.mem_map] at hy
    obtain ⟨l, hl, rfl⟩ := hy
    simp [(hkept l hl).2]
  refine ⟨?_, h2⟩
  rw [h2]
  exact List.map_congr_left fun l hl => (hkept l hl).1

/-- C5: reading a URL list and generating scenarios gives one record per kept line
(trimmed, not blank, not starting with `#`), whose URL is that line without its
trailing comment, in input order; the last filter of `readTxtFile` removes nothing;
and the example list gives the labels `Homepage [hash1]` and `About [hash2]`. -/
theorem readTxtFile_generateScenarios_one_per_line (B : Builtins) (env : Env) (content : Str) :
    (generateScenarios B env (readTxtFile content)).length = (keptLines content).length ∧
    (generateScenarios B env (readTxtFile content)).map (fun r => r.url)
      = (keptLines content).map withoutComment ∧
    readTxtFile content = (keptLines content).map stripInlineComment ∧
    (B.pathname (utf16 "https://example.com/") = some (utf16 "/") →
      B.pathname (utf16 "https://example.com/about") = some (utf16 "/about") →
      (generateScenarios B env (readTxtFile sampleUrlList)).map (fun r => r.label)
        = [utf16 "Homepage [" ++ urlHash B (utf16 "https://example.com/") ++ utf16 "]",
           utf16 "About [" ++ urlHash B (utf16 "https://example.com/about") ++ utf16 "]"]) := by
  have hurl : (generateScenarios B env (readTxtFile content)).map (fun r => r.url)
      = readTxtFile content := by
    unfold generateScenarios
    rw [List.map_map]
    exact (List.map_congr_left fun u _ => rfl).trans (List.map_id _)
  refine ⟨?_, ?_, (readTxtFile_eq content).2, ?_⟩
  · unfold generateScenarios
    rw [List.length_map, (readTxtFile_eq content).1, List.length_map]
  · rw [hurl, (readTxtFile_eq content).1]
  · intro h1 h2
    have hr : readTxtFile sampleUrlList
        = [utf16 "https://example.com/", utf16 "https://example.com/about"] := by decide
    have g1 : safeLabel B (utf16 "https://example.com/") = utf16 "Homepage" := by
      unfold safeLabel generateLabel
      rw [h1]
      rfl
    have g2 : safeLabel B (utf16 "https://example.com/about") = utf16 "About" := by
      unfold safeLabel generateLabel
      rw [h2]
      rfl
    rw [hr]
    simp only [generateScenarios, List.map_cons, List.map_nil, scenarioOf, g1, g2]
    rfl

theorem length_trim_le (x : Str) : (trim x).length ≤ x.length := by
  unfold trim
  rw [List.length_reverse]
  exact ((List.dropWhile_sublist _).length_le).trans
    (by rw [List.length_reverse]; exact (List.dropWhile_sublist _).length_le)

theorem mem_of_mem_trim (x : Str) (c : Nat) (h : c ∈ trim x) : c ∈ x := by
  unfold trim at h
  rw [List.mem_reverse] at h
  have h1 := (List.dropWhile_sublist _).subset h
  rw [List.mem_reverse] at h1
  exact (List.dropWhile_sublist _).subset h1

theorem safeLabel_length (B : Builtins) (u : Str) : (safeLabel B u).length ≤ 60 := by
  unfold safeLabel
  simp only
  split
  · exact (length_trim_le _).trans (by rw [List.length_take]; exact Nat.min_le_left _ _)
  · omega

theorem safeLabel_clean (B : Builtins) (u : Str) (c : Nat) (h : c ∈ safeLabel B u) :
    isForbidden c = false := by
  have hbase : ∀ c, c ∈ trim ((generateLabel B u).filter fun c => !isForbidden c) →
      isForbidden c = false := by
    intro c hc
    have := mem_of_mem_trim _ _ hc
    rw [List.mem_filter] at this
    simpa using this.2
  unfold safeLabel at h
  simp only at h
  split at h
  · exact hbase c (List.mem_of_mem_take (mem_of_mem_trim _ _ h))
  · exact hbase c h

/-- C7: the label of every URL `u` is `R ++ " [" ++ H ++ "]"` with `H` the first 8
characters of the hexadecimal MD5 digest of `u` and `R = safeLabel u`, of at most 60
units and without any of `< > : " / \ | ? *`; the label is the same wherever the same
URL stands, in whatever list and environment. -/
theorem generateScenarios_label_form (B : Builtins) (env : Env) (urls : List Str) :
    (generateScenarios B env urls).map (fun r => r.label)
      = urls.map (fun u => safeLabel B u ++ utf16 " [" ++ (B.md5hex u).take 8 ++ utf16 "]") ∧
    (∀ u : Str, (safeLabel B u).length ≤ 60 ∧
      ∀ c ∈ [60, 62, 58, 34, 47, 92, 124, 63, 42], c ∉ safeLabel B u) ∧
    (∀ (env2 : Env) (urls2 : List Str) (i j : Nat), urls[i]? = urls2[j]? →
      ((generateScenarios B env urls)[i]?).map (fun r => r.label)
        = ((generateScenarios B env2 urls2)[j]?).map (fun r => r.label)) := by
  refine ⟨?_, ?_, ?_⟩
  · unfold generateScenarios
    rw [List.map_map]
    rfl
  · intro u
    refine ⟨safeLabel_length B u, ?_⟩
    intro c hc hmem
    have hf := safeLabel_clean B u c hmem
    revert hf
    fin_cases hc <;> decide
  · intro env2 urls2 i j h
    unfold generateScenarios
    rw [List.getElem?_map, List.getElem?_map, h, Option.map_map, Option.map_map]
    rfl

theorem dropLast_eq_nil_of_getLast (r : Str) (h : r.getLast? = some 47) (h2 : r.dropLast = []) :
    r = [47] := by
  match r, h, h2 with
  | [x], h, _ => simp at h; rw [h]
  | x :: y :: t, _, h2 => simp at h2

/-- The guard of `generateLabel` holds exactly for the paths ``, `/` and `//`. -/
theorem stripSlashes_eq_nil_iff (p : Str) :
    stripSlashes p = [] ↔ p = [] ∨ p = utf16 "/" ∨ p = utf16 "//" := by
  have e1 : utf16 "/" = [47] := rfl
  have e2 : utf16 "//" = [47, 47] := rfl
  rw [e1, e2]
  constructor
  · intro h
    match p, h with
    | [], _ => left; rfl
    | c :: r, h =>
      by_cases hc : c = 47
      · subst hc
        have hs : stripSlashes (47 :: r) = if r.getLast? = some 47 then r.dropLast else r := rfl
        rw [hs] at h
        split at h
        · rename_i hlast
          rw [dropLast_eq_nil_of_getLast r hlast h]
          right; right; rfl
        · rw [h]
          right; left; rfl
      · have hs : stripSlashes (c :: r)
            = if (c :: r).getLast? = some 47 then (c :: r).dropLast else c :: r := by
          have hsw : startsWith (c :: r) 47 = false := by simpa [startsWith] using hc
          unfold stripSlashes
          rw [hsw]
          rfl
        rw [hs] at h
        split at h
        · rename_i hlast
          have := dropLast_eq_nil_of_getLast (c :: r) hlast h
          cases this
          exact absurd rfl hc
        · cases h
  · rintro (rfl | rfl | rfl) <;> rfl

/-- C6 (the claim at a repeated URL, and at two URLs with one hash prefix): the same
URL twice gives two records with the same label, and so do the distinct URLs
`https://example.com/?p=23958` and `https://example.com/?p=24646`, whose MD5 digests
both start with `a06351a2` and whose path is `/`. -/
theorem generateScenarios_shared_label :
    ¬ ((generateScenarios sampleBuiltins emptyEnv
        [utf16 "https://example.com/", utf16 "https://example.com/"]).map
          fun r => r.label).Nodup ∧
    (generateScenarios sampleBuiltins emptyEnv
        [utf16 "https://example.com/?p=23958", utf16 "https://example.com/?p=24646"]).map
          (fun r => r.label)
      = [utf16 "Homepage [a06351a2]", utf16 "Homepage [a06351a2]"] := by
  constructor <;> decide

/-- C6 (amended): when the MD5 digests are 32 characters long and the 8-character
hash prefixes of the URLs are pairwise distinct, no two records at different
positions share a label; and a URL gets the same label in every list. -/
theorem generateScenarios_labels_distinct (B : Builtins) (env : Env) (urls : List Str)
    (hlen : ∀ u, (B.md5hex u).length = 32)
    (hhash : (urls.map (urlHash B)).Nodup) :
    (generateScenarios B env urls).Pairwise (fun r1 r2 => r1.label ≠ r2.label) ∧
    ∀ r1 ∈ generateScenarios B env urls, ∀ r2 ∈ generateScenarios B env urls,
      r1.url = r2.url → r1.label = r2.label := by
  have hlen8 : ∀ u, (urlHash B u).length = 8 := by
    intro u
    unfold urlHash
    rw [List.length_take, hlen u]
    rfl
  have hinj : ∀ u v, (scenarioOf B env u).label = (scenarioOf B env v).label →
      urlHash B u = urlHash B v := by
    intro u v h
    have h2 : (safeLabel B u ++ utf16 " [") ++ (urlHash B u ++ utf16 "]")
        = (safeLabel B v ++ utf16 " [") ++ (urlHash B v ++ utf16 "]") := by
      simpa [scenarioOf, List.append_assoc] using h
    have h3 := (List.append_inj' h2 (by
      rw [List.length_append, List.length_append, hlen8 u, hlen8 v])).2
    exact List.append_cancel_right h3
  constructor
  · unfold generateScenarios
    rw [List.pairwise_map]
    have hnd : urls.Pairwise (fun u v => urlHash B u ≠ urlHash B v) := by
      have := hhash
      unfold List.Nodup at this
      rwa [List.pairwise_map] at this
    exact hnd.imp fun hne h => hne (hinj _ _ h)
  · intro r1 h1 r2 h2 hurl
    unfold generateScenarios at h1 h2
    rw [List.mem_map] at h1 h2
    obtain ⟨u, _, rfl⟩ := h1
    obtain ⟨v, _, rfl⟩ := h2
    have huv : u = v := hurl
    rw [huv]

theorem sampleBuiltins_md5hex_length (u : Str) : (sampleBuiltins.md5hex u).length = 32 := by
  unfold sampleBuiltins
  simp only
  split_ifs <;> rfl

/-- Witness of the amended C6 at the two URLs of the example list. -/
theorem generateScenarios_labels_distinct_witness :
    (generateScenarios sampleBuiltins emptyEnv
      [utf16 "https://example.com/", utf16 "https://example.com/about"]).Pairwise
        (fun r1 r2 => r1.label ≠ r2.label) :=
  (generateScenarios_labels_distinct sampleBuiltins emptyEnv
    [utf16 "https://example.com/", utf16 "https://example.com/about"]
    sampleBuiltins_md5hex_length (by decide)).1

/-- C8 (the claim at the path `//`): for `https://example.com//` the code returns
`Homepage`, while the label as specified is the rewriting of the empty path, the
empty string, whatever joins the segments. -/
theorem generateLabel_double_slash :
    generateLabel sampleBuiltins (utf16 "https://example.com//") = utf16 "Homepage" ∧
    ∀ sep : Str, labelAsSpecified sampleBuiltins sep (utf16 "https://example.com//") = some [] := by
  constructor
  · decide
  · intro sep
    rfl

/-- C8 (amended): for a URL that parses with path `p`, `generateLabel` returns
`Homepage` exactly when `p` is empty, `/` or `//` (empty once one leading and one
trailing slash are removed); otherwise it returns the segments of the stripped path,
each split on `-` with its words capitalised and joined by one space, joined in
order by ` - `; `/about` gives `About` and `/my-first-post` gives `My First Post`. -/
theorem generateLabel_homepage_or_segments (B : Builtins) (u p : Str)
    (hp : B.pathname u = some p) :
    (p = [] ∨ p = utf16 "/" ∨ p = utf16 "//" → generateLabel B u = utf16 "Homepage") ∧
    (¬ (p = [] ∨ p = utf16 "/" ∨ p = utf16 "//") →
      generateLabel B u = join (utf16 " - ") ((splitOn 47 (stripSlashes p)).map fun segment =>
        join (utf16 " ") ((splitOn 45 segment).map (capitalize B)))) ∧
    (p = utf16 "/about" → generateLabel B u = utf16 "About") ∧
    (p = utf16 "/my-first-post" → generateLabel B u = utf16 "My First Post") := by
  refine ⟨?_, ?_, ?_, ?_⟩
  · intro h
    have := (stripSlashes_eq_nil_iff p).mpr h
    unfold generateLabel
    rw [hp]
    simp [this]
  · intro h
    have hne : stripSlashes p ≠ [] := fun h2 => h ((stripSlashes_eq_nil_iff p).mp h2)
    unfold generateLabel
    rw [hp]
    simp only [List.isEmpty_iff, hne, if_false]
    rfl
  · intro h
    unfold generateLabel
    rw [hp, h]
    rfl
  · intro h
    unfold generateLabel
    rw [hp, h]
    rfl

/-- Witness of the amended C8 at `https://example.com/my-first-post`. -/
theorem generateLabel_homepage_or_segments_witness :
    generateLabel sampleBuiltins (utf16 "https://example.com/my-first-post")
      = utf16 "My First Post" :=
  (generateLabel_homepage_or_segments sampleBuiltins
    (utf16 "https://example.com/my-first-post") (utf16 "/my-first-post") (by decide)).2.2.2 rfl

/-! ## Properties of the configuration writer -/

theorem objGet_cons (k2 : Str) (v : Json) (rest : Obj) (k : Str) :
    objGet ((k2, v) :: rest) k
      = match objGet rest k with
        | some w => some w
        | none => if k2 = k then some v else none := rfl

theorem objGet_eq_none_iff (o : Obj) (k : Str) :
    objGet o k = none ↔ k ∉ o.map fun e => e.1 := by
  induction o with
  | nil => simp [objGet]
  | cons e o ih =>
    obtain ⟨k2, v⟩ := e
    rw [objGet_cons]
    cases h : objGet o k with
    | some w =>
      have : ¬ (k ∉ o.map fun e => e.1) := fun hn => by
        rw [ih.mpr hn] at h; cases h
      simp only [List.map_cons, List.mem_cons, not_or]
      constructor
      · intro hc; cases hc
      · intro hc; exact absurd hc.2 this
    | none =>
      have hk := ih.mp h
      by_cases h2 : k2 = k
      · simp [h2]
      · have h3 : ¬ k = k2 := fun h => h2 h.symm
        simp [h2, h3, hk]

theorem objGet_append_single (o : Obj) (k : Str) (v : Json) (k2 : Str) :
    objGet (o ++ [(k, v)]) k2 = if k = k2 then some v else objGet o k2 := by
  induction o with
  | nil => simp [objGet]
  | cons e o ih =>
    obtain ⟨k3, w⟩ := e
    rw [List.cons_append, objGet_cons, objGet_cons, ih]
    by_cases h : k = k2
    · simp [h]
    · simp only [h, if_false]

theorem objGet_replace (o : Obj) (k : Str) (v : Json) (k2 : Str) :
    objGet (o.map fun e => if e.1 = k then (e.1, v) else e) k2
      = if k2 = k then (if k ∈ o.map (fun e => e.1) then some v else none) else objGet o k2 := by
  induction o with
  | nil => simp [objGet]
  | cons e o ih =>
    obtain ⟨k3, w⟩ := e
    rw [List.map_cons]
    by_cases h3 : k3 = k
    · have hh : (if (k3, w).1 = k then ((k3, w).1, v) else (k3, w)) = (k3, v) := by simp [h3]
      rw [hh, objGet_cons, ih, objGet_cons]
      by_cases h : k2 = k
      · subst h
        subst h3
        by_cases hm : k3 ∈ o.map fun e => e.1
        · simp [hm]
        · simp [hm]
      · have h5 : ¬ k3 = k2 := fun h6 => h (h6 ▸ h3)
        simp only [h, h5, if_false]
    · have hh : (if (k3, w).1 = k then ((k3, w).1, v) else (k3, w)) = (k3, w) := by simp [h3]
      rw [hh, objGet_cons, ih, objGet_cons]
      by_cases h : k2 = k
      · subst h
        have h4 : ¬ k2 = k3 := fun h => h3 h.symm
        by_cases hm : k2 ∈ o.map fun e => e.1
        · simp [hm]
        · simp [hm, h3, h4]
      · simp only [h, if_false]

theorem objGet_objSet (k : Str) (v : Json) (o : Obj) (k2 : Str) :
    objGet (objSet k v o) k2 = if k2 = k then some v else objGet o k2 := by
  unfold objSet
  by_cases hm : k ∈ o.map fun e => e.1
  · have hc : (o.map fun e => e.1).contains k = true := by simpa using hm
    rw [if_pos hc, objGet_replace]
    by_cases h : k2 = k
    · simp only [h, if_true]
      rw [if_pos hm]
    · simp only [h, if_false]
  · have hc : ¬ (o.map fun e => e.1).contains k = true := by simpa using hm
    rw [if_neg hc, objGet_append_single]
    by_cases h : k2 = k
    · simp [h]
    · have h2 : ¬ k = k2 := fun h3 => h h3.symm
      simp only [h, h2, if_false]

theorem objGet_objSpread (a b : Obj) (k : Str) :
    objGet (objSpread a b) k = (objGet b k).orElse fun _ => objGet a k := by
  induction b generalizing a with
  | nil => rfl
  | cons e b ih =>
    obtain ⟨k2, v⟩ := e
    show objGet (objSpread (objSet k2 v a) b) k = _
    rw [ih, objGet_objSet, objGet_cons]
    cases h : objGet b k with
    | some w => rfl
    | none =>
      by_cases h2 : k2 = k
      · simp [h2]
      · have h3 : ¬ k = k2 := fun h => h2 h.symm
        simp [h2, h3]

theorem objGet_objErase (k : Str) (o : Obj) (k2 : Str) :
    objGet (objErase k o) k2 = if k2 = k then none else objGet o k2 := by
  induction o with
  | nil => simp [objErase, objGet]
  | cons e o ih =>
    obtain ⟨k3, w⟩ := e
    have hcons : objErase k ((k3, w) :: o)
        = if k3 = k then objErase k o else (k3, w) :: objErase k o := by
      unfold objErase
      rw [List.filter_cons]
      by_cases h3 : k3 = k <;> simp [h3]
    rw [hcons, objGet_cons]
    by_cases h3 : k3 = k
    · rw [if_pos h3, ih]
      by_cases h : k2 = k
      · simp [h]
      · have h4 : ¬ k3 = k2 := fun h5 => h (h5 ▸ h3)
        simp only [h, h4, if_false]
        cases objGet o k2 <;> rfl
    · rw [if_neg h3, objGet_cons, ih]
      by_cases h : k2 = k
      · have h4 : ¬ k3 = k2 := fun h5 => h3 (h5.trans h)
        simp [h, h3]
      · simp only [h, if_false]

theorem mem_objSet (k : Str) (v : Json) (o : Obj) (e : Str × Json) (h : e ∈ objSet k v o) :
    (e.1 = k → e.2 = v) ∧ (e.1 ≠ k → e ∈ o) := by
  unfold objSet at h
  split at h
  · rw [List.mem_map] at h
    obtain ⟨e2, he2, rfl⟩ := h
    by_cases hk : e2.1 = k
    · simp [hk]
    · simp [hk, he2]
  · rw [List.mem_append, List.mem_singleton] at h
    rcases h with h | rfl
    · rename_i hc
      have hnk : e.1 ≠ k := by
        intro hk
        apply hc
        have hm : k ∈ o.map fun e => e.1 := List.mem_map.mpr ⟨e, h, hk⟩
        simpa using hm
      exact ⟨fun hk => absurd hk hnk, fun _ => h⟩
    · simp

/-- C9: for a previously written configuration `E` and a key other than `id`, `paths`
and `scenarios`, the configuration returned by `getBaseConfig` has the value of `E`
when `E` defines the key and the built-in default otherwise; the defaults are the
viewports phone 320x480 and tablet 1024x768, report `["browser"]`, engine
`puppeteer`, engineOptions args `["--no-sandbox"]`, asyncCaptureLimit 5,
asyncCompareLimit 50, debug false and debugWindow false. -/
theorem getBaseConfig_existing_wins_over_defaults (B : Builtins) (env : Env) (E : Obj)
    (k : Str) (hid : k ≠ utf16 "id") (hpaths : k ≠ utf16 "paths")
    (hscenarios : k ≠ utf16 "scenarios") :
    (∀ v, objGet E k = some v → objGet (getBaseConfig B env (.parsed (.obj E))) k = some v) ∧
    (objGet E k = none →
      objGet (getBaseConfig B env (.parsed (.obj E))) k = objGet defaultConfig k) ∧
    objGet defaultConfig (utf16 "viewports") = some (.arr [
      .obj [(utf16 "label", .lit "phone"), (utf16 "width", .int 320), (utf16 "height", .int 480)],
      .obj [(utf16 "label", .lit "tablet"), (utf16 "width", .int 1024),
        (utf16 "height", .int 768)]]) ∧
    objGet defaultConfig (utf16 "report") = some (.arr [.lit "browser"]) ∧
    objGet defaultConfig (utf16 "engine") = some (.lit "puppeteer") ∧
    objGet defaultConfig (utf16 "engineOptions")
      = some (.obj [(utf16 "args", .arr [.lit "--no-sandbox"])]) ∧
    objGet defaultConfig (utf16 "asyncCaptureLimit") = some (.int 5) ∧
    objGet defaultConfig (utf16 "asyncCompareLimit") = some (.int 50) ∧
    objGet defaultConfig (utf16 "debug") = some (.bool false) ∧
    objGet defaultConfig (utf16 "debugWindow") = some (.bool false) := by
  have hget : objGet (getBaseConfig B env (.parsed (.obj E))) k
      = (objGet E k).orElse fun _ => objGet defaultConfig k := by
    unfold getBaseConfig
    simp only
    rw [objGet_objSet, if_neg hpaths, objGet_objSet, if_neg hid, objGet_objSpread,
      objGet_objSpread]
    show (objGet (objErase (utf16 "scenarios") E) k).orElse _ = _
    rw [objGet_objErase, if_neg hscenarios]
    cases objGet E k with
    | some v => rfl
    | none =>
      show (objGet defaultConfig k).orElse _ = objGet defaultConfig k
      cases objGet defaultConfig k <;> rfl
  refine ⟨?_, ?_, rfl, rfl, rfl, rfl, rfl, rfl, rfl, rfl⟩
  · intro v hv
    rw [hget, hv]
    rfl
  · intro hn
    rw [hget, hn]
    rfl

/-- Witness of C9: the engine of the sample configuration is kept. -/
theorem getBaseConfig_existing_wins_over_defaults_witness :
    objGet (getBaseConfig sampleBuiltins emptyEnv (.parsed (.obj sampleExisting))) (utf16 "engine")
      = some (.lit "playwright") :=
  (getBaseConfig_existing_wins_over_defaults sampleBuiltins emptyEnv sampleExisting
    (utf16 "engine") (by decide) (by decide) (by decide)).1 _ rfl

/-- C10: whatever the existing file holds, the configuration returned by
`getBaseConfig` has `id` equal to `PROJECT_ID` (`backstop_default` when unset or
empty) and `paths` equal to the five paths derived from the environment; every
entry of the result under `id` or `paths` holds these values. -/
theorem getBaseConfig_id_paths_from_env (B : Builtins) (env : Env) (file : ExistingFile) :
    objGet (getBaseConfig B env file) (utf16 "id") = some (.str (projectId env)) ∧
    objGet (getBaseConfig B env file) (utf16 "paths") = some (envPaths B env) ∧
    (∀ e ∈ getBaseConfig B env file,
      (e.1 = utf16 "id" → e.2 = .str (projectId env)) ∧
      (e.1 = utf16 "paths" → e.2 = envPaths B env)) ∧
    (env.PROJECT_ID = none ∨ env.PROJECT_ID = some [] → projectId env = utf16 "backstop_default") ∧
    (∀ c cs, env.PROJECT_ID = some (c :: cs) → projectId env = c :: cs) ∧
    envPaths B env = .obj [
      (utf16 "bitmaps_reference", .str (dataDir B env ++ utf16 "/bitmaps_reference")),
      (utf16 "bitmaps_test", .str (dataDir B env ++ utf16 "/bitmaps_test")),
      (utf16 "engine_scripts", .str (scriptsDir env)),
      (utf16 "html_report", .str (dataDir B env ++ utf16 "/html_report")),
      (utf16 "ci_report", .str (dataDir B env ++ utf16 "/ci_report"))] := by
  have hne : utf16 "id" ≠ utf16 "paths" := by decide
  refine ⟨?_, ?_, ?_, ?_, ?_, rfl⟩
  · unfold getBaseConfig
    simp only
    rw [objGet_objSet, if_neg hne, objGet_objSet, if_pos rfl]
  · unfold getBaseConfig
    simp only
    rw [objGet_objSet, if_pos rfl]
  · intro e he
    unfold getBaseConfig at he
    simp only at he
    have h1 := mem_objSet _ _ _ e he
    refine ⟨?_, h1.1⟩
    intro hk
    have h2 := h1.2 (by rw [hk]; exact hne)
    exact (mem_objSet _ _ _ e h2).1 hk
  · rintro (h | h) <;> simp [projectId, orDefault, h]
  · intro c cs h
    simp [projectId, orDefault, h]

/-! ## Writing the configuration twice -/

theorem objGet_objSpread_nil (o : Obj) (k : Str) : objGet (objSpread [] o) k = objGet o k := by
  rw [objGet_objSpread]
  cases objGet o k <;> rfl

theorem objGet_finalConfig (B : Builtins) (env : Env) (file : ExistingFile)
    (scenarios : List ScenarioRecord) (k : Str) :
    objGet (finalConfig B env file scenarios) k
      = if k = utf16 "scenarios" then some (.arr (scenarios.map scenarioJson))
        else objGet (getBaseConfig B env file) k := by
  unfold finalConfig
  rw [objGet_objSet, objGet_objSpread_nil]

theorem objGet_getBaseConfig (B : Builtins) (env : Env) (file : ExistingFile) (k : Str) :
    objGet (getBaseConfig B env file) k
      = if k = utf16 "paths" then some (envPaths B env)
        else if k = utf16 "id" then some (.str (projectId env))
        else (objGet (baseConfigOf file) k).orElse fun _ => objGet defaultConfig k := by
  unfold getBaseConfig
  simp only
  rw [objGet_objSet, objGet_objSet, objGet_objSpread, objGet_objSpread_nil]

/-- C11: for any existing file, environment and scenario lists `s1`, `s2`, the
configuration written with `s1` and the one written with `s2` after the first is read
back have the same value under every top-level key other than `scenarios` (among
them `id` and `paths`, from the environment), and their `scenarios` are exactly
`s1` and `s2`. -/
theorem finalConfig_written_twice (B : Builtins) (env : Env) (file : ExistingFile)
    (s1 s2 : List ScenarioRecord) :
    (∀ k : Str, k ≠ utf16 "scenarios" →
      objGet (finalConfig B env (readBack (finalConfig B env file s1)) s2) k
        = objGet (finalConfig B env file s1) k) ∧
    objGet (finalConfig B env file s1) (utf16 "scenarios") = some (.arr (s1.map scenarioJson)) ∧
    objGet (finalConfig B env (readBack (finalConfig B env file s1)) s2) (utf16 "scenarios")
      = some (.arr (s2.map scenarioJson)) ∧
    objGet (finalConfig B env file s1) (utf16 "id") = some (.str (projectId env)) ∧
    objGet (finalConfig B env file s1) (utf16 "paths") = some (envPaths B env) := by
  have hid : utf16 "id" ≠ utf16 "scenarios" := by decide
  have hpaths : utf16 "paths" ≠ utf16 "scenarios" := by decide
  have hidp : utf16 "id" ≠ utf16 "paths" := by decide
  refine ⟨?_, ?_, ?_, ?_, ?_⟩
  · intro k hk
    rw [objGet_finalConfig, if_neg hk, objGet_finalConfig, if_neg hk, objGet_getBaseConfig,
      objGet_getBaseConfig]
    by_cases h1 : k = utf16 "paths"
    · rw [if_pos h1, if_pos h1]
    · rw [if_neg h1, if_neg h1]
      by_cases h2 : k = utf16 "id"
      · rw [if_pos h2, if_pos h2]
      · rw [if_neg h2, if_neg h2]
        show (objGet (objErase (utf16 "scenarios") (finalConfig B env file s1)) k).orElse _ = _
        rw [objGet_objErase, if_neg hk, objGet_finalConfig, if_neg hk, objGet_getBaseConfig,
          if_neg h1, if_neg h2]
        cases objGet (baseConfigOf file) k with
        | some v => rfl
        | none =>
          show ((objGet defaultConfig k).orElse fun _ => objGet defaultConfig k)
            = objGet defaultConfig k
          cases objGet defaultConfig k <;> rfl
  · rw [objGet_finalConfig, if_pos rfl]
  · rw [objGet_finalConfig, if_pos rfl]
  · rw [objGet_finalConfig, if_neg hid, objGet_getBaseConfig, if_neg hidp, if_pos rfl]
  · rw [objGet_finalConfig, if_neg hpaths, objGet_getBaseConfig, if_pos rfl]

/-! ## Properties of the progress monitor -/

theorem detectScenario_fields (R : RegExpEngine) (labels : List Str) (line : Str) (m : Monitor) :
    (detectScenario R labels line m).completed = m.completed ∧
    (detectScenario R labels line m).total = m.total ∧
    (detectScenario R labels line m).passed = m.passed ∧
    (detectScenario R labels line m).failed = m.failed ∧
    (detectScenario R labels line m).currentViewport = m.currentViewport ∧
    (detectScenario R labels line m).startTime = m.startTime ∧
    (detectScenario R labels line m).outputBuffer = m.outputBuffer := by
  unfold detectScenario
  split <;> exact ⟨rfl, rfl, rfl, rfl, rfl, rfl, rfl⟩

theorem detectViewport_fields (R : RegExpEngine) (line : Str) (m : Monitor) :
    (detectViewport R line m).completed = m.completed ∧
    (detectViewport R line m).total = m.total ∧
    (detectViewport R line m).passed = m.passed ∧
    (detectViewport R line m).failed = m.failed ∧
    (detectViewport R line m).currentScenario = m.currentScenario ∧
    (detectViewport R line m).lastScenarioIndex = m.lastScenarioIndex ∧
    (detectViewport R line m).startTime = m.startTime ∧
    (detectViewport R line m).outputBuffer = m.outputBuffer := by
  unfold detectViewport
  split <;> exact ⟨rfl, rfl, rfl, rfl, rfl, rfl, rfl, rfl⟩

theorem countStep_fields (R : RegExpEngine) (now : Int) (line : Str) (m : Monitor) :
    (countStep R now line m).total = m.total ∧
    (countStep R now line m).passed = m.passed ∧
    (countStep R now line m).failed = m.failed ∧
    (countStep R now line m).currentScenario = m.currentScenario ∧
    (countStep R now line m).currentViewport = m.currentViewport ∧
    (countStep R now line m).lastScenarioIndex = m.lastScenarioIndex ∧
    (countStep R now line m).startTime = m.startTime ∧
    (countStep R now line m).outputBuffer = m.outputBuffer := by
  unfold countStep
  simp only
  split
  · split <;> exact ⟨rfl, rfl, rfl, rfl, rfl, rfl, rfl, rfl⟩
  · exact ⟨rfl, rfl, rfl, rfl, rfl, rfl, rfl, rfl⟩

/-- The count of a step: by one when a step is detected below `total`, else unchanged. -/
theorem countStep_completed (R : RegExpEngine) (now : Int) (line : Str) (m : Monitor) :
    (countStep R now line m).completed
      = if stepCompleted R line = true ∧ m.completed < m.total then m.completed + 1
        else m.completed := by
  unfold countStep
  simp only
  by_cases h : stepCompleted R line = true
  · by_cases h2 : m.completed < m.total
    · have h3 : min (m.completed + 1) m.total > m.completed := by
        rw [Nat.min_eq_left (by omega)]; omega
      have h4 : min (m.completed + 1) m.total = m.completed + 1 := Nat.min_eq_left (by omega)
      rw [if_pos h, if_pos h3, if_pos ⟨h, h2⟩]
      exact h4
    · have h3 : ¬ min (m.completed + 1) m.total > m.completed := by
        rw [Nat.min_eq_right (by omega)]; omega
      rw [if_pos h, if_neg h3, if_neg (fun hc => h2 hc.2)]
  · rw [if_neg h, if_neg (fun hc => h hc.1)]

theorem countPassed_fields (R : RegExpEngine) (line : Str) (m : Monitor) :
    (countPassed R line m).completed = m.completed ∧
    (countPassed R line m).total = m.total ∧
    (countPassed R line m).failed = m.failed ∧
    (countPassed R line m).currentScenario = m.currentScenario ∧
    (countPassed R line m).currentViewport = m.currentViewport ∧
    (countPassed R line m).lastScenarioIndex = m.lastScenarioIndex ∧
    (countPassed R line m).startTime = m.startTime ∧
    (countPassed R line m).outputBuffer = m.outputBuffer := by
  unfold countPassed
  split
  · split <;> exact ⟨rfl, rfl, rfl, rfl, rfl, rfl, rfl, rfl⟩
  · exact ⟨rfl, rfl, rfl, rfl, rfl, rfl, rfl, rfl⟩

theorem countFailed_fields (R : RegExpEngine) (line : Str) (m : Monitor) :
    (countFailed R line m).completed = m.completed ∧
    (countFailed R line m).total = m.total ∧
    (countFailed R line m).passed = m.passed ∧
    (countFailed R line m).currentScenario = m.currentScenario ∧
    (countFailed R line m).currentViewport = m.currentViewport ∧
    (countFailed R line m).lastScenarioIndex = m.lastScenarioIndex ∧
    (countFailed R line m).startTime = m.startTime ∧
    (countFailed R line m).outputBuffer = m.outputBuffer := by
  unfold countFailed
  split
  · split <;> exact ⟨rfl, rfl, rfl, rfl, rfl, rfl, rfl, rfl⟩
  · exact ⟨rfl, rfl, rfl, rfl, rfl, rfl, rfl, rfl⟩

theorem processLine_total (R : RegExpEngine) (labels : List Str) (now : Int) (m : Monitor)
    (l : Str) : (processLine R labels now m l).total = m.total := by
  unfold processLine
  simp only
  split
  · rfl
  · rw [(countFailed_fields _ _ _).2.1, (countPassed_fields _ _ _).2.1,
      (countStep_fields _ _ _ _).1, (detectViewport_fields _ _ _).2.1,
      (detectScenario_fields _ _ _ _).2.1]

theorem processLine_outputBuffer (R : RegExpEngine) (labels : List Str) (now : Int)
    (m : Monitor) (l : Str) :
    (processLine R labels now m l).outputBuffer = m.outputBuffer := by
  unfold processLine
  simp only
  split
  · rfl
  · rw [(countFailed_fields _ _ _).2.2.2.2.2.2.2, (countPassed_fields _ _ _).2.2.2.2.2.2.2,
      (countStep_fields _ _ _ _).2.2.2.2.2.2.2, (detectViewport_fields _ _ _).2.2.2.2.2.2.2,
      (detectScenario_fields _ _ _ _).2.2.2.2.2.2]

/-- One segment raises `completed` by at most one, never lowers it, and keeps it
within `total`. -/
theorem processLine_completed (R : RegExpEngine) (labels : List Str) (now : Int) (m : Monitor)
    (l : Str) :
    m.completed ≤ (processLine R labels now m l).completed ∧
    (processLine R labels now m l).completed ≤ m.completed + 1 ∧
    (m.completed ≤ m.total → (processLine R labels now m l).completed ≤ m.total) := by
  unfold processLine
  simp only
  split
  · exact ⟨le_refl _, Nat.le_succ _, fun h => h⟩
  · rw [(countFailed_fields _ _ _).1, (countPassed_fields _ _ _).1, countStep_completed,
      (detectViewport_fields _ _ _).2.1, (detectViewport_fields _ _ _).1,
      (detectScenario_fields _ _ _ _).2.1, (detectScenario_fields _ _ _ _).1]
    split
    · rename_i h
      exact ⟨Nat.le_succ _, le_refl _, fun _ => h.2⟩
    · exact ⟨le_refl _, Nat.le_succ _, fun h => h⟩

theorem splitOn_ne_nil (sep : Nat) (s : Str) : splitOn sep s ≠ [] := by
  cases s with
  | nil => simp [splitOn]
  | cons c cs =>
    unfold splitOn
    split
    · simp
    · split <;> simp

theorem splitOn_cons_sep (sep : Nat) (cs : Str) :
    splitOn sep (sep :: cs) = [] :: splitOn sep cs := by
  rw [splitOn, if_pos rfl]

theorem splitOn_cons_ne (sep c : Nat) (cs : Str) (w : Str) (ws : List Str) (h : c ≠ sep)
    (hs : splitOn sep cs = w :: ws) : splitOn sep (c :: cs) = (c :: w) :: ws := by
  rw [splitOn, if_neg h, hs]

/-- Splitting a concatenation: the segments of `x` but the last, then the segments of
the last segment of `x` followed by `y`. -/
theorem splitOn_append (sep : Nat) (x y : Str) :
    splitOn sep (x ++ y)
      = (splitOn sep x).dropLast ++ splitOn sep ((splitOn sep x).getLastD [] ++ y) := by
  induction x with
  | nil => simp [splitOn]
  | cons c cs ih =>
    by_cases h : c = sep
    · subst h
      rw [List.cons_append, splitOn_cons_sep, splitOn_cons_sep, ih]
      cases hS : splitOn c cs with
      | nil => exact absurd hS (splitOn_ne_nil _ _)
      | cons w ws => simp [List.dropLast, List.getLastD]
    · cases hS : splitOn sep cs with
      | nil => exact absurd hS (splitOn_ne_nil _ _)
      | cons w ws =>
        rw [splitOn_cons_ne sep c cs w ws h hS, List.cons_append]
        rw [hS] at ih
        cases ws with
        | nil =>
          have e1 : [w].dropLast = [] := rfl
          have e2 : [c :: w].dropLast = [] := rfl
          have e3 : [w].getLastD [] = w := rfl
          have e4 : [c :: w].getLastD [] = c :: w := rfl
          rw [e1, e3, List.nil_append] at ih
          rw [e2, e4, List.nil_append, List.cons_append]
          cases hT : splitOn sep (w ++ y) with
          | nil => exact absurd hT (splitOn_ne_nil _ _)
          | cons v vs =>
            rw [hT] at ih
            rw [splitOn_cons_ne sep c (cs ++ y) v vs h ih,
              splitOn_cons_ne sep c (w ++ y) v vs h hT]
        | cons w2 ws2 =>
          have e1 : (w :: w2 :: ws2).dropLast = w :: (w2 :: ws2).dropLast := rfl
          have e2 : ((c :: w) :: w2 :: ws2).dropLast = (c :: w) :: (w2 :: ws2).dropLast := rfl
          have e3 : (w :: w2 :: ws2).getLastD [] = (w2 :: ws2).getLastD [] := rfl
          have e4 : ((c :: w) :: w2 :: ws2).getLastD [] = (w2 :: ws2).getLastD [] := rfl
          rw [e1, e3, List.cons_append] at ih
          rw [e2, e4, List.cons_append]
          exact splitOn_cons_ne sep c (cs ++ y) _ _ h ih

theorem not_mem_of_mem_splitOn (sep : Nat) (s seg : Str) (h : seg ∈ splitOn sep s) :
    sep ∉ seg := by
  induction s generalizing seg with
  | nil =>
    simp [splitOn] at h
    subst h
    simp
  | cons c cs ih =>
    by_cases hc : c = sep
    · subst hc
      rw [splitOn_cons_sep, List.mem_cons] at h
      rcases h with rfl | h
      · simp
      · exact ih seg h
    · cases hS : splitOn sep cs with
      | nil => exact absurd hS (splitOn_ne_nil _ _)
      | cons w ws =>
        rw [splitOn_cons_ne sep c cs w ws hc hS, List.mem_cons] at h
        rcases h with rfl | h
        · have hw := ih w (by rw [hS]; exact List.mem_cons_self _ _)
          intro hm
          rw [List.mem_cons] at hm
          rcases hm with hm | hm
          · exact hc hm.symm
          · exact hw hm
        · exact ih seg (by rw [hS]; exact List.mem_cons_of_mem _ h)

/-- A text is its segments but the last, each followed by the separator, and then
its last segment. -/
theorem splitOn_text (sep : Nat) (s : Str) :
    s = ((splitOn sep s).dropLast.map fun seg => seg ++ [sep]).flatten
          ++ (splitOn sep s).getLastD [] := by
  induction s with
  | nil => simp [splitOn]
  | cons c cs ih =>
    by_cases hc : c = sep
    · subst hc
      rw [splitOn_cons_sep]
      cases hS : splitOn c cs with
      | nil => exact absurd hS (splitOn_ne_nil _ _)
      | cons w ws =>
        rw [hS] at ih
        have e1 : ([] :: w :: ws).dropLast = [] :: (w :: ws).dropLast := rfl
        have e2 : (([] : Str) :: w :: ws).getLastD [] = (w :: ws).getLastD [] := rfl
        rw [e1, e2, List.map_cons, List.flatten_cons, List.nil_append, List.append_assoc, ← ih]
        rfl
    · cases hS : splitOn sep cs with
      | nil => exact absurd hS (splitOn_ne_nil _ _)
      | cons w ws =>
        rw [splitOn_cons_ne sep c cs w ws hc hS]
        rw [hS] at ih
        cases ws with
        | nil =>
          have e1 : [w].dropLast = [] := rfl
          have e2 : [c :: w].dropLast = [] := rfl
          have e3 : [w].getLastD [] = w := rfl
          have e4 : [c :: w].getLastD [] = c :: w := rfl
          rw [e1, e3, List.map_nil, List.flatten_nil, List.nil_append] at ih
          rw [e2, e4, List.map_nil, List.flatten_nil, List.nil_append, ← ih]
        | cons w2 ws2 =>
          have e1 : (w :: w2 :: ws2).dropLast = w :: (w2 :: ws2).dropLast := rfl
          have e2 : ((c :: w) :: w2 :: ws2).dropLast = (c :: w) :: (w2 :: ws2).dropLast := rfl
          have e3 : (w :: w2 :: ws2).getLastD [] = (w2 :: ws2).getLastD [] := rfl
          have e4 : ((c :: w) :: w2 :: ws2).getLastD [] = (w2 :: ws2).getLastD [] := rfl
          rw [e1, e3, List.map_cons, List.flatten_cons] at ih
          rw [e2, e4, List.map_cons, List.flatten_cons]
          simp only [List.cons_append, List.append_assoc] at ih ⊢
          rw [← ih]

theorem counts_eq_iff (m1 m2 : Monitor) :
    m1.counts = m2.counts ↔
      m1.completed = m2.completed ∧ m1.total = m2.total ∧ m1.passed = m2.passed ∧
      m1.failed = m2.failed ∧ m1.currentScenario = m2.currentScenario ∧
      m1.currentViewport = m2.currentViewport ∧
      m1.lastScenarioIndex = m2.lastScenarioIndex := by
  simp only [Monitor.counts, Prod.mk.injEq]

theorem counts_detectScenario (R : RegExpEngine) (labels : List Str) (line : Str)
    (m1 m2 : Monitor) (h : m1.counts = m2.counts) :
    (detectScenario R labels line m1).counts = (detectScenario R labels line m2).counts := by
  rw [counts_eq_iff] at h ⊢
  obtain ⟨h1, h2, h3, h4, h5, h6, h7⟩ := h
  unfold detectScenario
  split
  · simp only [h1, h2, h3, h4, h6, h7, and_self]
  · exact ⟨h1, h2, h3, h4, h5, h6, h7⟩

theorem counts_detectViewport (R : RegExpEngine) (line : Str) (m1 m2 : Monitor)
    (h : m1.counts = m2.counts) :
    (detectViewport R line m1).counts = (detectViewport R line m2).counts := by
  rw [counts_eq_iff] at h ⊢
  obtain ⟨h1, h2, h3, h4, h5, h6, h7⟩ := h
  unfold detectViewport
  split
  · exact ⟨h1, h2, h3, h4, h5, rfl, h7⟩
  · exact ⟨h1, h2, h3, h4, h5, h6, h7⟩

theorem counts_countStep (R : RegExpEngine) (n1 n2 : Int) (line : Str) (m1 m2 : Monitor)
    (h : m1.counts = m2.counts) :
    (countStep R n1 line m1).counts = (countStep R n2 line m2).counts := by
  rw [counts_eq_iff] at h ⊢
  obtain ⟨h1, h2, h3, h4, h5, h6, h7⟩ := h
  have f1 := countStep_fields R n1 line m1
  have f2 := countStep_fields R n2 line m2
  refine ⟨?_, ?_, ?_, ?_, ?_, ?_, ?_⟩
  · rw [countStep_completed, countStep_completed, h1, h2]
  · rw [f1.1, f2.1, h2]
  · rw [f1.2.1, f2.2.1, h3]
  · rw [f1.2.2.1, f2.2.2.1, h4]
  · rw [f1.2.2.2.1, f2.2.2.2.1, h5]
  · rw [f1.2.2.2.2.1, f2.2.2.2.2.1, h6]
  · rw [f1.2.2.2.2.2.1, f2.2.2.2.2.2.1, h7]

theorem counts_countPassed (R : RegExpEngine) (line : Str) (m1 m2 : Monitor)
    (h : m1.counts = m2.counts) :
    (countPassed R line m1).counts = (countPassed R line m2).counts := by
  rw [counts_eq_iff] at h ⊢
  obtain ⟨h1, h2, h3, h4, h5, h6, h7⟩ := h
  unfold countPassed
  split
  · split
    · exact ⟨h1, h2, by simp only [h3], h4, h5, h6, h7⟩
    · exact ⟨h1, h2, h3, h4, h5, h6, h7⟩
  · exact ⟨h1, h2, h3, h4, h5, h6, h7⟩

theorem counts_countFailed (R : RegExpEngine) (line : Str) (m1 m2 : Monitor)
    (h : m1.counts = m2.counts) :
    (countFailed R line m1).counts = (countFailed R line m2).counts := by
  rw [counts_eq_iff] at h ⊢
  obtain ⟨h1, h2, h3, h4, h5, h6, h7⟩ := h
  unfold countFailed
  split
  · split
    · exact ⟨h1, h2, h3, by simp only [h4], h5, h6, h7⟩
    · exact ⟨h1, h2, h3, h4, h5, h6, h7⟩
  · exact ⟨h1, h2, h3, h4, h5, h6, h7⟩

/-- The counts after a segment depend on the counts before it only: neither on the
clock nor on the held buffer. -/
theorem counts_processLine (R : RegExpEngine) (labels : List Str) (n1 n2 : Int)
    (m1 m2 : Monitor) (l : Str) (h : m1.counts = m2.counts) :
    (processLine R labels n1 m1 l).counts = (processLine R labels n2 m2 l).counts := by
  unfold processLine
  simp only
  split
  · exact h
  · exact counts_countFailed _ _ _ _ (counts_countPassed _ _ _ _ (counts_countStep _ _ _ _ _ _
      (counts_detectViewport _ _ _ _ (counts_detectScenario _ _ _ _ _ h))))

theorem counts_foldl_processLine (R : RegExpEngine) (labels : List Str) (n1 n2 : Int)
    (ls : List Str) (m1 m2 : Monitor) (h : m1.counts = m2.counts) :
    (ls.foldl (processLine R labels n1) m1).counts
      = (ls.foldl (processLine R labels n2) m2).counts := by
  induction ls generalizing m1 m2 with
  | nil => exact h
  | cons l ls ih => exact ih _ _ (counts_processLine R labels n1 n2 m1 m2 l h)

theorem outputBuffer_foldl_processLine (R : RegExpEngine) (labels : List Str) (now : Int)
    (ls : List Str) (m : Monitor) :
    (ls.foldl (processLine R labels now) m).outputBuffer = m.outputBuffer := by
  induction ls generalizing m with
  | nil => rfl
  | cons l ls ih => rw [List.foldl_cons, ih, processLine_outputBuffer]

theorem foldl_processLine_completed (R : RegExpEngine) (labels : List Str) (now : Int)
    (ls : List Str) (m : Monitor) :
    (ls.foldl (processLine R labels now) m).total = m.total ∧
    m.completed ≤ (ls.foldl (processLine R labels now) m).completed ∧
    (m.completed ≤ m.total →
      (ls.foldl (processLine R labels now) m).completed ≤ m.total) := by
  induction ls generalizing m with
  | nil => exact ⟨rfl, le_refl _, fun h => h⟩
  | cons l ls ih =>
    rw [List.foldl_cons]
    have h1 := ih (processLine R labels now m l)
    have h2 := processLine_completed R labels now m l
    have h3 := processLine_total R labels now m l
    rw [h3] at h1
    exact ⟨h1.1, h2.1.trans h1.2.1, fun h => h1.2.2 (h2.2.2 h)⟩

theorem stdoutHandler_outputBuffer (R : RegExpEngine) (labels : List Str) (now : Int)
    (m : Monitor) (data : Str) :
    (stdoutHandler R labels now m data).outputBuffer
      = (splitOn 10 (m.outputBuffer ++ data)).getLastD [] := by
  unfold stdoutHandler
  simp only
  rw [outputBuffer_foldl_processLine]

theorem stdoutHandler_completed (R : RegExpEngine) (labels : List Str) (now : Int)
    (m : Monitor) (data : Str) :
    (stdoutHandler R labels now m data).total = m.total ∧
    m.completed ≤ (stdoutHandler R labels now m data).completed ∧
    (m.completed ≤ m.total → (stdoutHandler R labels now m data).completed ≤ m.total) := by
  unfold stdoutHandler
  simp only
  exact foldl_processLine_completed R labels now _ _

theorem monitorStep_completed (R : RegExpEngine) (labels : List Str) (m : Monitor)
    (e : MonitorEvent) (h : m.completed ≤ m.total) :
    (monitorStep R labels m e).total = m.total ∧
    m.completed ≤ (monitorStep R labels m e).completed ∧
    (monitorStep R labels m e).completed ≤ m.total := by
  cases e with
  | stdout now data =>
    have := stdoutHandler_completed R labels now m data
    exact ⟨this.1, this.2.1, this.2.2 h⟩
  | stderr data => exact ⟨rfl, le_refl _, h⟩
  | tick now => exact ⟨rfl, le_refl _, h⟩
  | close now code =>
    show (closeHandler now m code).total = m.total ∧
      m.completed ≤ (closeHandler now m code).completed ∧
      (closeHandler now m code).completed ≤ m.total
    unfold closeHandler
    simp only
    split
    · exact ⟨rfl, h, le_refl _⟩
    · exact ⟨rfl, le_refl _, h⟩

theorem monitorRun_completed (R : RegExpEngine) (labels : List Str) (events : List MonitorEvent)
    (m : Monitor) (h : m.completed ≤ m.total) :
    (monitorRun R labels m events).total = m.total ∧
    m.completed ≤ (monitorRun R labels m events).completed ∧
    (monitorRun R labels m events).completed ≤ m.total := by
  induction events generalizing m with
  | nil => exact ⟨rfl, le_refl _, h⟩
  | cons e es ih =>
    have h1 := monitorStep_completed R labels m e h
    have h2 := ih (monitorStep R labels m e) (by rw [h1.1]; exact h1.2.2)
    rw [h1.1] at h2
    exact ⟨h2.1, h1.2.1.trans h2.2.1, h2.2.2⟩

theorem getLastD_append_of_ne_nil {α : Type} (l1 l2 : List α) (d : α) (h : l2 ≠ []) :
    (l1 ++ l2).getLastD d = l2.getLastD d := by
  induction l1 with
  | nil => rfl
  | cons x l1 ih =>
    cases hl : l1 ++ l2 with
    | nil =>
      have := List.append_eq_nil.mp hl
      exact absurd this.2 h
    | cons y ys =>
      rw [List.cons_append, hl]
      show (y :: ys).getLastD d = _
      rw [← hl, ih]

/-- C12: from the monitor at spawn, after any sequence of stdout chunks, stderr
chunks, timer ticks and close events, `completed` is at most `total`, which never
changes; no further event lowers `completed` or takes it above `total`; and one
classified segment raises `completed` by at most one and never lowers it. -/
theorem monitor_completed_bounded_monotone (R : RegExpEngine) (labels : List Str)
    (total : Nat) (startTime : Int) (events : List MonitorEvent) :
    (monitorRun R labels (initialMonitor total startTime) events).completed ≤ total ∧
    (monitorRun R labels (initialMonitor total startTime) events).total = total ∧
    (∀ e : MonitorEvent,
      (monitorRun R labels (initialMonitor total startTime) events).completed
        ≤ (monitorStep R labels
            (monitorRun R labels (initialMonitor total startTime) events) e).completed ∧
      (monitorStep R labels
          (monitorRun R labels (initialMonitor total startTime) events) e).completed ≤ total) ∧
    (∀ (now : Int) (m : Monitor) (segment : Str),
      m.completed ≤ (processLine R labels now m segment).completed ∧
      (processLine R labels now m segment).completed ≤ m.completed + 1) := by
  have h0 : (initialMonitor total startTime).completed ≤ (initialMonitor total startTime).total :=
    Nat.zero_le _
  have hrun := monitorRun_completed R labels events (initialMonitor total startTime) h0
  have ht : (initialMonitor total startTime).total = total := rfl
  rw [ht] at hrun
  refine ⟨hrun.2.2, hrun.1, ?_, ?_⟩
  · intro e
    have hs := monitorStep_completed R labels
      (monitorRun R labels (initialMonitor total startTime) events) e
      (by rw [hrun.1]; exact hrun.2.2)
    rw [hrun.1] at hs
    exact ⟨hs.2.1, hs.2.2⟩
  · intro now m segment
    have := processLine_completed R labels now m segment
    exact ⟨this.1, this.2.1⟩

/-- C13: when the subprocess closes with exit code 0 the final `completed` is `total`,
whatever had been counted; with any other code, or none, `completed` is unchanged. -/
theorem closeHandler_completed (now : Int) (m : Monitor) :
    (closeHandler now m (some 0)).completed = m.total ∧
    ∀ code : Option Int, code ≠ some 0 → (closeHandler now m code).completed = m.completed := by
  constructor
  · rfl
  · intro code h
    unfold closeHandler
    simp only
    rw [if_neg h]

/-- C14: feeding the stdout handler the text `a` and then `b` leaves the same counts
(`completed`, `total`, `passed`, `failed`, `currentScenario`, `currentViewport`,
`lastScenarioIndex`) and the same held buffer as feeding `a ++ b` at once, whatever
the clock readings; the handler processes exactly the segments of the buffered text
that a newline ends, and the buffer it holds has no newline. -/
theorem stdoutHandler_chunk_independent (R : RegExpEngine) (labels : List Str)
    (n1 n2 n3 : Int) (m : Monitor) (a b : Str) :
    (stdoutHandler R labels n2 (stdoutHandler R labels n1 m a) b).counts
      = (stdoutHandler R labels n3 m (a ++ b)).counts ∧
    (stdoutHandler R labels n2 (stdoutHandler R labels n1 m a) b).outputBuffer
      = (stdoutHandler R labels n3 m (a ++ b)).outputBuffer ∧
    (10 : Nat) ∉ (stdoutHandler R labels n1 m a).outputBuffer ∧
    ∃ (classified : List Str) (held : Str),
      stdoutHandler R labels n1 m a
        = classified.foldl (processLine R labels n1) { m with outputBuffer := held } ∧
      m.outputBuffer ++ a = (classified.map fun seg => seg ++ [10]).flatten ++ held ∧
      (∀ seg ∈ classified, (10 : Nat) ∉ seg) ∧ (10 : Nat) ∉ held := by
  have hsplit : splitOn 10 (m.outputBuffer ++ (a ++ b))
      = (splitOn 10 (m.outputBuffer ++ a)).dropLast
        ++ splitOn 10 ((splitOn 10 (m.outputBuffer ++ a)).getLastD [] ++ b) := by
    rw [← List.append_assoc, splitOn_append]
  have hne := splitOn_ne_nil 10 ((splitOn 10 (m.outputBuffer ++ a)).getLastD [] ++ b)
  have hbuf1 := stdoutHandler_outputBuffer R labels n1 m a
  have hlast : (splitOn 10 (m.outputBuffer ++ a)).getLastD [] ∈ splitOn 10 (m.outputBuffer ++ a) := by
    cases hS : splitOn 10 (m.outputBuffer ++ a) with
    | nil => exact absurd hS (splitOn_ne_nil _ _)
    | cons w ws =>
      rw [List.getLastD_eq_getLast?, List.getLast?_eq_getLast _ (List.cons_ne_nil _ _)]
      exact List.getLast_mem _
  refine ⟨?_, ?_, ?_, ?_⟩
  · unfold stdoutHandler
    simp only
    rw [outputBuffer_foldl_processLine, hsplit, List.dropLast_append_of_ne_nil _ hne,
      getLastD_append_of_ne_nil _ _ _ hne, List.foldl_append]
    apply counts_foldl_processLine
    exact counts_foldl_processLine R labels n1 n3 _ _ _ rfl
  · rw [stdoutHandler_outputBuffer R labels n2 _ b, hbuf1,
      stdoutHandler_outputBuffer R labels n3 m (a ++ b), hsplit,
      getLastD_append_of_ne_nil _ _ _ hne]
  · rw [hbuf1]
    exact not_mem_of_mem_splitOn 10 _ _ hlast
  · refine ⟨(splitOn 10 (m.outputBuffer ++ a)).dropLast,
      (splitOn 10 (m.outputBuffer ++ a)).getLastD [], rfl, splitOn_text 10 _, ?_, ?_⟩
    · intro seg hseg
      exact not_mem_of_mem_splitOn 10 _ _ (List.mem_of_mem_dropLast hseg)
    · exact not_mem_of_mem_splitOn 10 _ _ hlast

/-- C15: `calculateTotalTests` with no filter (`null` or empty) counts all scenarios,
and with a filter that is a valid pattern the scenarios whose label matches it; it
returns these `S` scenarios, the `V` viewports, `total = S * V * 2` and the labels
of the counted scenarios in configuration order; without scenarios or without
viewports the total is 0. With a filter that is no valid pattern the RegExp
constructor throws. -/
theorem calculateTotalTests_counts (R : RegExpEngine) (config : RunnerConfig) :
    (∀ filter : Option Str, filter = none ∨ filter = some [] →
      calculateTotalTests R config filter = some
        { scenarios := (config.scenarios.getD []).length
          viewports := (config.viewports.getD []).length
          total := (config.scenarios.getD []).length * (config.viewports.getD []).length * 2
          scenarioLabels := (config.scenarios.getD []).map fun s => s.label }) ∧
    (∀ (c : Nat) (cs : Str), R.valid (c :: cs) = true →
      calculateTotalTests R config (some (c :: cs)) = some
        { scenarios := ((config.scenarios.getD []).filter fun s => R.test (c :: cs) s.label).length
          viewports := (config.viewports.getD []).length
          total := ((config.scenarios.getD []).filter fun s => R.test (c :: cs) s.label).length
            * (config.viewports.getD []).length * 2
          scenarioLabels :=
            ((config.scenarios.getD []).map fun s => s.label).filter (R.test (c :: cs)) }) ∧
    (∀ (c : Nat) (cs : Str), R.valid (c :: cs) = false →
      calculateTotalTests R config (some (c :: cs)) = none) ∧
    (∀ (filter : Option Str) (info : TestInfo), calculateTotalTests R config filter = some info →
      info.total = info.scenarios * info.viewports * 2 ∧
      info.scenarios = info.scenarioLabels.length ∧
      (config.scenarios = none ∨ config.viewports = none → info.total = 0)) := by
  refine ⟨?_, ?_, ?_, ?_⟩
  · rintro filter (rfl | rfl) <;> rfl
  · intro c cs hv
    unfold calculateTotalTests
    simp only [hv, if_true, Option.map_some', List.filter_map]
    rfl
  · intro c cs hv
    unfold calculateTotalTests
    simp only [hv, Bool.false_eq_true, if_false, Option.map_none']
  · intro filter info h
    unfold calculateTotalTests at h
    simp only [Option.map_eq_some'] at h
    obtain ⟨scs, hscs, rfl⟩ := h
    refine ⟨rfl, by simp, ?_⟩
    rintro (hn | hn)
    · have : scs = [] := by
        rw [hn] at hscs
        simp only [Option.getD_none, List.filter_nil] at hscs
        split at hscs
        · split at hscs
          · exact (Option.some.inj hscs).symm
          · cases hscs
        · exact (Option.some.inj hscs).symm
      simp [this]
    · simp [hn]

theorem mathRound_nonneg (x : ℚ) (h : 0 ≤ x) : 0 ≤ mathRound x := by
  unfold mathRound
  rw [Int.floor_nonneg]
  linarith

theorem mathRound_le (x : ℚ) (n : Int) (h : x ≤ n) : mathRound x ≤ n := by
  unfold mathRound
  have : ⌊x + 1 / 2⌋ < n + 1 := by
    rw [Int.floor_lt]
    push_cast
    linarith
  omega

theorem mathRound_lt_iff (x : ℚ) (n : Int) : mathRound x < n ↔ x + 1 / 2 < n := by
  unfold mathRound
  exact Int.floor_lt

theorem roundHalfEven_le_add_half (q : ℚ) : (roundHalfEven q : ℚ) ≤ q + 1 / 2 := by
  have h1 := Int.floor_le q
  have h2 := Int.lt_floor_add_one q
  unfold roundHalfEven
  split_ifs with a b c
  · linarith
  · push_cast; linarith
  · linarith
  · push_cast; linarith

theorem sub_half_le_roundHalfEven (q : ℚ) : q - 1 / 2 ≤ (roundHalfEven q : ℚ) := by
  have h1 := Int.floor_le q
  have h2 := Int.lt_floor_add_one q
  unfold roundHalfEven
  split_ifs with a b c
  · linarith
  · push_cast; linarith
  · linarith
  · push_cast; linarith

theorem roundHalfEven_le_of_le (q : ℚ) (N : Int) (h : q ≤ N) : roundHalfEven q ≤ N := by
  have h1 := Int.floor_le q
  have hfl : ⌊q⌋ ≤ N := by
    have : (⌊q⌋ : ℚ) ≤ N := h1.trans h
    exact_mod_cast this
  have hlt : q - ⌊q⌋ ≥ 1 / 2 → ⌊q⌋ + 1 ≤ N := by
    intro hq
    have : (⌊q⌋ : ℚ) < N := by linarith
    have : ⌊q⌋ < N := by exact_mod_cast this
    omega
  unfold roundHalfEven
  split_ifs with a b c
  · exact hfl
  · exact hlt (le_of_lt b)
  · exact hfl
  · exact hlt (not_lt.mp a)

theorem le_roundHalfEven_of_le (q : ℚ) (N : Int) (h : (N : ℚ) ≤ q) : N ≤ roundHalfEven q := by
  have hfl : N ≤ ⌊q⌋ := Int.le_floor.mpr h
  unfold roundHalfEven
  split_ifs <;> omega

theorem ulpExponent_le (x : ℚ) (e : Int) (hx : 0 < x) (h2 : x < 2 ^ (e + 1))
    (he : -1022 ≤ e) : ulpExponent x ≤ e - 52 := by
  unfold ulpExponent
  rw [abs_of_pos hx]
  have : Int.log 2 x < e + 1 := (Int.lt_zpow_iff_log_lt (by norm_num) hx).mp (by exact_mod_cast h2)
  have : max (Int.log 2 x) (-1022) ≤ e := max_le (by omega) he
  omega

theorem ulpExponent_eq (x : ℚ) (e : Int) (h1 : 2 ^ e ≤ x) (h2 : x < 2 ^ (e + 1))
    (he : -1022 ≤ e) : ulpExponent x = e - 52 := by
  have hx : 0 < x := lt_of_lt_of_le (zpow_pos (by norm_num) e) h1
  unfold ulpExponent
  rw [abs_of_pos hx]
  have a : Int.log 2 x < e + 1 := (Int.lt_zpow_iff_log_lt (by norm_num) hx).mp (by exact_mod_cast h2)
  have b : e ≤ Int.log 2 x := (Int.zpow_le_iff_le_log (by norm_num) hx).mp (by exact_mod_cast h1)
  have : Int.log 2 x = e := by omega
  rw [this, max_eq_left he]

theorem toDouble_zero : toDouble 0 = 0 := by
  unfold toDouble
  have : roundHalfEven 0 = 0 := by
    unfold roundHalfEven
    norm_num
  rw [zero_div, this]
  simp

theorem toDouble_nonneg (x : ℚ) (h : 0 ≤ x) : 0 ≤ toDouble x := by
  unfold toDouble
  have hu : (0 : ℚ) < 2 ^ ulpExponent x := zpow_pos (by norm_num) _
  have : (0 : Int) ≤ roundHalfEven (x / 2 ^ ulpExponent x) :=
    le_roundHalfEven_of_le _ 0 (by push_cast; exact div_nonneg h (le_of_lt hu))
  exact mul_nonneg (by exact_mod_cast this) (le_of_lt hu)

theorem toDouble_nonpos (x : ℚ) (h : x ≤ 0) : toDouble x ≤ 0 := by
  unfold toDouble
  have hu : (0 : ℚ) < 2 ^ ulpExponent x := zpow_pos (by norm_num) _
  have : roundHalfEven (x / 2 ^ ulpExponent x) ≤ (0 : Int) :=
    roundHalfEven_le_of_le _ 0 (by push_cast; exact div_nonpos_of_nonpos_of_nonneg h (le_of_lt hu))
  exact mul_nonpos_of_nonpos_of_nonneg (by exact_mod_cast this) (le_of_lt hu)

/-- A multiple of a power of two at or above the unit in the last place of `x`
bounds the double of `x` as it bounds `x`. -/
theorem toDouble_le_of_multiple (x : ℚ) (N k : Int) (hU : ulpExponent x ≤ k)
    (hx : x ≤ N * 2 ^ k) : toDouble x ≤ N * 2 ^ k := by
  unfold toDouble
  have hu : (0 : ℚ) < 2 ^ ulpExponent x := zpow_pos (by norm_num) _
  obtain ⟨j, hj⟩ := Int.eq_ofNat_of_zero_le (sub_nonneg.mpr hU)
  have hk : (2 : ℚ) ^ k = 2 ^ (j : Int) * 2 ^ ulpExponent x := by
    rw [← zpow_add₀ (by norm_num), ← hj]
    congr 1
    omega
  have hq : x / 2 ^ ulpExponent x ≤ ((N * 2 ^ j : Int) : ℚ) := by
    rw [div_le_iff₀ hu]
    push_cast
    rw [hk, zpow_natCast] at hx
    linarith
  have := roundHalfEven_le_of_le _ _ hq
  have h3 : (roundHalfEven (x / 2 ^ ulpExponent x) : ℚ) ≤ ((N * 2 ^ j : Int) : ℚ) := by
    exact_mod_cast this
  calc (roundHalfEven (x / 2 ^ ulpExponent x) : ℚ) * 2 ^ ulpExponent x
      ≤ ((N * 2 ^ j : Int) : ℚ) * 2 ^ ulpExponent x := mul_le_mul_of_nonneg_right h3 (le_of_lt hu)
    _ = N * 2 ^ k := by rw [hk, zpow_natCast]; push_cast; ring

theorem le_toDouble_of_multiple (x : ℚ) (N k : Int) (hU : ulpExponent x ≤ k)
    (hx : (N : ℚ) * 2 ^ k ≤ x) : (N : ℚ) * 2 ^ k ≤ toDouble x := by
  unfold toDouble
  have hu : (0 : ℚ) < 2 ^ ulpExponent x := zpow_pos (by norm_num) _
  obtain ⟨j, hj⟩ := Int.eq_ofNat_of_zero_le (sub_nonneg.mpr hU)
  have hk : (2 : ℚ) ^ k = 2 ^ (j : Int) * 2 ^ ulpExponent x := by
    rw [← zpow_add₀ (by norm_num), ← hj]
    congr 1
    omega
  have hq : ((N * 2 ^ j : Int) : ℚ) ≤ x / 2 ^ ulpExponent x := by
    rw [le_div_iff₀ hu]
    push_cast
    rw [hk, zpow_natCast] at hx
    linarith
  have := le_roundHalfEven_of_le _ _ hq
  have h3 : ((N * 2 ^ j : Int) : ℚ) ≤ (roundHalfEven (x / 2 ^ ulpExponent x) : ℚ) := by
    exact_mod_cast this
  calc (N : ℚ) * 2 ^ k = ((N * 2 ^ j : Int) : ℚ) * 2 ^ ulpExponent x := by
        rw [hk, zpow_natCast]; push_cast; ring
    _ ≤ (roundHalfEven (x / 2 ^ ulpExponent x) : ℚ) * 2 ^ ulpExponent x :=
        mul_le_mul_of_nonneg_right h3 (le_of_lt hu)

/-- A natural number below `2^53` bounds the double of `x` from above as it bounds `x`. -/
theorem toDouble_le_natCast (x : ℚ) (n : Nat) (hn : n < 2 ^ 53) (hx : x ≤ n) :
    toDouble x ≤ n := by
  by_cases h0 : x ≤ 0
  · exact (toDouble_nonpos x h0).trans (by positivity)
  · have hpos : 0 < x := not_le.mp h0
    have hlt : x < 2 ^ ((52 : Int) + 1) := by
      have : (n : ℚ) < 2 ^ 53 := by exact_mod_cast hn
      have h53 : (2 : ℚ) ^ ((52 : Int) + 1) = 2 ^ 53 := by norm_num
      rw [h53]
      linarith
    have hU := ulpExponent_le x 52 hpos hlt (by norm_num)
    have := toDouble_le_of_multiple x n 0 (by omega) (by simpa using hx)
    simpa using this

/-- A natural number bounds the double of `x` from below as it bounds `x`, for `x`
below `2^53`. -/
theorem natCast_le_toDouble (x : ℚ) (n : Nat) (hx : (n : ℚ) ≤ x) (hlt : x < 2 ^ 53) :
    (n : ℚ) ≤ toDouble x := by
  by_cases h0 : x ≤ 0
  · have hn : (n : ℚ) = 0 := le_antisymm (hx.trans h0) (by positivity)
    have hx0 : x = 0 := le_antisymm h0 (hn ▸ hx)
    rw [hx0, toDouble_zero, hn]
  · have hpos : 0 < x := not_le.mp h0
    have hlt2 : x < 2 ^ ((52 : Int) + 1) := by
      have h53 : (2 : ℚ) ^ ((52 : Int) + 1) = 2 ^ 53 := by norm_num
      rw [h53]
      exact hlt
    have hU := ulpExponent_le x 52 hpos hlt2 (by norm_num)
    have := le_toDouble_of_multiple x n 0 (by omega) (by simpa using hx)
    simpa using this

theorem toDouble_natCast (n : Nat) (hn : n < 2 ^ 53) : toDouble n = n :=
  le_antisymm (toDouble_le_natCast n n hn le_rfl)
    (natCast_le_toDouble n n le_rfl (by exact_mod_cast hn))

/-- The double of `x` is within half a unit in the last place of `x`. -/
theorem toDouble_sub_le (x : ℚ) :
    toDouble x ≤ x + 2 ^ ulpExponent x / 2 ∧ x - 2 ^ ulpExponent x / 2 ≤ toDouble x := by
  have hu : (0 : ℚ) < 2 ^ ulpExponent x := zpow_pos (by norm_num) _
  have h1 := roundHalfEven_le_add_half (x / 2 ^ ulpExponent x)
  have h2 := sub_half_le_roundHalfEven (x / 2 ^ ulpExponent x)
  have hx : x / 2 ^ ulpExponent x * 2 ^ ulpExponent x = x := div_mul_cancel₀ x (ne_of_gt hu)
  unfold toDouble
  constructor
  · have := mul_le_mul_of_nonneg_right h1 (le_of_lt hu)
    rw [add_mul, hx] at this
    linarith
  · have := mul_le_mul_of_nonneg_right h2 (le_of_lt hu)
    rw [sub_mul, hx] at this
    linarith

/-- Where the unit in the last place of `x` is `2^k` and `x` is above the midpoint
below `N * 2^k`, the double of `x` is at least `N * 2^k`. -/
theorem le_toDouble_of_near (x : ℚ) (N k : Int) (hU : ulpExponent x = k)
    (hx : (N : ℚ) * 2 ^ k - 2 ^ k / 2 < x) : (N : ℚ) * 2 ^ k ≤ toDouble x := by
  have hu : (0 : ℚ) < 2 ^ k := zpow_pos (by norm_num) _
  have h2 := sub_half_le_roundHalfEven (x / 2 ^ k)
  have hq : (N : ℚ) - 1 / 2 < x / 2 ^ k := by
    rw [lt_div_iff₀ hu]
    linarith
  have hN : ((N - 1 : Int) : ℚ) < (roundHalfEven (x / 2 ^ k) : ℚ) := by
    push_cast
    linarith
  have hN2 : N ≤ roundHalfEven (x / 2 ^ k) := by
    have : N - 1 < roundHalfEven (x / 2 ^ k) := by exact_mod_cast hN
    omega
  unfold toDouble
  rw [hU]
  exact mul_le_mul_of_nonneg_right (by exact_mod_cast hN2) (le_of_lt hu)

/-- The double of a positive `x`, from the binary exponent `e` of `x` and the integer
`N` nearest to `x / 2^(e-52)`, when `x` is not half-way between two doubles. -/
theorem toDouble_eq_of_near (x : ℚ) (N e : Int) (h1 : 2 ^ e ≤ x) (h2 : x < 2 ^ (e + 1))
    (he : -1022 ≤ e) (hlo : (N : ℚ) - 1 / 2 < x / 2 ^ (e - 52))
    (hhi : x / 2 ^ (e - 52) < (N : ℚ) + 1 / 2) : toDouble x = (N : ℚ) * 2 ^ (e - 52) := by
  unfold toDouble
  rw [ulpExponent_eq x e h1 h2 he]
  have a := roundHalfEven_le_add_half (x / 2 ^ (e - 52))
  have b := sub_half_le_roundHalfEven (x / 2 ^ (e - 52))
  have a2 : (roundHalfEven (x / 2 ^ (e - 52)) : ℚ) < ((N + 1 : Int) : ℚ) := by
    push_cast
    linarith
  have b2 : ((N - 1 : Int) : ℚ) < (roundHalfEven (x / 2 ^ (e - 52)) : ℚ) := by
    push_cast
    linarith
  have a3 : roundHalfEven (x / 2 ^ (e - 52)) < N + 1 := by exact_mod_cast a2
  have b3 : N - 1 < roundHalfEven (x / 2 ^ (e - 52)) := by exact_mod_cast b2
  have : roundHalfEven (x / 2 ^ (e - 52)) = N := by omega
  rw [this]

/-- Between 0 and 1 the double of `x` is within `2^-54` of `x`. -/
theorem toDouble_sub_le_of_lt_one (x : ℚ) (h0 : 0 ≤ x) (h1 : x < 1) :
    toDouble x ≤ x + 1 / 2 ^ 54 ∧ x - 1 / 2 ^ 54 ≤ toDouble x := by
  rcases eq_or_lt_of_le h0 with h | h
  · rw [← h, toDouble_zero]
    norm_num
  · have hU := ulpExponent_le x (-1) h (by simpa using h1) (by norm_num)
    have hu : (2 : ℚ) ^ ulpExponent x ≤ 2 ^ (-53 : Int) :=
      zpow_le_zpow_right₀ (by norm_num) (by omega)
    have hv : (2 : ℚ) ^ (-53 : Int) = 1 / 2 ^ 53 := by
      rw [zpow_neg, one_div]
      norm_cast
    have := toDouble_sub_le x
    rw [hv] at hu
    have h54 : (1 : ℚ) / 2 ^ 53 / 2 = 1 / 2 ^ 54 := by norm_num
    constructor
    · linarith [this.1]
    · linarith [this.2]

theorem percentage_bounds (current total : Nat) (h : current ≤ total) :
    0 ≤ percentage current total ∧ percentage current total ≤ 1 := by
  unfold percentage
  split
  · rename_i ht
    have ht2 : (0 : ℚ) < (total : ℚ) := by exact_mod_cast ht
    have hc : (current : ℚ) ≤ (total : ℚ) := by exact_mod_cast h
    constructor
    · exact toDouble_nonneg _ (div_nonneg (by positivity) (le_of_lt ht2))
    · have := toDouble_le_natCast ((current : ℚ) / (total : ℚ)) 1 (by norm_num)
        (by simpa using (div_le_one ht2).mpr hc)
      simpa using this
  · exact ⟨le_refl _, zero_le_one⟩

/-- With every test counted the percentage is the number 1. -/
theorem percentage_self (total : Nat) (h : 0 < total) : percentage total total = 1 := by
  unfold percentage
  rw [if_pos h, div_self (by positivity)]
  simpa using toDouble_natCast 1 (by norm_num)

/-- The rounded percentage is below 100 exactly for a quotient below 0.995, for
totals up to `2^45`. -/
theorem percent_lt_iff (current total : Nat) (h : current ≤ total) (ht : 0 < total)
    (hb : total ≤ 2 ^ 45) :
    mathRound (toDouble (percentage current total * 100)) < 100
      ↔ 200 * current < 199 * total := by
  have ht2 : (0 : ℚ) < (total : ℚ) := by exact_mod_cast ht
  have hc : (current : ℚ) ≤ (total : ℚ) := by exact_mod_cast h
  have hb2 : (total : ℚ) ≤ 2 ^ 45 := by exact_mod_cast hb
  have hx0 : (0 : ℚ) ≤ (current : ℚ) / (total : ℚ) := div_nonneg (by positivity) (le_of_lt ht2)
  have hp : percentage current total = toDouble ((current : ℚ) / (total : ℚ)) := by
    unfold percentage
    rw [if_pos ht]
  have hpb := percentage_bounds current total h
  rw [mathRound_lt_iff]
  constructor
  · intro hlt
    by_contra hn
    have hge : 199 * total ≤ 200 * current := by omega
    have hge2 : (199 : ℚ) * (total : ℚ) ≤ 200 * (current : ℚ) := by exact_mod_cast hge
    have hx : (199 : ℚ) / 200 ≤ (current : ℚ) / (total : ℚ) := by
      rw [le_div_iff₀ ht2]
      linarith
    have hy : (199 : ℚ) / 2 - 100 / 2 ^ 54 ≤ percentage current total * 100 := by
      rcases eq_or_lt_of_le h with heq | hlt2
      · rw [heq, percentage_self total ht]
        norm_num
      · have hx1 : (current : ℚ) / (total : ℚ) < 1 := by
          rw [div_lt_one ht2]
          exact_mod_cast hlt2
        have := (toDouble_sub_le_of_lt_one _ hx0 hx1).2
        rw [hp]
        linarith
    have hU : ulpExponent (percentage current total * 100) = -46 := by
      have := ulpExponent_eq (percentage current total * 100) 6
        (by norm_num at hy ⊢; linarith) (by norm_num; linarith [hpb.2]) (by norm_num)
      rw [this]
      norm_num
    have hnear := le_toDouble_of_near (percentage current total * 100) (199 * 2 ^ 45) (-46) hU
      (by
        have e : (2 : ℚ) ^ (-46 : Int) = 1 / 2 ^ 46 := by
          rw [zpow_neg, one_div]
          norm_cast
        rw [e]
        push_cast
        norm_num at hy ⊢
        linarith)
    have e : (2 : ℚ) ^ (-46 : Int) = 1 / 2 ^ 46 := by
      rw [zpow_neg, one_div]
      norm_cast
    rw [e] at hnear
    push_cast at hnear hlt
    norm_num at hnear hlt
    linarith
  · intro hlt
    have hlt2 : (200 : ℚ) * (current : ℚ) + 1 ≤ 199 * (total : ℚ) := by exact_mod_cast hlt
    have hx : (current : ℚ) / (total : ℚ) ≤ 199 / 200 - 1 / (200 * (total : ℚ)) := by
      have e : ((199 : ℚ) / 200 - 1 / (200 * (total : ℚ))) * (total : ℚ)
          = 199 * (total : ℚ) / 200 - 1 / 200 := by
        field_simp
        ring
      rw [div_le_iff₀ ht2, e]
      linarith
    have hinv : (1 : ℚ) / (200 * 2 ^ 45) ≤ 1 / (200 * (total : ℚ)) :=
      one_div_le_one_div_of_le (by positivity) (by linarith)
    have hx1 : (current : ℚ) / (total : ℚ) < 1 := by
      have : (0 : ℚ) < 1 / (200 * (total : ℚ)) := by positivity
      linarith
    have hup := (toDouble_sub_le_of_lt_one _ hx0 hx1).1
    have hy : percentage current total * 100 ≤ 199 / 2 - 1 / 2 ^ 46 + 100 / 2 ^ 54 := by
      have e : (1 : ℚ) / (200 * 2 ^ 45) = 1 / 2 ^ 46 / 100 := by norm_num
      rw [e] at hinv
      rw [hp]
      linarith
    by_cases h64 : percentage current total * 100 < 64
    · have := toDouble_le_natCast (percentage current total * 100) 64 (by norm_num)
        (by push_cast; linarith)
      push_cast at this ⊢
      linarith
    · have hU : ulpExponent (percentage current total * 100) = -46 := by
        have := ulpExponent_eq (percentage current total * 100) 6
          (by norm_num; linarith [not_lt.mp h64]) (by norm_num at hy ⊢; linarith) (by norm_num)
        rw [this]
        norm_num
      have herr := (toDouble_sub_le (percentage current total * 100)).1
      rw [hU] at herr
      have e : (2 : ℚ) ^ (-46 : Int) = 1 / 2 ^ 46 := by
        rw [zpow_neg, one_div]
        norm_cast
      rw [e] at herr
      push_cast
      norm_num at herr hy ⊢
      linarith

/-- The percentage of 23 tests of 40: the double nearest to 0.575. -/
theorem percentage_23_40 : percentage 23 40 = 5179139571476070 / 2 ^ 53 := by
  unfold percentage
  rw [if_pos (by norm_num)]
  have := toDouble_eq_of_near (((23 : Nat) : ℚ) / ((40 : Nat) : ℚ)) 5179139571476070 (-1)
    (by norm_num [zpow_neg]) (by norm_num) (by norm_num)
    (by norm_num [zpow_neg]) (by norm_num [zpow_neg])
  rw [this]
  norm_num [zpow_neg]

/-- With 23 tests of 40 the product `percentage * 100` is the double below 57.5, and
the rounded percentage is 57. -/
theorem percent_23_40 : mathRound (toDouble (percentage 23 40 * 100)) = 57 := by
  rw [percentage_23_40]
  have := toDouble_eq_of_near ((5179139571476070 : ℚ) / 2 ^ 53 * 100) 8092405580431359 5
    (by norm_num) (by norm_num) (by norm_num)
    (by norm_num [zpow_neg]) (by norm_num [zpow_neg])
  rw [this]
  unfold mathRound
  rw [Int.floor_eq_iff]
  norm_num [zpow_neg]

/-- With 23 tests of 40 and the width 30 the count of filled symbols is 17. -/
theorem filled_23_40 : mathRound (toDouble (((30 : Nat) : ℚ) * percentage 23 40)) = 17 := by
  rw [percentage_23_40]
  have := toDouble_eq_of_near (((30 : Nat) : ℚ) * ((5179139571476070 : ℚ) / 2 ^ 53))
    4855443348258816 4
    (by norm_num) (by norm_num) (by norm_num)
    (by norm_num [zpow_neg]) (by norm_num [zpow_neg])
  rw [this]
  unfold mathRound
  rw [Int.floor_eq_iff]
  norm_num [zpow_neg]

/-- The bar of 23 tests of 40 in 30 symbols: 17 filled symbols and the percent 57,
where exact arithmetic would give 57.5 and the percent 58. -/
theorem createProgressBar_23_40 :
    createProgressBar 23 40 30
      = some { bar := List.replicate 17 9608 ++ List.replicate 13 9617, percent := 57 } := by
  unfold createProgressBar
  simp only
  rw [filled_23_40, percent_23_40]
  rfl

/-- Beyond the bound of `percent_lt_iff` the rounding decides: with 82982993134101
tests of 83399993099599 the quotient is below 0.995 and the rounded percentage is
100. -/
theorem percent_at_large_total :
    200 * 82982993134101 < 199 * 83399993099599 ∧
    mathRound (toDouble (percentage 82982993134101 83399993099599 * 100)) = 100 := by
  constructor
  · norm_num
  · have hp : percentage 82982993134101 83399993099599 = 8962163258467287 / 2 ^ 53 := by
      unfold percentage
      rw [if_pos (by norm_num)]
      have := toDouble_eq_of_near
        (((82982993134101 : Nat) : ℚ) / ((83399993099599 : Nat) : ℚ)) 8962163258467287 (-1)
        (by norm_num [zpow_neg]) (by norm_num) (by norm_num)
        (by norm_num [zpow_neg]) (by norm_num [zpow_neg])
      rw [this]
      norm_num [zpow_neg]
    rw [hp]
    have := toDouble_eq_of_near ((8962163258467287 : ℚ) / 2 ^ 53 * 100) 7001690045677568 6
      (by norm_num) (by norm_num) (by norm_num)
      (by norm_num [zpow_neg]) (by norm_num [zpow_neg])
    rw [this]
    unfold mathRound
    rw [Int.floor_eq_iff]
    norm_num [zpow_neg]

theorem repeatStr_of_nonneg (s : Str) (count : Int) (h : 0 ≤ count) :
    repeatStr s count = some (List.replicate count.toNat s).flatten := by
  unfold repeatStr
  rw [if_neg (by omega)]

/-- The count of filled symbols is between 0 and the width. -/
theorem filled_bounds (current total width : Nat) (h : current ≤ total)
    (hw : width < 2 ^ 53) :
    0 ≤ mathRound (toDouble ((width : ℚ) * percentage current total)) ∧
    mathRound (toDouble ((width : ℚ) * percentage current total)) ≤ (width : Int) := by
  have hb := percentage_bounds current total h
  have hw0 : (0 : ℚ) ≤ (width : ℚ) := by positivity
  constructor
  · exact mathRound_nonneg _ (toDouble_nonneg _ (mul_nonneg hw0 hb.1))
  · apply mathRound_le
    push_cast
    apply toDouble_le_natCast _ width hw
    calc (width : ℚ) * percentage current total
        ≤ (width : ℚ) * 1 := mul_le_mul_of_nonneg_left hb.2 hw0
      _ = (width : ℚ) := mul_one _

/-- Within `current <= total` and for a width below `2^53` no `repeat` throws: the
bar is built. -/
theorem createProgressBar_isSome (current total width : Nat) (h : current ≤ total)
    (hw : width < 2 ^ 53) :
    ∃ bar : Str, createProgressBar current total width = some
      { bar := bar
        percent := mathRound (toDouble (percentage current total * 100)) } := by
  have hf := filled_bounds current total width h hw
  unfold createProgressBar
  simp only
  rw [repeatStr_of_nonneg _ _ hf.1, repeatStr_of_nonneg _ _ (by omega)]
  exact ⟨_, rfl⟩

/-- C16 (the claim once every test is counted): with 2 of 2 tests completed the
percentage is 100 and the ETA is not displayed, although `completed > 0`. -/
theorem showProgress_eta_hidden_at_total :
    0 < sampleDoneMonitor.completed ∧
    (showProgress sampleDoneMonitor).map (fun line => (line.percent, line.eta))
      = some (100, none) := by
  constructor
  · decide
  · obtain ⟨bar, hbar⟩ := createProgressBar_isSome 2 2 30 (le_refl _) (by norm_num)
    have hp : mathRound (toDouble (percentage 2 2 * 100)) = 100 := by
      rw [percentage_self 2 (by norm_num)]
      have : toDouble (1 * 100) = 100 := by simpa using toDouble_natCast 100 (by norm_num)
      rw [this]
      unfold mathRound
      norm_num
    rw [hp] at hbar
    have e1 : sampleDoneMonitor.completed = 2 := rfl
    have e2 : sampleDoneMonitor.total = 2 := rfl
    unfold showProgress
    rw [e1, e2, hbar]
    simp

/-- C16 (amended): for a state with `completed <= total` and `total > 0`,
`showProgress` writes a line whose ETA is displayed exactly when `completed > 0` and
the rounded percentage is below 100, that is, for totals up to `2^45`, when
`0 < completed` and `completed / total < 0.995`; its value is then
`(total - completed) * (elapsedTime / completed)`; it is `--:--` when `completed = 0`
and when `completed = total`. -/
theorem showProgress_eta (m : Monitor) (hle : m.completed ≤ m.total) (hpos : 0 < m.total) :
    ∃ line : ProgressLine, showProgress m = some line ∧
      (line.eta ≠ none ↔ 0 < m.completed ∧ line.percent < 100) ∧
      (m.total ≤ 2 ^ 45 → (line.percent < 100 ↔ 200 * m.completed < 199 * m.total)) ∧
      (0 < m.completed → line.percent < 100 →
        line.eta = some (((m.total : ℚ) - (m.completed : ℚ))
          * (m.elapsedTime / (m.completed : ℚ)))) ∧
      (m.completed = 0 → line.eta = none) ∧
      (m.completed = m.total → line.eta = none) := by
  obtain ⟨bar, hbar⟩ := createProgressBar_isSome m.completed m.total 30 hle (by norm_num)
  refine ⟨_, by unfold showProgress; rw [hbar]; rfl, ?_, ?_, ?_, ?_, ?_⟩
  · simp only
    constructor
    · intro h
      by_contra hn
      exact h (if_neg hn)
    · intro h
      rw [if_pos h]
      simp
  · intro hb
    exact percent_lt_iff m.completed m.total hle hpos hb
  · intro h1 h2
    simp only
    rw [if_pos ⟨h1, h2⟩]
  · intro h0
    simp only
    rw [if_neg (fun hc => by omega)]
  · intro heq
    simp only
    rw [if_neg]
    intro hc
    have hp : mathRound (toDouble (percentage m.completed m.total * 100)) = 100 := by
      rw [heq, percentage_self m.total hpos]
      have : toDouble (1 * 100) = 100 := by simpa using toDouble_natCast 100 (by norm_num)
      rw [this]
      unfold mathRound
      norm_num
    have := hc.2
    simp only [hp] at this
    exact absurd this (by decide)

/-- Witness of the amended C16: 1 of 4 tests after 10 seconds. -/
theorem showProgress_eta_witness :
    ∃ line : ProgressLine,
      showProgress { initialMonitor 4 0 with completed := 1, elapsedTime := 10 } = some line ∧
      line.eta = some 30 := by
  obtain ⟨line, h1, _, h3, h4, _, _⟩ :=
    showProgress_eta { initialMonitor 4 0 with completed := 1, elapsedTime := 10 }
      (by decide) (by decide)
  refine ⟨line, h1, ?_⟩
  have hp := (h3 (by decide)).mpr (by decide)
  rw [h4 (by decide) hp]
  norm_num [initialMonitor]

/-! ## Entries of the URL list reader -/

theorem dropWhile_append_cons {α : Type} (p : α → Bool) (c : α) (h : p c = false)
    (a b : List α) : (a ++ c :: b).dropWhile p = a.dropWhile p ++ c :: b := by
  induction a with
  | nil => simp [List.dropWhile_cons, h]
  | cons x a ih =>
    by_cases hx : p x = true
    · simp [List.dropWhile_cons, hx, ih]
    · simp [List.dropWhile_cons, hx]

theorem takeWhile_append_cons {α : Type} (p : α → Bool) (c : α) (h : p c = false)
    (a b : List α) (ha : ∀ y ∈ a, p y = true) : (a ++ c :: b).takeWhile p = a := by
  induction a with
  | nil => simp [List.takeWhile_cons, h]
  | cons x a ih =>
    have hx : p x = true := ha x (List.mem_cons_self _ _)
    rw [List.cons_append, List.takeWhile_cons, hx]
    simp only [if_true]
    rw [ih fun y hy => ha y (List.mem_cons_of_mem _ hy)]

theorem takeWhile_all {α : Type} (p : α → Bool) (l : List α) :
    ∀ y ∈ l.takeWhile p, p y = true := by
  induction l with
  | nil => intro y hy; simp at hy
  | cons x l ih =>
    intro y hy
    rw [List.takeWhile_cons] at hy
    split at hy
    · rename_i hx
      rw [List.mem_cons] at hy
      rcases hy with rfl | hy
      · exact hx
      · exact ih y hy
    · simp at hy

theorem trim_dropWhile (z : Str) : trim (z.dropWhile isWhiteSpace) = trim z := by
  unfold trim
  rw [List.dropWhile_idempotent]

/-- Cutting at the first `#` before or after trimming the line gives the same entry. -/
theorem withoutComment_trim (x : Str) : withoutComment (trim x) = textBeforeComment x := by
  unfold withoutComment textBeforeComment
  have hdecomp := List.takeWhile_append_dropWhile (fun c => c != 35) x
  have hpre : ∀ y ∈ x.takeWhile (fun c => c != 35), (fun c => c != 35) y = true :=
    takeWhile_all _ x
  cases hrest : x.dropWhile (fun c => c != 35) with
  | nil =>
    rw [hrest, List.append_nil] at hdecomp
    rw [hdecomp]
    have hall : (trim x).takeWhile (fun c => c != 35) = trim x := by
      rw [List.takeWhile_eq_self_iff]
      intro y hy
      have hy2 : y ∈ x.takeWhile (fun c => c != 35) := by
        rw [hdecomp]; exact mem_of_mem_trim x y hy
      exact hpre y hy2
    rw [hall, trim_trim]
  | cons c post =>
    have hc : (fun c => c != 35) c = false :=
      dropWhile_head (fun c => c != 35) x c post hrest
    have hc35 : c = 35 := by simpa using hc
    have hws : isWhiteSpace c = false := by rw [hc35]; rfl
    rw [hrest] at hdecomp
    have htrim : trim x
        = (x.takeWhile fun c => c != 35).dropWhile isWhiteSpace
          ++ c :: (post.reverse.dropWhile isWhiteSpace).reverse := by
      conv_lhs => rw [← hdecomp]
      unfold trim
      rw [dropWhile_append_cons _ c hws, List.reverse_append, List.reverse_cons,
        List.append_assoc, List.singleton_append, dropWhile_append_cons _ c hws,
        List.reverse_append, List.reverse_cons, List.reverse_reverse, List.append_assoc,
        List.singleton_append]
    rw [htrim, takeWhile_append_cons _ c hc _ _ fun y hy =>
      hpre y ((List.dropWhile_sublist _).subset hy), trim_dropWhile]

theorem trim_of_dropWhile (x : Str) :
    (x.dropWhile isWhiteSpace = [] → trim x = []) ∧
    (∀ d y, x.dropWhile isWhiteSpace = d :: y → ∃ t, trim x = d :: t) := by
  constructor
  · intro h
    unfold trim
    rw [h]
    rfl
  · intro d y h
    have hd := dropWhile_head _ _ _ _ h
    obtain ⟨t, ht⟩ := trim_cons d y hd
    refine ⟨t, ?_⟩
    rw [← ht, ← trim_dropWhile x, h]

/-- The test of the code on the trimmed line is the test on the first non-blank
character of the line. -/
theorem keep_trim_eq_contributes (x : Str) :
    (!(trim x).isEmpty && !startsWith (trim x) 35) = contributes x := by
  unfold contributes firstNonBlank
  cases h : x.dropWhile isWhiteSpace with
  | nil =>
    rw [(trim_of_dropWhile x).1 h]
    rfl
  | cons d y =>
    obtain ⟨t, ht⟩ := (trim_of_dropWhile x).2 d y h
    rw [ht]
    cases hd : d == 35 <;> simp [startsWith, bne, hd]

theorem trim_getLast (x : Str) (c : Nat) (h : (trim x).getLast? = some c) :
    isWhiteSpace c = false := by
  unfold trim at h
  rw [List.getLast?_reverse] at h
  cases hr : ((x.dropWhile isWhiteSpace).reverse).dropWhile isWhiteSpace with
  | nil => rw [hr] at h; simp at h
  | cons d y =>
    rw [hr] at h
    simp only [List.head?_cons, Option.some.injEq] at h
    subst h
    exact dropWhile_head _ _ _ _ hr

/-- C19: the entries of `readTxtFile` are the texts before the first `#`, trimmed, of
the lines that are not blank and whose first non-blank character is not `#`, in the
order of the lines; every entry is non-empty, starts and ends with a non-blank
character, contains no `#` and comes from some line of the content. -/
theorem readTxtFile_entries (content : Str) :
    readTxtFile content = ((splitOn 10 content).filter contributes).map textBeforeComment ∧
    ∀ e ∈ readTxtFile content,
      e ≠ [] ∧
      (∀ c, e.head? = some c → isWhiteSpace c = false) ∧
      (∀ c, e.getLast? = some c → isWhiteSpace c = false) ∧
      (35 : Nat) ∉ e ∧
      ∃ line ∈ splitOn 10 content, e = textBeforeComment line := by
  have hmain : readTxtFile content
      = ((splitOn 10 content).filter contributes).map textBeforeComment := by
    rw [(readTxtFile_eq content).1]
    unfold keptLines
    rw [List.filter_map, List.map_map]
    have hf : ((fun line : Str => !line.isEmpty && !startsWith line 35) ∘ trim) = contributes := by
      funext x
      exact keep_trim_eq_contributes x
    rw [hf]
    exact List.map_congr_left fun x _ => withoutComment_trim x
  refine ⟨hmain, ?_⟩
  intro e he
  have he2 := he
  rw [hmain, List.mem_map] at he2
  obtain ⟨line, hline, rfl⟩ := he2
  rw [List.mem_filter] at hline
  have hne : textBeforeComment line ≠ [] := by
    have h1 := he
    unfold readTxtFile at h1
    rw [List.mem_filter] at h1
    intro hnil
    rw [hnil] at h1
    simp at h1
  refine ⟨hne, ?_, ?_, ?_, line, hline.1, rfl⟩
  · intro c hc
    cases ht : textBeforeComment line with
    | nil => exact absurd ht hne
    | cons d t =>
      rw [ht] at hc
      simp only [List.head?_cons, Option.some.injEq] at hc
      subst hc
      exact trim_head _ _ _ ht
  · intro c hc
    exact trim_getLast _ c hc
  · intro hmem
    have h1 := mem_of_mem_trim _ _ hmem
    have h2 := takeWhile_all _ _ _ h1
    simp at h2

/-! ## Properties of the JSON URL list reader -/

theorem readJsonItem_eq_some (item out : Json) :
    readJsonItem item = some out ↔ ItemGives item out := by
  unfold ItemGives
  cases item with
  | str s =>
    simp only [readJsonItem, Option.some.injEq, Json.str.injEq, exists_eq_left', reduceCtorEq,
      false_and, exists_false, or_false]
    exact eq_comm
  | obj entries =>
    simp only [readJsonItem, reduceCtorEq, false_and, exists_false, Json.obj.injEq,
      exists_eq_left', false_or]
    cases h : objGet entries (utf16 "url") with
    | none => simp
    | some v =>
      by_cases hv : v.truthy = true
      · simp only [hv, if_true, Option.some.injEq]
        constructor
        · rintro rfl; exact ⟨rfl, hv⟩
        · rintro ⟨h1, _⟩; exact h1
      · simp only [hv, Bool.false_eq_true, if_false, reduceCtorEq, Option.some.injEq, false_iff,
          not_and]
        rintro rfl
        exact hv
  | null => simp [readJsonItem]
  | bool b => simp [readJsonItem]
  | num n => simp [readJsonItem]
  | arr items => simp [readJsonItem]

theorem readJsonItems_eq_some (items out : List Json) :
    readJsonItems items = some out ↔ List.Forall₂ ItemGives items out := by
  induction items generalizing out with
  | nil =>
    simp only [readJsonItems, Option.some.injEq, List.forall₂_nil_left_iff]
    exact eq_comm
  | cons item rest ih =>
    rw [readJsonItems]
    cases h : readJsonItem item with
    | none =>
      simp only [reduceCtorEq, false_iff]
      intro hf
      cases hf with
      | cons h1 _ =>
        rw [(readJsonItem_eq_some _ _).mpr h1] at h
        cases h
    | some v =>
      simp only [Option.map_eq_some']
      constructor
      · rintro ⟨vs, hvs, rfl⟩
        exact List.Forall₂.cons ((readJsonItem_eq_some _ _).mp h) ((ih vs).mp hvs)
      · intro hf
        cases hf with
        | cons h1 h2 =>
          rename_i o os
          have := (readJsonItem_eq_some _ _).mpr h1
          rw [h] at this
          cases this
          exact ⟨os, (ih os).mpr h2, rfl⟩

/-- What `readJsonFile` does: it returns `out` exactly when the parsed value is an
array whose items are each a string or an object with a truthy `url`, `out` holding,
in the same order and number, each string item itself and the `url` of each object
item; for a non-array value, or when some item is anything else, it throws. -/
theorem readJsonFile_accepts (data : Json) (out : List Json) :
    (readJsonFile data = some out ↔
      ∃ items, data = .arr items ∧ List.Forall₂ ItemGives items out) ∧
    (readJsonFile data = some out → ∀ items, data = .arr items → out.length = items.length) ∧
    ((∀ items, data ≠ .arr items) → readJsonFile data = none) := by
  have hiff : readJsonFile data = some out ↔
      ∃ items, data = .arr items ∧ List.Forall₂ ItemGives items out := by
    cases data with
    | arr items =>
      simp only [readJsonFile, Json.arr.injEq, exists_eq_left']
      exact readJsonItems_eq_some items out
    | null => simp [readJsonFile]
    | bool b => simp [readJsonFile]
    | num n => simp [readJsonFile]
    | str s => simp [readJsonFile]
    | obj es => simp [readJsonFile]
  refine ⟨hiff, ?_, ?_⟩
  · intro h items hitems
    obtain ⟨items2, h2, hf⟩ := hiff.mp h
    rw [hitems] at h2
    cases h2
    exact hf.length_eq.symm
  · intro h
    cases data with
    | arr items => exact absurd rfl (h items)
    | null => rfl
    | bool b => rfl
    | num n => rfl
    | str s => rfl
    | obj es => rfl

/-- C20 (the code at an object with an empty `url`): the array `[{"url": ""}]` holds
an object with a `url` property, which the docstring and the message of the error
say is supported, yet `readJsonFile` throws, while the same empty string as an item
of its own, `[""]`, is returned; and for `[{"url": 5}]` the array returned holds the
number 5, not a string. -/
theorem readJsonFile_empty_url_throws :
    acceptedAsSpecified (.obj [(utf16 "url", .str [])]) = true ∧
    readJsonFile (.arr [.obj [(utf16 "url", .str [])]]) = none ∧
    readJsonFile (.arr [.str []]) = some [.str []] ∧
    readJsonFile (.arr [.obj [(utf16 "url", Json.int 5)]]) = some [Json.int 5] := by
  refine ⟨rfl, rfl, rfl, rfl⟩

/-! ## Properties of the sampling of a sitemap -/

theorem stripTrailingSlashes_getLast (u : Str) : (stripTrailingSlashes u).getLast? ≠ some 47 := by
  unfold stripTrailingSlashes
  rw [List.getLast?_reverse]
  cases h : u.reverse.dropWhile (fun c => c == 47) with
  | nil => simp
  | cons d y =>
    have hd := dropWhile_head (fun c => c == 47) u.reverse d y h
    simp only [List.head?_cons, ne_eq, Option.some.injEq]
    intro hc
    rw [hc] at hd
    simp at hd

theorem getLast?_append_literal (a b : Str) (c : Nat) (h : b.getLast? = some c) :
    (a ++ b).getLast? = some c := by
  rw [List.getLast?_append, h]
  rfl

/-- When the check of the code finds the homepage, the list holds a homepage URL. -/
theorem exists_homepage_of_hasHomepage (siteUrl : Str) (allUrls : List Str)
    (h : hasHomepage siteUrl allUrls = true) : ∃ url ∈ allUrls, IsHomepage siteUrl url := by
  unfold hasHomepage at h
  rw [List.any_eq_true] at h
  obtain ⟨url, hmem, hurl⟩ := h
  refine ⟨url, hmem, ?_⟩
  have hu := stripTrailingSlashes_getLast url
  have hn := stripTrailingSlashes_getLast siteUrl
  have l1 : ∀ a : Str, (a ++ utf16 "/").getLast? = some 47 :=
    fun a => getLast?_append_literal a _ 47 rfl
  have l2 : ∀ a : Str, (a ++ utf16 "/index.html").getLast? = some 108 :=
    fun a => getLast?_append_literal a _ 108 rfl
  have l3 : ∀ a : Str, (a ++ utf16 "/index.php").getLast? = some 112 :=
    fun a => getLast?_append_literal a _ 112 rfl
  simp only [homepageVariants, Bool.or_eq_true, List.contains_eq_any_beq, List.any_cons,
    List.any_nil, Bool.or_false, beq_iff_eq] at hurl
  unfold IsHomepage
  rcases hurl with (h1 | h1 | h1 | h1) | (h1 | h1 | h1 | h1)
  · right; left; exact h1
  · exact absurd (by rw [h1]; exact l1 _) hu
  · right; right; left; exact h1
  · right; right; right; exact h1
  · exact absurd (by rw [← h1]; exact l1 _) hn
  · right; left; exact List.append_cancel_right h1
  · have h2 := l1 (stripTrailingSlashes url)
    rw [h1, l2] at h2
    cases h2
  · have h2 := l1 (stripTrailingSlashes url)
    rw [h1, l3] at h2
    cases h2

/-- C17 (the code when the first request fails): the fallback returns the sites of
the Sitemapper fetch, here one page that is not the homepage, and adds nothing;
whereas every list that the `try` block returns holds a homepage URL. -/
theorem getAllUrlsWithSampling_fallback_without_homepage :
    getAllUrlsWithSampling sampleBuiltins failingNetwork (utf16 "https://example.com") 5
        (utf16 "https://example.com/sitemap.xml")
      = some [utf16 "https://example.com/about"] ∧
    ¬ IsHomepage (utf16 "https://example.com") (utf16 "https://example.com/about") ∧
    ∀ (B : Builtins) (N : SitemapNetwork) (siteUrl : Str) (sampleSize : Int) (sitemapUrl : Str)
      (urls : List Str), samplingTry B N siteUrl sampleSize sitemapUrl = some urls →
      getAllUrlsWithSampling B N siteUrl sampleSize sitemapUrl = some urls ∧
      ∃ url ∈ urls, IsHomepage siteUrl url := by
  refine ⟨by decide, by unfold IsHomepage; decide, ?_⟩
  intro B N siteUrl sampleSize sitemapUrl urls h
  refine ⟨by unfold getAllUrlsWithSampling; rw [h], ?_⟩
  unfold samplingTry at h
  split at h
  · cases h
  · simp only [Option.map_eq_some'] at h
    obtain ⟨allUrls, _, hres⟩ := h
    by_cases hh : hasHomepage siteUrl allUrls = true
    · rw [if_pos hh] at hres
      rw [← hres]
      exact exists_homepage_of_hasHomepage siteUrl allUrls hh
    · rw [if_neg hh] at hres
      rw [← hres]
      exact ⟨siteUrl, List.mem_cons_self _ _, Or.inl rfl⟩

/-- C18 (the code on a sitemap that lists the homepage after another page): the
sampling ends without error, the homepage is found in the list, nothing is put in
front, and the first URL returned is the page `https://example.com/about`. -/
theorem getAllUrlsWithSampling_homepage_not_first :
    getAllUrlsWithSampling sampleBuiltins plainSitemapNetwork (utf16 "https://example.com") 5
        (utf16 "https://example.com/sitemap.xml")
      = some [utf16 "https://example.com/about", utf16 "https://example.com/"] ∧
    samplingTry sampleBuiltins plainSitemapNetwork (utf16 "https://example.com") 5
        (utf16 "https://example.com/sitemap.xml")
      = some [utf16 "https://example.com/about", utf16 "https://example.com/"] ∧
    ¬ IsHomepage (utf16 "https://example.com") (utf16 "https://example.com/about") := by
  refine ⟨by decide, by decide, by unfold IsHomepage; decide⟩

/-! ## The progress bar -/

/-- C29: for counts `current <= total` and a `width` below `2^53`, the numbers of the
language being doubles, `createProgressBar` returns (neither `repeat` throws: both
counts are non-negative) a bar of exactly `width` symbols, the filled ones first, and
a percent between 0 and 100; when `total = 0` the bar is entirely empty and the
percent is 0. -/
theorem createProgressBar_width_percent (current total width : Nat) (h : current ≤ total)
    (hw : width < 2 ^ 53) :
    ∃ (pb : ProgressBar) (filled : Nat),
      createProgressBar current total width = some pb ∧
      filled ≤ width ∧
      pb.bar = List.replicate filled 9608 ++ List.replicate (width - filled) 9617 ∧
      pb.bar.length = width ∧
      0 ≤ pb.percent ∧ pb.percent ≤ 100 ∧
      (total = 0 → pb.bar = List.replicate width 9617 ∧ pb.percent = 0) := by
  have hb := percentage_bounds current total h
  have hf := filled_bounds current total width h hw
  have hp0 : 0 ≤ mathRound (toDouble (percentage current total * 100)) :=
    mathRound_nonneg _ (toDouble_nonneg _ (mul_nonneg hb.1 (by norm_num)))
  have hp100 : mathRound (toDouble (percentage current total * 100)) ≤ 100 := by
    apply mathRound_le
    have := toDouble_le_natCast (percentage current total * 100) 100 (by norm_num)
      (by push_cast; linarith [hb.2])
    push_cast at this ⊢
    exact this
  obtain ⟨f, hf2⟩ := Int.eq_ofNat_of_zero_le hf.1
  have hfw : f ≤ width := by
    have := hf.2
    rw [hf2] at this
    exact_mod_cast this
  have hsym1 : ∀ n : Nat, (List.replicate n (utf16 "█")).flatten = List.replicate n 9608 := by
    intro n
    induction n with
    | zero => rfl
    | succ n ih => rw [List.replicate_succ, List.flatten_cons, ih]; rfl
  have hsym2 : ∀ n : Nat, (List.replicate n (utf16 "░")).flatten = List.replicate n 9617 := by
    intro n
    induction n with
    | zero => rfl
    | succ n ih => rw [List.replicate_succ, List.flatten_cons, ih]; rfl
  have hcreate : createProgressBar current total width = some
      { bar := List.replicate f 9608 ++ List.replicate (width - f) 9617
        percent := mathRound (toDouble (percentage current total * 100)) } := by
    unfold createProgressBar
    simp only
    rw [repeatStr_of_nonneg _ _ hf.1, repeatStr_of_nonneg _ _ (by omega), hf2]
    have e1 : ((f : Int)).toNat = f := Int.toNat_natCast f
    have e2 : ((width : Int) - (f : Int)).toNat = width - f := by omega
    simp only [e1, e2, hsym1, hsym2]
  refine ⟨_, f, hcreate, hfw, rfl, ?_, hp0, hp100, ?_⟩
  · simp only [List.length_append, List.length_replicate]
    omega
  · intro ht
    have hper : percentage current total = 0 := by
      unfold percentage
      rw [if_neg (by omega)]
    have hround : mathRound 0 = 0 := by
      unfold mathRound
      norm_num
    have hf0 : f = 0 := by
      rw [hper, mul_zero, toDouble_zero, hround] at hf2
      exact_mod_cast hf2.symm
    constructor
    · simp only [hf0, List.replicate_zero, List.nil_append, Nat.sub_zero]
    · simp only [hper, zero_mul, toDouble_zero, hround]

/-- Witness of C29: 23 of 40 with width 30 gives a bar of 30 symbols and the percent
57. -/
theorem createProgressBar_width_percent_witness :
    ∃ (pb : ProgressBar) (filled : Nat),
      createProgressBar 23 40 30 = some pb ∧ filled ≤ 30 ∧
      pb.bar = List.replicate filled 9608 ++ List.replicate (30 - filled) 9617 ∧
      pb.bar.length = 30 ∧ 0 ≤ pb.percent ∧ pb.percent ≤ 100 ∧ pb.percent = 57 := by
  obtain ⟨pb, filled, h1, h2, h3, h4, h5, h6, _⟩ :=
    createProgressBar_width_percent 23 40 30 (by decide) (by decide)
  refine ⟨pb, filled, h1, h2, h3, h4, h5, h6, ?_⟩
  rw [createProgressBar_23_40] at h1
  rw [← Option.some.inj h1]

/-! ## Properties of the command line of the progress wrapper -/

theorem splitOn_of_not_mem (sep : Nat) (s : Str) (h : sep ∉ s) : splitOn sep s = [s] := by
  induction s with
  | nil => rfl
  | cons c cs ih =>
    have hc : c ≠ sep := fun hc => h (hc ▸ List.mem_cons_self _ _)
    exact splitOn_cons_ne sep c cs cs [] hc (ih fun hm => h (List.mem_cons_of_mem _ hm))

/-- The first segment of a split is the text before the first separator. -/
theorem splitOn_head (sep : Nat) (s : Str) :
    (splitOn sep s)[0]? = some (s.takeWhile fun c => c != sep) := by
  induction s with
  | nil => rfl
  | cons c cs ih =>
    by_cases hc : c = sep
    · subst hc
      rw [splitOn_cons_sep]
      simp [List.takeWhile_cons]
    · cases hS : splitOn sep cs with
      | nil => exact absurd hS (splitOn_ne_nil _ _)
      | cons w ws =>
        rw [splitOn_cons_ne sep c cs w ws hc hS]
        rw [hS] at ih
        have hw : w = cs.takeWhile fun c => c != sep := by simpa using ih
        have hb : (c != sep) = true := by simpa using hc
        simp [List.takeWhile_cons, hb, hw]

/-- What `parseArgs` takes from `--filter=P`: the text of `P` before its first `=`. -/
theorem parseArg_filter (result : ParsedArgs) (P : Str) :
    parseArg result (utf16 "--filter=" ++ P)
      = { result with
          filter := some (P.takeWhile fun c => c != 61)
          extraArgs := result.extraArgs ++ [utf16 "--filter=" ++ P] } := by
  have h1 : ¬ (utf16 "--filter=" ++ P = utf16 "test" ∨ utf16 "--filter=" ++ P = utf16 "reference" ∨
      utf16 "--filter=" ++ P = utf16 "approve") := by
    rintro (h | h | h) <;> · have := congrArg List.head? h; simp [utf16, utf16Units] at this
  have h2 : (utf16 "--filter=").isPrefixOf (utf16 "--filter=" ++ P) = true := by
    rw [List.isPrefixOf_iff_prefix]
    exact List.prefix_append _ _
  have h3 : (splitOn 61 (utf16 "--filter=" ++ P))[1]? = some (P.takeWhile fun c => c != 61) := by
    rw [splitOn_append]
    have e : splitOn 61 (utf16 "--filter=") = [utf16 "--filter", []] := by decide
    rw [e]
    show (([utf16 "--filter"] : List Str) ++ splitOn 61 ([] ++ P))[1]? = _
    rw [List.nil_append]
    have := splitOn_head 61 P
    cases hS : splitOn 61 P with
    | nil => exact absurd hS (splitOn_ne_nil _ _)
    | cons w ws =>
      rw [hS] at this
      simpa using this
  unfold parseArg
  rw [if_neg h1, if_pos h2, h3]

/-- C21 (the code at a pattern that contains `=`): for `--filter=a=b` the filter that
counts the scenarios is `a`, while the runner receives `--filter=a=b`; in general
`--filter=P` sets the filter to the text of `P` before its first `=`, which is `P`
when `P` has no `=`, and is forwarded unchanged. -/
theorem parseArgs_filter_cut_at_equals :
    parseArgs [utf16 "test", utf16 "--filter=a=b"]
      = { command := utf16 "test", filter := some (utf16 "a"), debug := false,
          extraArgs := [utf16 "--filter=a=b"] } ∧
    backstopArgs [utf16 "test", utf16 "--filter=a=b"] = [utf16 "test", utf16 "--filter=a=b"] ∧
    (∀ (args : List Str) (P : Str),
      (parseArgs (args ++ [utf16 "--filter=" ++ P])).filter
        = some (P.takeWhile fun c => c != 61) ∧
      (parseArgs (args ++ [utf16 "--filter=" ++ P])).extraArgs
        = (parseArgs args).extraArgs ++ [utf16 "--filter=" ++ P]) ∧
    (∀ P : Str, (61 : Nat) ∉ P → (P.takeWhile fun c => c != 61) = P) := by
  refine ⟨by decide, by decide, ?_, ?_⟩
  · intro args P
    unfold parseArgs
    rw [List.foldl_append, List.foldl_cons, List.foldl_nil, parseArg_filter]
    exact ⟨rfl, rfl⟩
  · intro P hP
    rw [List.takeWhile_eq_self_iff]
    intro c hc
    have : c ≠ 61 := fun h => hP (h ▸ hc)
    simpa using this

theorem parseArg_command (result : ParsedArgs) (arg : Str) :
    (parseArg result arg).command = if isModeToken arg = true then arg else result.command := by
  have hm : isModeToken arg = true ↔
      (arg = utf16 "test" ∨ arg = utf16 "reference" ∨ arg = utf16 "approve") := by
    simp [isModeToken, or_assoc]
  unfold parseArg
  by_cases h : arg = utf16 "test" ∨ arg = utf16 "reference" ∨ arg = utf16 "approve"
  · rw [if_pos h, if_pos (hm.mpr h)]
  · rw [if_neg h, if_neg (fun hc => h (hm.mp hc))]
    split
    · rfl
    · split <;> rfl

theorem foldl_parseArg_command (args : List Str) (result : ParsedArgs) :
    (args.foldl parseArg result).command = (lastModeToken args).getD result.command := by
  induction args generalizing result with
  | nil => rfl
  | cons a args ih =>
    rw [List.foldl_cons, ih, parseArg_command]
    unfold lastModeToken
    rw [List.filter_cons]
    by_cases h : isModeToken a = true
    · rw [if_pos h, if_pos h]
      cases hf : args.filter isModeToken with
      | nil => rfl
      | cons b bs =>
        rw [List.getLast?_cons_cons, List.getLast?_eq_getLast _ (List.cons_ne_nil _ _)]
        rfl
    · rw [if_neg h, if_neg h]

/-- C22 (the claim at an empty argument list): without any mode token `parseArgs`
still yields the runner command `test`, where the specification has none. -/
theorem parseArgs_default_command :
    commandAsSpecified [] = none ∧
    (parseArgs []).command = utf16 "test" ∧
    backstopArgs [utf16 "--debug"] = [utf16 "test"] := by
  refine ⟨rfl, rfl, by decide⟩

/-- C22 (amended): the command of `parseArgs` is the last of the tokens `test`,
`reference`, `approve` in the argument list, and `test` when the list has none: the
mode token is optional. -/
theorem parseArgs_command (args : List Str) :
    (parseArgs args).command = (lastModeToken args).getD (utf16 "test") ∧
    (lastModeToken args = none ↔ ∀ a ∈ args, isModeToken a = false) := by
  refine ⟨foldl_parseArg_command args _, ?_⟩
  unfold lastModeToken
  rw [List.getLast?_eq_none_iff, List.filter_eq_nil_iff]
  constructor
  · intro h a ha
    simpa using h a ha
  · intro h a ha
    simp [h a ha]

/-! ## Properties of the constants and of the URL cap -/

/-- C23 (the claim at `MAX_URLS=0`): with the cap 0 and one fetched URL the guard
`MAX_URLS && ...` is false, no cap is applied and one scenario is generated; with the
cap 0 every list of fetched URLs is used whole. -/
theorem sitemapScenarios_zero_cap :
    (sitemapScenarios sampleBuiltins emptyEnv (some 0) [utf16 "https://example.com/"]).length = 1 ∧
    finalUrls (some 0) [utf16 "https://example.com/"] = [utf16 "https://example.com/"] ∧
    ∀ sitemapUrls : List Str, finalUrls (some 0) sitemapUrls = sitemapUrls := by
  refine ⟨by decide, by decide, fun sitemapUrls => ?_⟩
  simp [finalUrls]

/-- C23 (amended): when `MAX_URLS` is a positive integer `m`, the URLs used are the
first `min(m, n)` of the `n` fetched URLs, in their order, and at most `m` scenarios
are generated, one for each of them. -/
theorem sitemapScenarios_capped (B : Builtins) (env : Env) (m : Int) (sitemapUrls : List Str)
    (hm : 0 < m) :
    finalUrls (some m) sitemapUrls = sitemapUrls.take (min m.toNat sitemapUrls.length) ∧
    ((sitemapScenarios B env (some m) sitemapUrls).length : Int) ≤ m ∧
    (sitemapScenarios B env (some m) sitemapUrls).map (fun r => r.url)
      = sitemapUrls.take (min m.toNat sitemapUrls.length) := by
  have hfinal : finalUrls (some m) sitemapUrls
      = sitemapUrls.take (min m.toNat sitemapUrls.length) := by
    unfold finalUrls
    simp only
    by_cases h : (sitemapUrls.length : Int) > m
    · rw [if_pos ⟨by omega, h⟩, slice0_of_nonneg _ _ (by omega), Nat.min_eq_left (by omega)]
    · rw [if_neg (fun hc => h hc.2), Nat.min_eq_right (by omega), List.take_length]
  have hurl : ∀ l : List Str, (generateScenarios B env l).map (fun r => r.url) = l := by
    intro l
    unfold generateScenarios
    rw [List.map_map]
    exact (List.map_congr_left fun u _ => rfl).trans (List.map_id _)
  have hmap : (sitemapScenarios B env (some m) sitemapUrls).map (fun r => r.url)
      = sitemapUrls.take (min m.toNat sitemapUrls.length) := by
    unfold sitemapScenarios
    split
    · rw [hurl, hfinal]
    · rename_i h
      have : sitemapUrls = [] := by
        cases sitemapUrls with
        | nil => rfl
        | cons a l => simp at h
      subst this
      simp
  refine ⟨hfinal, ?_, hmap⟩
  have hlen := congrArg List.length hmap
  rw [List.length_map, List.length_take] at hlen
  rw [hlen]
  omega

/-- Witness of the amended C23: a cap of 1 on two URLs keeps the first. -/
theorem sitemapScenarios_capped_witness :
    finalUrls (some 1) [utf16 "https://example.com/", utf16 "https://example.com/about"]
      = [utf16 "https://example.com/"] :=
  (sitemapScenarios_capped sampleBuiltins emptyEnv 1
    [utf16 "https://example.com/", utf16 "https://example.com/about"] (by decide)).1

/-- C30 (the code when only `SITE_URL` is set): with `SITE_URL=https://example.com` and
`SITEMAP_URL` unset the sum `SITE_URL + undefined` is a non-empty string, so the
sitemap target is `https://example.comundefined`; the default
`SITE_URL + '/sitemap.xml'` is reached only when `SITE_URL` is unset too. -/
theorem sitemapUrlConst_site_url_only :
    sitemapUrlConst (some (utf16 "https://example.com")) none
      = utf16 "https://example.comundefined" ∧
    sitemapUrlConst none none = utf16 "https://wordpress.org/sitemap.xml" ∧
    ∀ s : Str, sitemapUrlConst (some s) none = s ++ utf16 "undefined" := by
  refine ⟨by decide, by decide, ?_⟩
  intro s
  unfold sitemapUrlConst envPlus orDefault
  simp only
  cases s with
  | nil => rfl
  | cons c cs => rfl

/-! ## Properties of the standard fetch of a sitemap -/

/-- In standard mode, for a sitemap URL that does not answer with HTML: when the
first fetch resolves, its URLs are returned, the empty list when it has none, and no
other fetch is made; when an error is thrown and the URL contains
`sitemap_index.xml`, the URL with `sitemap.xml` in its place is fetched once and its
URLs are returned (the empty list when it answers with HTML, throws or has none);
when an error is thrown and the URL does not contain `sitemap_index.xml`, the empty
list is returned. -/
theorem getAllUrlsFromSitemap_standard (B : Builtins) (N : SitemapNetwork)
    (isHtmlResponse : Str → Bool) (siteUrl : Str) (sampleSize : Int) (sitemapUrl : Str)
    (hxml : isHtmlResponse sitemapUrl = false) :
    (∀ sites, N.sitemapperSites sitemapUrl = some sites →
      getAllUrlsFromSitemap B N isHtmlResponse false siteUrl sampleSize sitemapUrl
        = sitesOrEmpty sites) ∧
    (N.sitemapperSites sitemapUrl = none →
      includes sitemapUrl (utf16 "sitemap_index.xml") = true →
      getAllUrlsFromSitemap B N isHtmlResponse false siteUrl sampleSize sitemapUrl
        = if isHtmlResponse
              (replaceFirst sitemapUrl (utf16 "sitemap_index.xml") (utf16 "sitemap.xml"))
          then []
          else sitesOrEmpty ((N.sitemapperSites
            (replaceFirst sitemapUrl (utf16 "sitemap_index.xml") (utf16 "sitemap.xml"))).getD
              none)) ∧
    (N.sitemapperSites sitemapUrl = none →
      includes sitemapUrl (utf16 "sitemap_index.xml") = false →
      getAllUrlsFromSitemap B N isHtmlResponse false siteUrl sampleSize sitemapUrl = []) := by
  have htry : sitemapTry B N isHtmlResponse false siteUrl sampleSize sitemapUrl
      = (N.sitemapperSites sitemapUrl).map sitesOrEmpty := by
    unfold sitemapTry
    rw [hxml]
    rfl
  refine ⟨?_, ?_, ?_⟩
  · intro sites h
    unfold getAllUrlsFromSitemap
    rw [htry, h]
    rfl
  · intro h hinc
    unfold getAllUrlsFromSitemap
    rw [htry, h]
    show sitemapRetry N isHtmlResponse sitemapUrl = _
    unfold sitemapRetry
    rw [if_pos hinc]
    simp only
    split
    · rfl
    · cases N.sitemapperSites
        (replaceFirst sitemapUrl (utf16 "sitemap_index.xml") (utf16 "sitemap.xml")) <;> rfl
  · intro h hinc
    unfold getAllUrlsFromSitemap
    rw [htry, h]
    show sitemapRetry N isHtmlResponse sitemapUrl = _
    unfold sitemapRetry
    rw [if_neg (by rw [hinc]; exact Bool.false_ne_true)]

/-- C24 (the code when the sitemap index cannot be fetched): the fetch of
`https://example.com/sitemap_index.xml`, which answers 404, resolves with no site and
the failure in `errors`; the `catch` with the retry is not reached and the code
returns the empty list without fetching `sitemap.xml`, which lists a page. Whenever
the first fetch resolves, with sites or without, what it gives is returned and no
retry is made. -/
theorem getAllUrlsFromSitemap_no_retry_when_empty :
    getAllUrlsFromSitemap sampleBuiltins emptyIndexNetwork (fun _ => false) false
        (utf16 "https://example.com") 5 (utf16 "https://example.com/sitemap_index.xml") = [] ∧
    sitemapRetry emptyIndexNetwork (fun _ => false)
        (utf16 "https://example.com/sitemap_index.xml") = [utf16 "https://example.com/about"] ∧
    standardFetchAsSpecified emptyIndexNetwork (utf16 "https://example.com/sitemap_index.xml")
      = [utf16 "https://example.com/about"] ∧
    (∀ (B : Builtins) (N : SitemapNetwork) (isHtmlResponse : Str → Bool) (siteUrl : Str)
        (sampleSize : Int) (sitemapUrl : Str) (sites : Option (List Str)),
      isHtmlResponse sitemapUrl = false → N.sitemapperSites sitemapUrl = some sites →
      getAllUrlsFromSitemap B N isHtmlResponse false siteUrl sampleSize sitemapUrl
        = sitesOrEmpty sites) := by
  refine ⟨by decide, by decide, by decide, ?_⟩
  intro B N isHtmlResponse siteUrl sampleSize sitemapUrl sites hxml h
  exact (getAllUrlsFromSitemap_standard B N isHtmlResponse siteUrl sampleSize sitemapUrl
    hxml).1 sites h

/-! ## Properties of the reset -/

theorem remove_sublist (resolve : Str → FsPath) (fs : FileSystem) (t : Str) :
    List.Sublist (remove resolve fs t) fs := by
  unfold remove rmSync
  split
  · exact List.filter_sublist _
  · exact List.Sublist.refl _

theorem not_mem_remove (resolve : Str → FsPath) (fs : FileSystem) (t : Str) :
    resolve t ∉ remove resolve fs t := by
  unfold remove rmSync
  split
  · intro h
    rw [List.mem_filter] at h
    have hp : (resolve t).isPrefixOf (resolve t) = true := by
      rw [List.isPrefixOf_iff_prefix]
    simp [hp] at h
  · rename_i h
    intro hm
    apply h
    simpa using hm

theorem remove_of_not_mem (resolve : Str → FsPath) (fs : FileSystem) (t : Str)
    (h : resolve t ∉ fs) : remove resolve fs t = fs := by
  unfold remove
  rw [if_neg (by simpa using h)]

theorem foldl_remove_sublist (resolve : Str → FsPath) (ts : List Str) (fs : FileSystem) :
    List.Sublist (ts.foldl (remove resolve) fs) fs := by
  induction ts generalizing fs with
  | nil => exact List.Sublist.refl _
  | cons t ts ih => exact (ih _).trans (remove_sublist resolve fs t)

/-- After the targets are removed in turn, none of them exists. -/
theorem not_mem_foldl_remove (resolve : Str → FsPath) (ts : List Str) (fs : FileSystem)
    (t : Str) (ht : t ∈ ts) : resolve t ∉ ts.foldl (remove resolve) fs := by
  induction ts generalizing fs with
  | nil => simp at ht
  | cons a ts ih =>
    rw [List.foldl_cons]
    by_cases hmem : t ∈ ts
    · exact ih _ hmem
    · rw [List.mem_cons] at ht
      rcases ht with rfl | ht
      · intro h
        exact not_mem_remove resolve fs t ((foldl_remove_sublist resolve ts _).subset h)
      · exact absurd ht hmem

theorem foldl_remove_of_absent (resolve : Str → FsPath) (ts : List Str) (fs : FileSystem)
    (h : ∀ t ∈ ts, resolve t ∉ fs) : ts.foldl (remove resolve) fs = fs := by
  induction ts with
  | nil => rfl
  | cons a ts ih =>
    rw [List.foldl_cons, remove_of_not_mem resolve fs a (h a (List.mem_cons_self _ _))]
    exact ih fun t ht => h t (List.mem_cons_of_mem _ ht)

theorem mem_foldl_remove_iff (resolve : Str → FsPath) (ts : List Str) (fs : FileSystem)
    (p : FsPath) (hp : ∀ t ∈ ts, ¬ (resolve t).isPrefixOf p = true) :
    p ∈ ts.foldl (remove resolve) fs ↔ p ∈ fs := by
  induction ts generalizing fs with
  | nil => rfl
  | cons a ts ih =>
    rw [List.foldl_cons, ih _ fun t ht => hp t (List.mem_cons_of_mem _ ht)]
    unfold remove rmSync
    split
    · rw [List.mem_filter]
      have := hp a (List.mem_cons_self _ _)
      simp [this]
    · rfl

theorem exists_target_of_removed (resolve : Str → FsPath) (ts : List Str) (fs : FileSystem)
    (p : FsPath) (hfs : p ∈ fs) (hgone : p ∉ ts.foldl (remove resolve) fs) :
    ∃ t ∈ ts, (resolve t).isPrefixOf p = true := by
  by_contra hne
  apply hgone
  rw [mem_foldl_remove_iff resolve ts fs p]
  · exact hfs
  · intro t ht hpre
    exact hne ⟨t, ht, hpre⟩

/-- C27: for every file system state and every reading of the target paths, running
the reset twice leaves the state that one run leaves; the reset creates nothing and
keeps the order of what stays; a path that no target is, or lies above, stays; every
path that goes is a target or lies below one; and removing a target that does not
exist changes nothing. -/
theorem resetBackstop_idempotent (B : Builtins) (env : Env) (resolve : Str → FsPath)
    (fs : FileSystem) :
    resetBackstop B env resolve (resetBackstop B env resolve fs) = resetBackstop B env resolve fs ∧
    List.Sublist (resetBackstop B env resolve fs) fs ∧
    (∀ p ∈ fs, (∀ t ∈ pathsToRemove B env, ¬ (resolve t).isPrefixOf p = true) →
      p ∈ resetBackstop B env resolve fs) ∧
    (∀ p ∈ fs, p ∉ resetBackstop B env resolve fs →
      ∃ t ∈ pathsToRemove B env, (resolve t).isPrefixOf p = true) ∧
    (∀ t : Str, resolve t ∉ fs → remove resolve fs t = fs) := by
  refine ⟨?_, foldl_remove_sublist resolve _ fs, ?_, ?_, ?_⟩
  · unfold resetBackstop
    exact foldl_remove_of_absent resolve _ _ fun t ht => not_mem_foldl_remove resolve _ fs t ht
  · intro p hp hno
    unfold resetBackstop
    rw [mem_foldl_remove_iff resolve _ fs p hno]
    exact hp
  · intro p hp hgone
    exact exists_target_of_removed resolve _ fs p hp hgone
  · intro t ht
    exact remove_of_not_mem resolve fs t ht

/-! ## Properties of the TLS settings -/

/-- C26 (the code with the override set to `true`): `detectAndConfigureSSL` leaves
`NODE_TLS_REJECT_UNAUTHORIZED` as it was, and the override reads `true`, yet the
options of `isHtmlResponse`, `fetchSitemapWithDates` and `detectSitemapIndex` have
`rejectUnauthorized = false`, whatever the URL and the environment: the constant
`REJECT_UNAUTHORIZED` is not used by them. -/
theorem requests_never_verify_certificates (H : HostPlatform) (nodeTls : Option Str)
    (targetUrl : Str) (u : UrlParts) (headers : Json) (timeout : Int) :
    rejectUnauthorizedOverride (some (utf16 "true")) = some true ∧
    detectAndConfigureSSL H (some (utf16 "true")) nodeTls targetUrl = nodeTls ∧
    (isHtmlResponseOptions u headers).rejectUnauthorized = false ∧
    (fetchSitemapWithDatesOptions u headers timeout).rejectUnauthorized = false ∧
    (detectSitemapIndexOptions u headers timeout).rejectUnauthorized = false := by
  refine ⟨rfl, ?_, rfl, rfl, rfl⟩
  have hs : shouldRejectUnauthorized H (some (utf16 "true")) targetUrl = true := rfl
  unfold detectAndConfigureSSL
  rw [hs]
  rfl

/-! ## Properties of the recording wrappers -/

/-- `s.includes(sub)` holds exactly when `sub` is a contiguous part of `s`. -/
theorem includes_iff_part (s sub : Str) : includes s sub = true ↔ sub <:+: s := by
  induction s with
  | nil =>
    cases sub with
    | nil => simp [includes]
    | cons c cs => simp [includes]
  | cons c cs ih =>
    rw [includes, Bool.or_eq_true, ih, List.infix_cons_iff, List.isPrefixOf_iff_prefix]

/-- A text that lacks one unit of `sub` does not include `sub`. -/
theorem includes_eq_false_of_not_mem (s sub : Str) (c : Nat) (hc : c ∈ sub) (hs : c ∉ s) :
    includes s sub = false := by
  rw [Bool.eq_false_iff]
  intro h
  exact hs (((includes_iff_part s sub).mp h).subset hc)

/-- A text that includes `sub` includes every part of `sub`. -/
theorem includes_of_includes (s sub part : Str) (hp : includes sub part = true)
    (h : includes s sub = true) : includes s part = true :=
  (includes_iff_part s part).mpr
    (((includes_iff_part sub part).mp hp).trans ((includes_iff_part s sub).mp h))

/-- C25 (the code at the recording `module.exports = 1;`, where no pattern has a
match): the guard of the fallback looks for `module.exports` only, so the recording
is written as it is, without the line of an exported callable, and is not copied.
When the adapted content has no `module.exports`, the fallback is written, it has
the line of an exported callable, and the recording is copied. -/
theorem createRecordingWrapper_without_callable :
    (∀ name : Str,
      createRecordingWrapper unmatchedPlain (utf16 "module.exports = 1;") name
        = { content := utf16 "module.exports = 1;", copiesOriginal := false }) ∧
    includes (utf16 "module.exports = 1;") exportLine = false ∧
    (∀ (P : RegExpPlain) (content name : Str),
      includes (adaptContent P content) (utf16 "module.exports") = false →
      createRecordingWrapper P content name
          = { content := fallbackWrapper name, copiesOriginal := true } ∧
        includes (fallbackWrapper name) exportLine = true) := by
  refine ⟨fun name => rfl, by decide, ?_⟩
  intro P content name h
  constructor
  · unfold createRecordingWrapper
    simp only [h, Bool.not_false, if_true]
  · have hmid : exportLine <:+: utf16 ("\x27);\nconst recording = require(recordingPath);\n\n" ++
        "module.exports = async (page, scenario, vp) => \x7b\n" ++
        "  // El recording original ya está adaptado para BackstopJS\n" ++
        "  // Si necesita adaptación adicional, se puede hacer aquí\n" ++
        "  console.log(\x27Ejecutando recording: ") :=
      (includes_iff_part _ _).mp (by decide)
    rw [includes_iff_part]
    unfold fallbackWrapper
    exact hmid.trans (((List.suffix_append _ _).isInfix.trans
      (List.prefix_append _ _).isInfix).trans (List.prefix_append _ _).isInfix)

/-! ## Properties of the wrappers of the recordings -/

/-- The split of a text after a segment without the separator. -/
theorem splitOn_append_sep (sep : Nat) (w rest : Str) (h : sep ∉ w) :
    splitOn sep (w ++ sep :: rest) = w :: splitOn sep rest := by
  induction w with
  | nil => exact splitOn_cons_sep sep rest
  | cons c cs ih =>
    have hc : c ≠ sep := fun hc => h (hc ▸ List.mem_cons_self _ _)
    exact splitOn_cons_ne sep c _ cs (splitOn sep rest) hc
      (ih fun hm => h (List.mem_cons_of_mem _ hm))

/-- The lines joined by the separator are found again by the split, when none of
them has the separator. -/
theorem splitOn_join (sep : Nat) (ls : List Str) (hne : ls ≠ [])
    (h : ∀ l ∈ ls, sep ∉ l) : splitOn sep (join [sep] ls) = ls := by
  induction ls with
  | nil => exact absurd rfl hne
  | cons w ws ih =>
    cases ws with
    | nil => exact splitOn_of_not_mem sep w (h w (List.mem_cons_self _ _))
    | cons w2 ws2 =>
      have hrest := ih (List.cons_ne_nil _ _) fun l hl => h l (List.mem_cons_of_mem _ hl)
      show splitOn sep (w ++ [sep] ++ join [sep] (w2 :: ws2)) = _
      rw [List.append_assoc, List.singleton_append,
        splitOn_append_sep sep w _ (h w (List.mem_cons_self _ _)), hrest]

/-- The line of the timeout for a value of digits has none of the four texts and no
line break. -/
theorem timeoutLine_clean (tv : Str) (h : ∀ c ∈ tv, 48 ≤ c ∧ c ≤ 57) :
    includes (timeoutLine tv) (utf16 "browser.close()") = false ∧
    includes (timeoutLine tv) (utf16 "puppeteer.launch()") = false ∧
    includes (timeoutLine tv) (utf16 "browser.newPage()") = false ∧
    includes (timeoutLine tv) (utf16 "setDefaultTimeout") = false ∧
    10 ∉ timeoutLine tv := by
  have key : ∀ c : Nat, c ∉ utf16 "    const timeout = " → c ∉ utf16 ";" → (c < 48 ∨ 57 < c) →
      c ∉ timeoutLine tv := by
    intro c h1 h2 h3 hm
    unfold timeoutLine at hm
    rcases List.mem_append.mp hm with hm | hm
    · rcases List.mem_append.mp hm with hm | hm
      · exact h1 hm
      · have := h c hm
        omega
    · exact h2 hm
  refine ⟨?_, ?_, ?_, ?_, ?_⟩
  · exact includes_eq_false_of_not_mem _ _ 98 (by decide)
      (key 98 (by decide) (by decide) (by omega))
  · exact includes_eq_false_of_not_mem _ _ 112 (by decide)
      (key 112 (by decide) (by decide) (by omega))
  · exact includes_eq_false_of_not_mem _ _ 98 (by decide)
      (key 98 (by decide) (by decide) (by omega))
  · exact includes_eq_false_of_not_mem _ _ 68 (by decide)
      (key 68 (by decide) (by decide) (by omega))
  · exact key 10 (by decide) (by decide) (by omega)

/-- The lines that one step pushes: the line itself, which then has none of the four
texts, or lines that the loop writes of its own. -/
theorem lineStep_push (tv : Str) (n i : Nat) (skip : Bool) (line : Str) (out : List Str)
    (skip2 : Bool) (h : lineStep tv n i skip line = .push out skip2) :
    (out = [line] ∧
      includes line (utf16 "browser.close()") = false ∧
      includes line (utf16 "puppeteer.launch()") = false ∧
      includes line (utf16 "browser.newPage()") = false ∧
      includes line (utf16 "setDefaultTimeout") = false) ∨
    (∀ l ∈ out, l ∈ [requireLine, exportLine, timeoutLine tv]) := by
  unfold lineStep at h
  split_ifs at h with h1 h2 h3 h4 h5 h6 h7
  · cases h; right; simp
  · cases h; right; simp
  · cases h; right; simp
  · cases h; right; simp
  · cases h; right; simp
  · cases h; right; simp
  · cases h
    left
    simp only [Bool.or_eq_true, Bool.and_eq_true, not_or, not_and, Bool.not_eq_true] at h3 h5 h6
    exact ⟨rfl, h6, h3.1.1, h3.1.2, h5⟩

/-- A line without any mark: the step leaves the loop at the mark of the `catch`, and
keeps the line otherwise. -/
theorem lineStep_of_unmarked (tv : Str) (n i : Nat) (skip : Bool) (line : Str)
    (h : hasMark line = false) :
    lineStep tv n i skip line =
      if includes line (utf16 "\x7d)().catch") ||
          (includes line (utf16 "catch") && decide ((i : Int) > (n : Int) - 5)) then .stop
      else .push [line] skip := by
  unfold hasMark at h
  simp only [Bool.or_eq_false_iff] at h
  obtain ⟨⟨⟨⟨⟨⟨⟨⟨h1, h2⟩, h3⟩, h4⟩, h5⟩, h6⟩, h7⟩, h8⟩, h9⟩ := h
  unfold lineStep
  simp only [h1, h2, h3, h4, h5, h6, h7, h8, h9, Bool.or_self, Bool.and_false,
    Bool.false_eq_true, if_false]

/-- A line without `catch` does not end the loop. -/
theorem lineStep_ne_stop (tv : Str) (n i : Nat) (skip : Bool) (line : Str)
    (h : includes line (utf16 "catch") = false) : lineStep tv n i skip line ≠ .stop := by
  have h2 : includes line (utf16 "\x7d)().catch") = false := by
    rw [Bool.eq_false_iff]
    intro hc
    have := includes_of_includes line (utf16 "\x7d)().catch") (utf16 "catch") (by decide) hc
    rw [h] at this
    exact Bool.false_ne_true this
  unfold lineStep
  split_ifs with h3 h4 h5 h6 h7 h8 h9 <;> simp_all

/-- Every line of the loop is a line of the recording without the four texts, or a
line that the loop writes of its own. -/
theorem mem_adaptLoop (tv : Str) (n : Nat) (lines : List Str) (i : Nat) (skip : Bool)
    (l : Str) (h : l ∈ adaptLoop tv n i skip lines) :
    (l ∈ lines ∧
      includes l (utf16 "browser.close()") = false ∧
      includes l (utf16 "puppeteer.launch()") = false ∧
      includes l (utf16 "browser.newPage()") = false ∧
      includes l (utf16 "setDefaultTimeout") = false) ∨
    l ∈ [requireLine, exportLine, timeoutLine tv] := by
  induction lines generalizing i skip with
  | nil => simp [adaptLoop] at h
  | cons line rest ih =>
    rw [adaptLoop] at h
    cases hs : lineStep tv n i skip line with
    | stop => rw [hs] at h; simp at h
    | push out skip2 =>
      rw [hs] at h
      rcases List.mem_append.mp h with hm | hm
      · rcases lineStep_push tv n i skip line out skip2 hs with ⟨ho, hc⟩ | ho
        · rw [ho, List.mem_singleton] at hm
          subst hm
          exact Or.inl ⟨List.mem_cons_self _ _, hc⟩
        · exact Or.inr (ho l hm)
      · rcases ih (i + 1) skip2 hm with ⟨hl, hc⟩ | hr
        · exact Or.inl ⟨List.mem_cons_of_mem _ hl, hc⟩
        · exact Or.inr hr

/-- The lines of the loop, apart from those that it writes of its own, are lines of
the recording from before the first line that stops it, in their order. -/
theorem adaptLoop_sublist (tv : Str) (n : Nat) (lines : List Str) (i : Nat) (skip : Bool) :
    List.Sublist ((adaptLoop tv n i skip lines).filter fun l => decide (l ∉ insertedLines tv))
      (lines.takeWhile fun l => !stopsAt l) := by
  induction lines generalizing i skip with
  | nil => simp [adaptLoop]
  | cons line rest ih =>
    rw [adaptLoop]
    cases hs : lineStep tv n i skip line with
    | stop => simp
    | push out skip2 =>
      have hstop : stopsAt line = false := by
        rw [Bool.eq_false_iff]
        intro hc
        unfold stopsAt at hc
        simp only [Bool.and_eq_true, Bool.not_eq_true'] at hc
        rw [lineStep_of_unmarked tv n i skip line hc.2, hc.1] at hs
        simp at hs
      rw [List.takeWhile_cons, hstop]
      simp only [Bool.not_false, if_true, List.filter_append]
      have hout : List.Sublist (out.filter fun l => decide (l ∉ insertedLines tv)) [line] := by
        rcases lineStep_push tv n i skip line out skip2 hs with ⟨ho, _⟩ | ho
        · rw [ho]
          exact List.filter_sublist _
        · have : (out.filter fun l => decide (l ∉ insertedLines tv)) = [] := by
            rw [List.filter_eq_nil_iff]
            intro l hl
            have := ho l hl
            simp only [insertedLines, decide_not, Bool.not_eq_true', decide_eq_false_iff_not,
              not_not]
            simp only [List.mem_cons, List.mem_singleton, List.not_mem_nil, or_false] at this ⊢
            tauto
          rw [this]
          exact List.nil_sublist _
      exact List.Sublist.append hout (ih (i + 1) skip2)

/-- The lines before the first line with `catch` that have no mark are lines of the
loop, in their order. -/
theorem sublist_adaptLoop (tv : Str) (n : Nat) (lines : List Str) (i : Nat) (skip : Bool) :
    List.Sublist
      ((lines.takeWhile fun l => !includes l (utf16 "catch")).filter fun l => !hasMark l)
      (adaptLoop tv n i skip lines) := by
  induction lines generalizing i skip with
  | nil => simp [adaptLoop]
  | cons line rest ih =>
    rw [List.takeWhile_cons]
    by_cases hc : includes line (utf16 "catch") = true
    · simp [hc]
    · rw [Bool.not_eq_true] at hc
      simp only [hc, Bool.not_false, if_true]
      rw [adaptLoop]
      cases hm : hasMark line with
      | false =>
        have hc2 : includes line (utf16 "\x7d)().catch") = false := by
          rw [Bool.eq_false_iff]
          intro h2
          have := includes_of_includes line (utf16 "\x7d)().catch") (utf16 "catch")
            (by decide) h2
          rw [hc] at this
          exact Bool.false_ne_true this
        rw [lineStep_of_unmarked tv n i skip line hm, hc, hc2]
        simp only [Bool.false_and, Bool.or_self, Bool.false_eq_true, if_false]
        rw [List.filter_cons, hm]
        simp only [Bool.not_false, if_true, List.singleton_append]
        exact List.Sublist.cons₂ _ (ih (i + 1) skip)
      | true =>
        rw [List.filter_cons, hm]
        simp only [Bool.not_true, Bool.false_eq_true, if_false]
        cases hs : lineStep tv n i skip line with
        | stop => exact absurd hs (lineStep_ne_stop tv n i skip line hc)
        | push out skip2 =>
          exact (ih (i + 1) skip2).trans (List.sublist_append_right _ _)

set_option maxRecDepth 100000

/-- The two ways in which the lines of a wrapper come from the lines of the loop. -/
theorem wrapperLines_cases (P : RegExpPlain) (recordingCode : Str) (wl : List Str)
    (hw : wrapperLines P recordingCode = some wl) :
    (wl = adaptLoop (timeoutValueOf P recordingCode) (splitOn 10 recordingCode).length 0 false
          (splitOn 10 recordingCode) ∧
      ∃ last, wl.getLast? = some last ∧ closingLine.isSuffixOf (trim last) = true) ∨
    wl = adaptLoop (timeoutValueOf P recordingCode) (splitOn 10 recordingCode).length 0 false
          (splitOn 10 recordingCode) ++ [closingLine] := by
  unfold wrapperLines at hw
  simp only at hw
  cases hl : (adaptLoop (timeoutValueOf P recordingCode) (splitOn 10 recordingCode).length 0
      false (splitOn 10 recordingCode)).getLast? with
  | none => rw [hl] at hw; simp at hw
  | some last =>
    rw [hl] at hw
    simp only at hw
    by_cases hs : closingLine.isSuffixOf (trim last) = true
    · rw [if_pos hs] at hw
      cases hw
      exact Or.inl ⟨rfl, last, hl, hs⟩
    · rw [if_neg hs] at hw
      cases hw
      exact Or.inr rfl

/-- C28 (counterexample): for the recording `bareRecording` a wrapper is written. The
line `(async () => {` of the recording has none of the four texts, no line of the
recording has `})().catch`, and yet this line is not a line of the wrapper. -/
theorem adaptedCode_drops_block_opening :
    adaptedCode unmatchedPlain bareRecording
      = some (utf16 ("module.exports = async (page, scenario, vp) => \x7b\n" ++
          "    const timeout = 5000;\n    await page.reload();\n\x7d)();\n\x7d;")) ∧
    utf16 "(async () => \x7b" ∈ splitOn 10 bareRecording ∧
    includes (utf16 "(async () => \x7b") (utf16 "browser.close()") = false ∧
    includes (utf16 "(async () => \x7b") (utf16 "puppeteer.launch()") = false ∧
    includes (utf16 "(async () => \x7b") (utf16 "browser.newPage()") = false ∧
    includes (utf16 "(async () => \x7b") (utf16 "setDefaultTimeout") = false ∧
    (∀ l ∈ splitOn 10 bareRecording, includes l (utf16 "\x7d)().catch") = false) ∧
    utf16 "(async () => \x7b" ∉ splitOn 10 (utf16
      ("module.exports = async (page, scenario, vp) => \x7b\n" ++
        "    const timeout = 5000;\n    await page.reload();\n\x7d)();\n\x7d;")) := by
  refine ⟨rfl, by decide, by decide, by decide, by decide, by decide, by decide,
    by decide⟩

/-- C28 (amended): when a wrapper is written for a recording whose timeout, if the
pattern finds one, is made of digits, the text written is its lines joined by line
breaks; no line has `browser.close()`, `puppeteer.launch()`, `browser.newPage()` or
`setDefaultTimeout`; the last line, trimmed, ends with `};`; the lines other than
those that the loop writes of its own are lines of the recording from before the
first line with `})().catch` and none of the earlier marks, unchanged and in order;
and every line before the first line with `catch` that has none of the marks is
kept, unchanged and in order. -/
theorem adaptedCode_lines (P : RegExpPlain) (recordingCode : Str) (wl : List Str)
    (hdigits : ∀ v, P.group1 timeoutPattern recordingCode = some v →
      ∀ c ∈ v, 48 ≤ c ∧ c ≤ 57)
    (hw : wrapperLines P recordingCode = some wl) :
    adaptedCode P recordingCode = some (join [10] wl) ∧
    splitOn 10 (join [10] wl) = wl ∧
    (∀ l ∈ wl,
      includes l (utf16 "browser.close()") = false ∧
      includes l (utf16 "puppeteer.launch()") = false ∧
      includes l (utf16 "browser.newPage()") = false ∧
      includes l (utf16 "setDefaultTimeout") = false) ∧
    (∃ last, wl.getLast? = some last ∧ closingLine.isSuffixOf (trim last) = true) ∧
    List.Sublist
      (wl.filter fun l => decide (l ∉ insertedLines (timeoutValueOf P recordingCode)))
      ((splitOn 10 recordingCode).takeWhile fun l => !stopsAt l) ∧
    List.Sublist
      (((splitOn 10 recordingCode).takeWhile fun l => !includes l (utf16 "catch")).filter
        fun l => !hasMark l)
      wl := by
  have htv : ∀ c ∈ timeoutValueOf P recordingCode, 48 ≤ c ∧ c ≤ 57 := by
    unfold timeoutValueOf
    cases hg : P.group1 timeoutPattern recordingCode with
    | none => decide
    | some v => exact hdigits v hg
  have hclean := timeoutLine_clean _ htv
  have hmem : ∀ l ∈ wl,
      (l ∈ splitOn 10 recordingCode ∧
        includes l (utf16 "browser.close()") = false ∧
        includes l (utf16 "puppeteer.launch()") = false ∧
        includes l (utf16 "browser.newPage()") = false ∧
        includes l (utf16 "setDefaultTimeout") = false) ∨
      l ∈ insertedLines (timeoutValueOf P recordingCode) := by
    intro l hl
    rcases wrapperLines_cases P recordingCode wl hw with ⟨he, _⟩ | he
    · rw [he] at hl
      rcases mem_adaptLoop _ _ _ _ _ l hl with h | h
      · exact Or.inl h
      · right
        simp only [insertedLines, List.mem_cons, List.mem_singleton, List.not_mem_nil,
          or_false] at h ⊢
        tauto
    · rw [he] at hl
      rcases List.mem_append.mp hl with hl | hl
      · rcases mem_adaptLoop _ _ _ _ _ l hl with h | h
        · exact Or.inl h
        · right
          simp only [insertedLines, List.mem_cons, List.mem_singleton, List.not_mem_nil,
            or_false] at h ⊢
          tauto
      · right
        rw [List.mem_singleton] at hl
        simp [insertedLines, hl]
  have hins : ∀ l ∈ insertedLines (timeoutValueOf P recordingCode),
      (includes l (utf16 "browser.close()") = false ∧
        includes l (utf16 "puppeteer.launch()") = false ∧
        includes l (utf16 "browser.newPage()") = false ∧
        includes l (utf16 "setDefaultTimeout") = false) ∧ 10 ∉ l := by
    intro l hl
    simp only [insertedLines, List.mem_cons, List.mem_singleton, List.not_mem_nil,
      or_false] at hl
    rcases hl with hl | hl | hl | hl
    · subst hl; decide
    · subst hl; decide
    · subst hl
      exact ⟨⟨hclean.1, hclean.2.1, hclean.2.2.1, hclean.2.2.2.1⟩, hclean.2.2.2.2⟩
    · subst hl; decide
  have hlast : ∃ last, wl.getLast? = some last ∧ closingLine.isSuffixOf (trim last) = true := by
    rcases wrapperLines_cases P recordingCode wl hw with ⟨_, h⟩ | he
    · exact h
    · refine ⟨closingLine, ?_, by decide⟩
      rw [he, List.getLast?_append]
      rfl
  have hne : wl ≠ [] := by
    obtain ⟨last, h, _⟩ := hlast
    intro hn
    rw [hn] at h
    simp at h
  refine ⟨?_, ?_, ?_, hlast, ?_, ?_⟩
  · unfold adaptedCode
    rw [hw]
    rfl
  · apply splitOn_join 10 wl hne
    intro l hl
    rcases hmem l hl with h | h
    · exact not_mem_of_mem_splitOn 10 recordingCode l h.1
    · exact (hins l h).2
  · intro l hl
    rcases hmem l hl with h | h
    · exact h.2
    · exact (hins l h).1
  · rcases wrapperLines_cases P recordingCode wl hw with ⟨he, _⟩ | he
    · rw [he]
      exact adaptLoop_sublist _ _ _ _ _
    · rw [he, List.filter_append]
      have : ([closingLine].filter fun l =>
          decide (l ∉ insertedLines (timeoutValueOf P recordingCode))) = [] := by
        simp [insertedLines]
      rw [this, List.append_nil]
      exact adaptLoop_sublist _ _ _ _ _
  · rcases wrapperLines_cases P recordingCode wl hw with ⟨he, _⟩ | he
    · rw [he]
      exact sublist_adaptLoop _ _ _ _ _
    · rw [he]
      exact (sublist_adaptLoop _ _ _ _ _).trans (List.sublist_append_left _ _)

/-- Witness of C28: the sample recording, whose timeout is `5000`; its wrapper has
nine lines. -/
theorem adaptedCode_lines_witness :
    ∃ wl : List Str,
      wrapperLines sampleRecordingPlain sampleRecording = some wl ∧
      wl.length = 9 ∧
      adaptedCode sampleRecordingPlain sampleRecording = some (join [10] wl) ∧
      splitOn 10 (join [10] wl) = wl ∧
      (∀ l ∈ wl,
        includes l (utf16 "browser.close()") = false ∧
        includes l (utf16 "puppeteer.launch()") = false ∧
        includes l (utf16 "browser.newPage()") = false ∧
        includes l (utf16 "setDefaultTimeout") = false) ∧
      (∃ last, wl.getLast? = some last ∧ closingLine.isSuffixOf (trim last) = true) ∧
      List.Sublist
        (wl.filter fun l =>
          decide (l ∉ insertedLines (timeoutValueOf sampleRecordingPlain sampleRecording)))
        ((splitOn 10 sampleRecording).takeWhile fun l => !stopsAt l) ∧
      List.Sublist
        (((splitOn 10 sampleRecording).takeWhile fun l => !includes l (utf16 "catch")).filter
          fun l => !hasMark l)
        wl :=
  ⟨[requireLine, [], exportLine, timeoutLine (utf16 "5000"), [], utf16 "    await page.reload();",
      [], [], closingLine],
    by decide, rfl,
    adaptedCode_lines sampleRecordingPlain sampleRecording _
      (fun v hv => by
        have : v = utf16 "5000" := by
          simp only [sampleRecordingPlain, if_true] at hv
          exact (Option.some.inj hv).symm
        subst this
        decide)
      (by decide)⟩

end Backstop
